import Mathlib

/-!
# Asymmetric defer/lockout debounce (`quantum/debounce/asym_defer_lockout.c`)

A shallow embedding of the debounce filter and the properties of its
per-position timing state machine.

Modelling conventions:

* a `matrix_row_t` is the natural number whose binary digits are the columns
  of the row; column `c` of a row `x` is `x.testBit c`;
* the arrays `raw[]`, `cooked[]` and the arena `debounce_counters` are lists,
  read with `List.getD` and written with `List.set`; an access past the end, for
  which the C program has no defined behaviour, reads an idle counter or an empty
  row and writes nothing, and the theorems that depend on an access say that the
  index is in range;
* `debounce_pointer` is the index of the counter it points to;
* the bit-field `time : 7` is a `Fin 128`; every store into it reduces the
  stored value modulo `128`;
* the configuration macros (`DEBOUNCE_INITIAL_DELAY`, `DEBOUNCE_LOCKOUT_PERIOD`,
  `MATRIX_COLS`, the width of `fast_timer_t`) are the fields of `Config`;
* the timer reading `timer_read_fast()` is an argument `now` of `debounce`; the local
  `elapsed_time` of `debounce` is a natural number, converted to `uint8_t` (reduced
  modulo `256`) where it becomes the argument of the update pass;
* the pointer returned by `malloc` is an argument of `debounce_init`, whose result
  is undefined (`none`) when it stores through a null pointer or outside the block.
-/

namespace AsymDeferLockout

/-! ## Configuration -/

/-- The compile-time configuration of the translation unit. -/
structure Config where
  /-- The macro `DEBOUNCE_INITIAL_DELAY` (default `5`). -/
  DEBOUNCE_INITIAL_DELAY : Nat
  /-- The macro `DEBOUNCE_LOCKOUT_PERIOD` (default `12`). -/
  DEBOUNCE_LOCKOUT_PERIOD : Nat
  /-- The macro `MATRIX_COLS`, supplied by the keyboard. -/
  MATRIX_COLS : Nat
  /-- The number of bits of `fast_timer_t`. -/
  timer_bits : Nat
deriving DecidableEq, Repr

/-- The configuration with the default delays of the source file
(`#ifndef DEBOUNCE_INITIAL_DELAY` ... `5`, `#ifndef DEBOUNCE_LOCKOUT_PERIOD` ... `12`). -/
def Config.defaults (cols tbits : Nat) : Config :=
  { DEBOUNCE_INITIAL_DELAY := 5
    DEBOUNCE_LOCKOUT_PERIOD := 12
    MATRIX_COLS := cols
    timer_bits := tbits }

/-- The macro `TOTAL_DELAY (DEBOUNCE_INITIAL_DELAY + DEBOUNCE_LOCKOUT_PERIOD)`. -/
def TOTAL_DELAY (cfg : Config) : Nat :=
  cfg.DEBOUNCE_INITIAL_DELAY + cfg.DEBOUNCE_LOCKOUT_PERIOD

/-- The macro `ROW_SHIFTER ((matrix_row_t)1)`. -/
def ROW_SHIFTER : Nat := 1

/-- The macro `DEBOUNCE_ELAPSED 0`. -/
def DEBOUNCE_ELAPSED : Nat := 0

/-- The constant `UINT8_MAX`. -/
def UINT8_MAX : Nat := 255

/-! ## Data model -/

/-- The bit-field record `debounce_counter_t`: `bool pressed : 1; uint8_t time : 7`. -/
structure debounce_counter_t where
  pressed : Bool
  time : Fin 128
deriving DecidableEq, Repr

/-- A store of the value `v` into the 7-bit field `time`. -/
def time_field (v : Nat) : Fin 128 := ⟨v % 128, Nat.mod_lt v (by decide)⟩

/-- The counter written by `debounce_init`: `time = 0`, `pressed = true`. -/
def counter_init : debounce_counter_t := { pressed := true, time := time_field 0 }

/-- The file-scope variables of the translation unit, the matrix `cooked[]` that
`debounce` mutates in place, and the local `debounce_pointer` of the update pass. -/
structure Mem where
  debounce_counters : List debounce_counter_t
  last_time : Nat
  counters_need_update : Bool
  cooked_changed : Bool
  cooked : List Nat
  debounce_pointer : Nat
deriving DecidableEq, Repr

/-- The counter at index `i` of the arena. -/
def Mem.counter (s : Mem) (i : Nat) : debounce_counter_t :=
  s.debounce_counters.getD i counter_init

/-- The row `cooked[row]`. -/
def Mem.cooked_row (s : Mem) (row : Nat) : Nat :=
  s.cooked.getD row 0

/-- Column `col` of `cooked[row]`. -/
def Mem.cooked_bit (s : Mem) (row col : Nat) : Bool :=
  (s.cooked_row row).testBit col

/-- Column `col` of `raw[row]`. -/
def raw_bit (raw : List Nat) (row col : Nat) : Bool :=
  (raw.getD row 0).testBit col

/-- The unsigned expression `x & ~m`: the bits of `x` that are not in `m`. -/
def and_not (x m : Nat) : Nat := x ^^^ (x &&& m)

/-! ## The update pass -/

/-- The body of the inner loop of `update_debounce_counters_and_transfer_if_expired`
for the position `(row, col)`; `raw_row` is `raw[row]` and `delta` is the value
computed at the head of the row. -/
def update_position (cfg : Config) (raw_row delta row col elapsed_time : Nat)
    (s : Mem) : Mem :=
  let col_mask := ROW_SHIFTER <<< col
  let p := s.debounce_pointer
  let s3 :=
    if (s.counter p).time.val ≠ DEBOUNCE_ELAPSED then
      let s1 :=
        if (s.counter p).time.val ≤ cfg.DEBOUNCE_LOCKOUT_PERIOD
            ∧ (s.counter p).pressed = false then
          let cooked_next := and_not (s.cooked_row row) col_mask ||| (raw_row &&& col_mask)
          let changed := s.cooked_changed || ((cooked_next ^^^ s.cooked_row row) != 0)
          let t : Mem := { s with cooked_changed := changed, cooked := s.cooked.set row cooked_next }
          if changed then
            { t with debounce_counters :=
                t.debounce_counters.set p { t.counter p with pressed := true } }
          else t
        else s
      if (s1.counter p).time.val ≤ elapsed_time then
        { s1 with debounce_counters :=
            s1.debounce_counters.set p { s1.counter p with time := time_field DEBOUNCE_ELAPSED } }
      else
        { s1 with
            debounce_counters :=
              s1.debounce_counters.set p
                { s1.counter p with time := time_field ((s1.counter p).time.val - elapsed_time) }
            counters_need_update := true }
    else
      if delta &&& col_mask ≠ 0 then
        { s with
            debounce_counters :=
              s.debounce_counters.set p
                { pressed := false, time := time_field (TOTAL_DELAY cfg) }
            counters_need_update := true }
      else s
  { s3 with debounce_pointer := p + 1 }

/-- The inner loop `for (col = 0; col < MATRIX_COLS; col++)` of one row. -/
def col_loop (cfg : Config) (raw_row delta row elapsed_time : Nat) (s : Mem) : Mem :=
  (List.range cfg.MATRIX_COLS).foldl
    (fun s col => update_position cfg raw_row delta row col elapsed_time s) s

/-- The body of the outer loop: `delta = raw[row] ^ cooked[row]`, then the inner loop. -/
def update_row (cfg : Config) (raw : List Nat) (elapsed_time : Nat) (s : Mem) (row : Nat) : Mem :=
  col_loop cfg (raw.getD row 0) (raw.getD row 0 ^^^ s.cooked_row row) row elapsed_time s

/-- The function `update_debounce_counters_and_transfer_if_expired`. -/
def update_debounce_counters_and_transfer_if_expired (cfg : Config) (raw : List Nat)
    (num_rows elapsed_time : Nat) (s : Mem) : Mem :=
  (List.range num_rows).foldl (update_row cfg raw elapsed_time)
    { s with debounce_pointer := 0, counters_need_update := false }

/-! ## The entry point -/

/-- Modelled from the spec: the macro `TIMER_DIFF_FAST(a, b)` of `timer.h`, which is
not part of the sources at hand; the wraparound-safe subtraction `a - b` in the
width of `fast_timer_t`. -/
def TIMER_DIFF_FAST (cfg : Config) (a b : Nat) : Nat :=
  (a % 2 ^ cfg.timer_bits + (2 ^ cfg.timer_bits - b % 2 ^ cfg.timer_bits)) % 2 ^ cfg.timer_bits

/-- The value of the local `elapsed_time` of `debounce` after the clamp to `UINT8_MAX`. -/
def elapsed_ticks (cfg : Config) (now last_time : Nat) : Nat :=
  if TIMER_DIFF_FAST cfg now last_time > UINT8_MAX then UINT8_MAX
  else TIMER_DIFF_FAST cfg now last_time

/-- The conversion of a value to `uint8_t`, the type of the parameter `elapsed_time` of
`update_debounce_counters_and_transfer_if_expired`. -/
def to_uint8_t (v : Nat) : Nat := v % (UINT8_MAX + 1)

/-- The function `debounce`; `now` is the value returned by `timer_read_fast()`.
The local `elapsed_time`, of type `fast_timer_t`, is converted to `uint8_t` where it is
handed to the update pass. The result is the returned flag and the memory after the call. -/
def debounce (cfg : Config) (raw : List Nat) (num_rows : Nat) (changed : Bool) (now : Nat)
    (s : Mem) : Bool × Mem :=
  let s0 : Mem := { s with cooked_changed := false }
  let s2 :=
    if s0.counters_need_update || changed then
      let elapsed_time := elapsed_ticks cfg now s0.last_time
      let s1 : Mem := { s0 with last_time := now }
      if elapsed_time > 0 then
        update_debounce_counters_and_transfer_if_expired cfg raw num_rows
          (to_uint8_t elapsed_time) s1
      else s1
    else s0
  (s2.cooked_changed, s2)

/-! ## Initialisation

The pointer `debounce_counters` is null or points to a block of counters; the pointer
that `malloc` returns is an argument of `debounce_init`. A memory `Mem` holds the block
of a non-null arena. -/

/-- The value of the pointer `debounce_counters`: `NULL`, or the block of counters it
points to. -/
inductive arena_t where
  | null
  | block (cells : List debounce_counter_t)
deriving DecidableEq, Repr

/-- A store into a field of `debounce_counters[i]`; `f` rewrites the counter. The result
is `none` when the pointer is `NULL` or `i` lies outside the block, where C defines no
behaviour. -/
def arena_t.store (p : arena_t) (i : Nat) (f : debounce_counter_t → debounce_counter_t) :
    Option arena_t :=
  match p with
  | arena_t.null => none
  | arena_t.block cells =>
    if i < cells.length then some (arena_t.block (cells.set i (f (cells.getD i counter_init))))
    else none

/-- The body of the inner loop of `debounce_init`, on the pointer and the index `i`:
`debounce_counters[i].time = 0; debounce_counters[i].pressed = true; i++`. -/
def init_position (st : Option (arena_t × Nat)) : Option (arena_t × Nat) :=
  match st with
  | none => none
  | some (p, i) =>
    match p.store i (fun c => { c with time := time_field 0 }) with
    | none => none
    | some p1 =>
      match p1.store i (fun c => { c with pressed := true }) with
      | none => none
      | some p2 => some (p2, i + 1)

/-- The inner loop `for (c = 0; c < MATRIX_COLS; c++)` of `debounce_init`. -/
def init_row (cfg : Config) (st : Option (arena_t × Nat)) : Option (arena_t × Nat) :=
  (List.range cfg.MATRIX_COLS).foldl (fun st _ => init_position st) st

/-- The function `debounce_init`; `malloc_result` is the pointer that
`malloc(num_rows * MATRIX_COLS * sizeof(debounce_counter_t))` returns. The result is the
pointer `debounce_counters` when the function returns, or `none` when it runs into a store
for which C defines no behaviour. -/
def debounce_init (cfg : Config) (num_rows : Nat) (malloc_result : arena_t) : Option arena_t :=
  match (List.range num_rows).foldl (fun st _ => init_row cfg st) (some (malloc_result, 0)) with
  | none => none
  | some (p, _) => some p

/-- Whether the state of `debounce_init` is undefined or holds a pointer to a block. -/
def init_on_block (st : Option (arena_t × Nat)) : Prop :=
  st = none ∨ ∃ cells i, st = some (arena_t.block cells, i)

/-- The memory after `debounce_init` has returned with the arena `cells`; the other
variables are those of the memory `s` in which it was called. -/
def Mem.with_arena (s : Mem) (cells : List debounce_counter_t) : Mem :=
  { s with debounce_counters := cells }

/-! ## The view of one position

The effect of one iteration of the inner loop on the counter and the cooked bit of
its own position, as functions of the values at the start of the iteration. -/

/-- Whether the counter takes the transfer branch: its timer runs, `time` is at most
`DEBOUNCE_LOCKOUT_PERIOD` and `pressed` is false. -/
def in_lockout (cfg : Config) (c : debounce_counter_t) : Bool :=
  decide (c.time.val ≠ DEBOUNCE_ELAPSED) && decide (c.time.val ≤ cfg.DEBOUNCE_LOCKOUT_PERIOD)
    && !c.pressed

/-- Whether the copy of the transfer branch changes the cooked bit `kb` of the position
(the raw bit is `rb`). -/
def cell_flips (cfg : Config) (rb kb : Bool) (c : debounce_counter_t) : Bool :=
  in_lockout cfg c && (rb != kb)

/-- The cooked bit of the position after its iteration. -/
def cell_bit (cfg : Config) (rb kb : Bool) (c : debounce_counter_t) : Bool :=
  if in_lockout cfg c then rb else kb

/-- The counter of the position after its iteration; `acc` is the value of
`cooked_changed` when the iteration starts. -/
def cell_counter (cfg : Config) (elapsed_time : Nat) (rb kb acc : Bool)
    (c : debounce_counter_t) : debounce_counter_t :=
  if c.time.val ≠ DEBOUNCE_ELAPSED then
    { pressed := c.pressed || (in_lockout cfg c && (acc || (rb != kb)))
      time :=
        if c.time.val ≤ elapsed_time then time_field DEBOUNCE_ELAPSED
        else time_field (c.time.val - elapsed_time) }
  else if rb != kb then { pressed := false, time := time_field (TOTAL_DELAY cfg) }
  else c

/-- Whether the iteration of the position sets `counters_need_update`. -/
def cell_pending (elapsed_time : Nat) (rb kb : Bool) (c : debounce_counter_t) : Bool :=
  if c.time.val ≠ DEBOUNCE_ELAPSED then !decide (c.time.val ≤ elapsed_time) else (rb != kb)

/-- The row `cooked[row]` after the iteration of column `col`. -/
def cell_row (cfg : Config) (raw_row cooked_row col : Nat) (c : debounce_counter_t) : Nat :=
  if in_lockout cfg c then
    and_not cooked_row (ROW_SHIFTER <<< col) ||| (raw_row &&& ROW_SHIFTER <<< col)
  else cooked_row

/-! ## The state of the pass after `k` positions

Positions are numbered in the order of the loops: the position `(row, col)` has the
number `row * MATRIX_COLS + col`, which is also the index of its counter. -/

/-- The memory in which the loops of the update pass start. -/
def pass_start (s : Mem) : Mem :=
  { s with debounce_pointer := 0, counters_need_update := false }

/-- The memory in which `debounce` calls the update pass. -/
def pass_entry (s : Mem) (now : Nat) : Mem :=
  { s with cooked_changed := false, last_time := now }

/-- Column `j % MATRIX_COLS` of row `j / MATRIX_COLS` of `raw`: the raw bit of the
position whose counter has index `j`. -/
def pos_raw (cfg : Config) (raw : List Nat) (j : Nat) : Bool :=
  raw_bit raw (j / cfg.MATRIX_COLS) (j % cfg.MATRIX_COLS)

/-- The cooked bit of the position whose counter has index `j`. -/
def pos_cooked (cfg : Config) (s : Mem) (j : Nat) : Bool :=
  s.cooked_bit (j / cfg.MATRIX_COLS) (j % cfg.MATRIX_COLS)

/-- Whether the pass started in `s` copies a differing raw bit at the position of index `j`. -/
def pos_flips (cfg : Config) (raw : List Nat) (s : Mem) (j : Nat) : Bool :=
  cell_flips cfg (pos_raw cfg raw j) (pos_cooked cfg s j) (s.counter j)

/-- The value of `cooked_changed` when the pass started in `s` reaches the position of
index `k`. -/
def acc_upto (cfg : Config) (raw : List Nat) (s : Mem) (k : Nat) : Bool :=
  s.cooked_changed || (List.range k).any (pos_flips cfg raw s)

/-- Whether the pass started in `s` raises `counters_need_update` at the position of index `j`. -/
def pos_pending (cfg : Config) (raw : List Nat) (e : Nat) (s : Mem) (j : Nat) : Bool :=
  cell_pending e (pos_raw cfg raw j) (pos_cooked cfg s j) (s.counter j)

/-- The value of `counters_need_update` when the pass reaches the position of index `k`. -/
def need_upto (cfg : Config) (raw : List Nat) (e : Nat) (s : Mem) (k : Nat) : Bool :=
  (List.range k).any (pos_pending cfg raw e s)

/-- The state of the pass started in `s0` once the first `k` positions are done. -/
structure PassInv (cfg : Config) (raw : List Nat) (e : Nat) (s0 : Mem) (k : Nat) (s : Mem) :
    Prop where
  ptr : s.debounce_pointer = k
  last : s.last_time = s0.last_time
  clen : s.debounce_counters.length = s0.debounce_counters.length
  klen : s.cooked.length = s0.cooked.length
  done_counter : ∀ j, j < k → j < s0.debounce_counters.length →
    s.counter j = cell_counter cfg e (pos_raw cfg raw j) (pos_cooked cfg s0 j)
      (acc_upto cfg raw s0 j) (s0.counter j)
  todo_counter : ∀ j, k ≤ j → s.counter j = s0.counter j
  done_bit : ∀ r c, c < cfg.MATRIX_COLS → r * cfg.MATRIX_COLS + c < k → r < s0.cooked.length →
    s.cooked_bit r c = cell_bit cfg (raw_bit raw r c) (s0.cooked_bit r c)
      (s0.counter (r * cfg.MATRIX_COLS + c))
  todo_bit : ∀ r c, (cfg.MATRIX_COLS ≤ c ∨ k ≤ r * cfg.MATRIX_COLS + c) →
    s.cooked_bit r c = s0.cooked_bit r c
  chg : s.cooked_changed = acc_upto cfg raw s0 k
  need : s.counters_need_update = (s0.counters_need_update || need_upto cfg raw e s0 k)

/-! ## Sequences of calls -/

/-- The arguments of one call of `debounce`: the raw matrix, the hint and the value
that `timer_read_fast()` returns during the call. -/
structure Call where
  raw : List Nat
  changed : Bool
  now : Nat
deriving DecidableEq, Repr

/-- The memory after one call of `debounce`. -/
def step (cfg : Config) (num_rows : Nat) (s : Mem) (c : Call) : Mem :=
  (debounce cfg c.raw num_rows c.changed c.now s).2

/-- The memory after a sequence of calls of `debounce`. -/
def run (cfg : Config) (num_rows : Nat) (s : Mem) (calls : List Call) : Mem :=
  calls.foldl (step cfg num_rows) s

/-- The elapsed ticks of a call made in the memory `s`: the clamped distance of its
timer reading from `last_time`. -/
def call_elapsed (cfg : Config) (s : Mem) (c : Call) : Nat :=
  elapsed_ticks cfg c.now s.last_time

/-- The elapsed ticks that a call made in the memory `s` hands to the update pass;
`0` when the call does not run the pass. -/
def pass_elapsed (cfg : Config) (s : Mem) (c : Call) : Nat :=
  if s.counters_need_update || c.changed then elapsed_ticks cfg c.now s.last_time else 0

/-- The elapsed ticks of each call of a sequence, in order. -/
def call_trace (cfg : Config) (num_rows : Nat) : Mem → List Call → List Nat
  | _, [] => []
  | s, c :: cs => call_elapsed cfg s c :: call_trace cfg num_rows (step cfg num_rows s c) cs

/-- The elapsed ticks that each call of a sequence hands to the update pass, in order. -/
def pass_trace (cfg : Config) (num_rows : Nat) : Mem → List Call → List Nat
  | _, [] => []
  | s, c :: cs => pass_elapsed cfg s c :: pass_trace cfg num_rows (step cfg num_rows s c) cs

/-- The `time` of the counter of index `i` at the start of each call of a sequence. -/
def time_trace (cfg : Config) (num_rows i : Nat) : Mem → List Call → List Nat
  | _, [] => []
  | s, x :: xs => (s.counter i).time.val :: time_trace cfg num_rows i (step cfg num_rows s x) xs

/-- Whether each call of a sequence changes the cooked bit of the position `(r, c)`. -/
def change_trace (cfg : Config) (num_rows r c : Nat) : Mem → List Call → List Bool
  | _, [] => []
  | s, x :: xs =>
    ((step cfg num_rows s x).cooked_bit r c != s.cooked_bit r c)
      :: change_trace cfg num_rows r c (step cfg num_rows s x) xs

/-! ## Sample memories -/

/-- A memory of one row and two columns: the counter of column `0` is idle, the counter
of column `1` is in the lockout window with `pressed` false; both cooked bits are `0`. -/
def sample_lockout : Mem :=
  { debounce_counters := [{ pressed := true, time := 0 }, { pressed := false, time := 3 }]
    last_time := 20
    counters_need_update := true
    cooked_changed := false
    cooked := [0]
    debounce_pointer := 0 }

/-- A memory of one row and two columns at rest: both counters idle, cooked row `2`. -/
def sample_idle : Mem :=
  { debounce_counters := [{ pressed := true, time := 0 }, { pressed := true, time := 0 }]
    last_time := 20
    counters_need_update := false
    cooked_changed := false
    cooked := [2]
    debounce_pointer := 0 }

/-- A memory of one row and two columns: the counter of column `0` is idle, the counter
of column `1` is in the initial delay (`time = 15`); cooked row `0`. -/
def sample_delay : Mem :=
  { debounce_counters := [{ pressed := true, time := 0 }, { pressed := false, time := 15 }]
    last_time := 20
    counters_need_update := true
    cooked_changed := false
    cooked := [0]
    debounce_pointer := 0 }

/-- A memory of one row and one column at rest: the counter is idle, the cooked bit is `0`,
the timer was last read at `20`. -/
def sample_rest : Mem :=
  { debounce_counters := [{ pressed := true, time := 0 }]
    last_time := 20
    counters_need_update := false
    cooked_changed := false
    cooked := [0]
    debounce_pointer := 0 }

/-- A memory of one row and two columns: both counters are in the lockout window
(`time = 3`) with `pressed` false; both cooked bits are `0`. -/
def sample_two_lockout : Mem :=
  { debounce_counters := [{ pressed := false, time := 3 }, { pressed := false, time := 3 }]
    last_time := 20
    counters_need_update := true
    cooked_changed := false
    cooked := [0]
    debounce_pointer := 0 }

/-! ## Lists and bits -/

theorem getD_set_self {α : Type} (l : List α) (i : Nat) (v d : α) (h : i < l.length) :
    (l.set i v).getD i d = v := by
  simp [List.getD_eq_getElem?_getD, List.getElem?_set, h]

theorem getD_set_ne {α : Type} (l : List α) (i j : Nat) (v d : α) (h : i ≠ j) :
    (l.set i v).getD j d = l.getD j d := by
  simp [List.getD_eq_getElem?_getD, List.getElem?_set, h]

theorem set_of_length_le {α : Type} (l : List α) (i : Nat) (v : α) (h : l.length ≤ i) :
    l.set i v = l := by
  apply List.ext_getElem?
  intro j
  rw [List.getElem?_set]
  by_cases hij : i = j
  · subst hij
    have : ¬ i < l.length := by omega
    simp [this, List.getElem?_eq_none h]
  · simp [hij]

theorem set_getD_self {α : Type} (l : List α) (i : Nat) (d : α) :
    l.set i (l.getD i d) = l := by
  by_cases h : i < l.length
  · apply List.ext_getElem?
    intro j
    rw [List.getElem?_set]
    by_cases hij : i = j
    · subst hij
      simp [h, List.getD_eq_getElem?_getD, List.getElem?_eq_getElem h]
    · simp [hij]
  · exact set_of_length_le l i _ (by omega)

theorem testBit_col_mask (col i : Nat) :
    (ROW_SHIFTER <<< col).testBit i = decide (col = i) := by
  simp [ROW_SHIFTER, Nat.one_shiftLeft, Nat.testBit_two_pow]

theorem testBit_and_not (x m i : Nat) :
    (and_not x m).testBit i = (x.testBit i && !m.testBit i) := by
  unfold and_not
  rw [Nat.testBit_xor, Nat.testBit_and]
  cases x.testBit i <;> cases m.testBit i <;> rfl

theorem testBit_cooked_next (x r col i : Nat) :
    (and_not x (ROW_SHIFTER <<< col) ||| (r &&& ROW_SHIFTER <<< col)).testBit i
      = if i = col then r.testBit col else x.testBit i := by
  rw [Nat.testBit_or, Nat.testBit_and, testBit_and_not, testBit_col_mask]
  by_cases h : i = col
  · subst h; simp
  · have h2 : ¬ col = i := fun e => h e.symm
    simp [h, h2]

theorem and_col_mask_ne_zero (x col : Nat) :
    (x &&& ROW_SHIFTER <<< col ≠ 0) ↔ x.testBit col = true := by
  simp only [ROW_SHIFTER, Nat.one_shiftLeft, Nat.and_two_pow]
  cases x.testBit col <;> simp

theorem cooked_next_xor (x r col : Nat) :
    (and_not x (ROW_SHIFTER <<< col) ||| (r &&& ROW_SHIFTER <<< col)) ^^^ x
      = (r ^^^ x) &&& ROW_SHIFTER <<< col := by
  apply Nat.eq_of_testBit_eq
  intro i
  rw [Nat.testBit_xor, testBit_cooked_next, Nat.testBit_and, Nat.testBit_xor, testBit_col_mask]
  by_cases h : i = col
  · subst h; simp
  · have h2 : ¬ col = i := fun e => h e.symm
    simp [h, h2]

theorem cooked_next_changed (x r col : Nat) :
    (((and_not x (ROW_SHIFTER <<< col) ||| (r &&& ROW_SHIFTER <<< col)) ^^^ x) != 0)
      = (r.testBit col != x.testBit col) := by
  rw [cooked_next_xor]
  have h := and_col_mask_ne_zero (r ^^^ x) col
  rw [Nat.testBit_xor] at h
  by_cases h0 : (r ^^^ x) &&& ROW_SHIFTER <<< col = 0
  · have : ¬ ((r.testBit col ^^ x.testBit col) = true) := fun e => (h.mpr e) h0
    rw [h0]
    revert this
    cases r.testBit col <;> cases x.testBit col <;> simp
  · have : (r.testBit col ^^ x.testBit col) = true := h.mp h0
    have h1 : (((r ^^^ x) &&& ROW_SHIFTER <<< col) != 0) = true := by simpa using h0
    rw [h1]
    revert this
    cases r.testBit col <;> cases x.testBit col <;> simp


/-! ## One iteration of the inner loop -/

theorem counter_oob_time (cs : List debounce_counter_t) (p : Nat)
    (ht : ¬ (cs.getD p counter_init).time.val = DEBOUNCE_ELAPSED) : p < cs.length := by
  by_contra hlen
  apply ht
  have : cs.getD p counter_init = counter_init := by
    simp [List.getD_eq_getElem?_getD, List.getElem?_eq_none (Nat.le_of_not_lt hlen)]
  rw [this]; rfl

theorem update_position_eq (cfg : Config) (raw_row delta row col e : Nat) (s : Mem)
    (hdelta : delta.testBit col = (raw_row.testBit col != s.cooked_bit row col)) :
    update_position cfg raw_row delta row col e s =
      { debounce_counters :=
          s.debounce_counters.set s.debounce_pointer
            (cell_counter cfg e (raw_row.testBit col) (s.cooked_bit row col) s.cooked_changed
              (s.counter s.debounce_pointer))
        last_time := s.last_time
        counters_need_update :=
          s.counters_need_update ||
            cell_pending e (raw_row.testBit col) (s.cooked_bit row col)
              (s.counter s.debounce_pointer)
        cooked_changed :=
          s.cooked_changed ||
            cell_flips cfg (raw_row.testBit col) (s.cooked_bit row col)
              (s.counter s.debounce_pointer)
        cooked := s.cooked.set row
          (cell_row cfg raw_row (s.cooked_row row) col (s.counter s.debounce_pointer))
        debounce_pointer := s.debounce_pointer + 1 } := by
  obtain ⟨cs, lt, need, chg, ck, p⟩ := s
  simp only [Mem.cooked_bit, Mem.cooked_row] at hdelta
  have hd : (delta &&& ROW_SHIFTER <<< col ≠ 0) ↔
      (raw_row.testBit col != (ck.getD row 0).testBit col) = true := by
    rw [and_col_mask_ne_zero, hdelta]
  simp only [update_position, Mem.counter, Mem.cooked_bit, Mem.cooked_row, cell_counter,
    cell_pending, cell_flips, cell_row, in_lockout, cooked_next_changed]
  by_cases ht : (cs.getD p counter_init).time.val = DEBOUNCE_ELAPSED
  · -- idle counter
    by_cases hm : (raw_row.testBit col != (ck.getD row 0).testBit col) = true
    · have hd2 := hd.mpr hm
      simp [-List.getD_eq_getElem?_getD, ht, hm, hd2, set_getD_self]
    · have hd2 : ¬ (delta &&& ROW_SHIFTER <<< col ≠ 0) := fun h => hm (hd.mp h)
      simp [-List.getD_eq_getElem?_getD, ht, hm, hd2, set_getD_self]
  · have hp : p < cs.length := counter_oob_time cs p ht
    by_cases hl : (cs.getD p counter_init).time.val ≤ cfg.DEBOUNCE_LOCKOUT_PERIOD
        ∧ (cs.getD p counter_init).pressed = false
    · by_cases hc : (chg || (raw_row.testBit col != (ck.getD row 0).testBit col)) = true
      · by_cases hle : (cs.getD p counter_init).time.val ≤ e
        · simp [-List.getD_eq_getElem?_getD, ht, hl, hc, hle, getD_set_self, hp]
        · simp [-List.getD_eq_getElem?_getD, ht, hl, hc, hle, getD_set_self, hp]
      · by_cases hle : (cs.getD p counter_init).time.val ≤ e
        · simp [-List.getD_eq_getElem?_getD, ht, hl, hc, hle, getD_set_self, hp]
        · simp [-List.getD_eq_getElem?_getD, ht, hl, hc, hle, getD_set_self, hp]
    · have hq : ∀ x : Bool, ((cs.getD p counter_init).pressed ||
          (decide ((cs.getD p counter_init).time.val ≤ cfg.DEBOUNCE_LOCKOUT_PERIOD)
            && !(cs.getD p counter_init).pressed && x)) = (cs.getD p counter_init).pressed := by
        intro x
        cases hpr : (cs.getD p counter_init).pressed
        · have hnl : ¬ (cs.getD p counter_init).time.val ≤ cfg.DEBOUNCE_LOCKOUT_PERIOD :=
            fun h => hl ⟨h, hpr⟩
          simp [-List.getD_eq_getElem?_getD, hnl]
        · simp
      by_cases hle : (cs.getD p counter_init).time.val ≤ e
      · simp [-List.getD_eq_getElem?_getD, ht, hl, hle, getD_set_self, hp, set_getD_self, hq]
      · simp [-List.getD_eq_getElem?_getD, ht, hl, hle, getD_set_self, hp, set_getD_self, hq]

theorem idx_div (C r c : Nat) (h : c < C) : (r * C + c) / C = r := by
  have hC : 0 < C := by omega
  rw [Nat.mul_comm, Nat.mul_add_div hC, Nat.div_eq_of_lt h, Nat.add_zero]

theorem idx_mod (C r c : Nat) (h : c < C) : (r * C + c) % C = c := by
  rw [Nat.mul_comm, Nat.mul_add_mod, Nat.mod_eq_of_lt h]

theorem idx_inj (C r c r2 c2 : Nat) (h : c < C) (h2 : c2 < C)
    (e : r * C + c = r2 * C + c2) : r = r2 ∧ c = c2 := by
  have h1 := idx_div C r c h
  have h3 := idx_div C r2 c2 h2
  have h4 := idx_mod C r c h
  have h5 := idx_mod C r2 c2 h2
  rw [e] at h1 h4
  exact ⟨by rw [← h1, h3], by rw [← h4, h5]⟩

theorem testBit_cell_row (cfg : Config) (raw_row x col i : Nat) (ctr : debounce_counter_t) :
    (cell_row cfg raw_row x col ctr).testBit i
      = if i = col then cell_bit cfg (raw_row.testBit col) (x.testBit col) ctr
        else x.testBit i := by
  unfold cell_row cell_bit
  by_cases hl : in_lockout cfg ctr = true
  · simp only [hl, if_true, testBit_cooked_next]
  · simp only [hl]
    by_cases h : i = col
    · subst h; simp
    · simp [h]

theorem cooked_bit_set (cfg : Config) (raw_row col row : Nat) (ctr : debounce_counter_t)
    (ck : List Nat) (r c : Nat) :
    ((ck.set row (cell_row cfg raw_row (ck.getD row 0) col ctr)).getD r 0).testBit c
      = if r = row ∧ c = col ∧ row < ck.length then
          cell_bit cfg (raw_row.testBit col) ((ck.getD row 0).testBit col) ctr
        else (ck.getD r 0).testBit c := by
  by_cases hr : r = row
  · subst hr
    by_cases hlen : r < ck.length
    · rw [getD_set_self _ _ _ _ hlen, testBit_cell_row]
      by_cases hc : c = col
      · simp [hc, hlen]
      · simp [hc]
    · rw [set_of_length_le _ _ _ (Nat.le_of_not_lt hlen)]
      simp [hlen]
  · have hne : row ≠ r := fun e => hr e.symm
    rw [getD_set_ne _ _ _ _ _ hne]
    simp [hr]

theorem acc_upto_succ (cfg : Config) (raw : List Nat) (s : Mem) (k : Nat) :
    acc_upto cfg raw s (k + 1) = (acc_upto cfg raw s k || pos_flips cfg raw s k) := by
  simp [acc_upto, List.range_succ, List.any_append, Bool.or_assoc]

theorem need_upto_succ (cfg : Config) (raw : List Nat) (e : Nat) (s : Mem) (k : Nat) :
    need_upto cfg raw e s (k + 1) = (need_upto cfg raw e s k || pos_pending cfg raw e s k) := by
  simp [need_upto, List.range_succ, List.any_append]

theorem PassInv.step (cfg : Config) (raw : List Nat) (e : Nat) (s0 s : Mem) (r c delta : Nat)
    (hc : c < cfg.MATRIX_COLS)
    (hdelta : delta.testBit c = (raw_bit raw r c != s0.cooked_bit r c))
    (h : PassInv cfg raw e s0 (r * cfg.MATRIX_COLS + c) s) :
    PassInv cfg raw e s0 (r * cfg.MATRIX_COLS + c + 1)
      (update_position cfg (raw.getD r 0) delta r c e s) := by
  have hbit : s.cooked_bit r c = s0.cooked_bit r c := h.todo_bit r c (Or.inr (Nat.le_refl _))
  have hctr : s.counter (r * cfg.MATRIX_COLS + c) = s0.counter (r * cfg.MATRIX_COLS + c) :=
    h.todo_counter _ (Nat.le_refl _)
  have hpr : pos_raw cfg raw (r * cfg.MATRIX_COLS + c) = raw_bit raw r c := by
    simp only [pos_raw, idx_div _ _ _ hc, idx_mod _ _ _ hc]
  have hpc : pos_cooked cfg s0 (r * cfg.MATRIX_COLS + c) = s0.cooked_bit r c := by
    simp only [pos_cooked, idx_div _ _ _ hc, idx_mod _ _ _ hc]
  have hd2 : delta.testBit c = ((raw.getD r 0).testBit c != s.cooked_bit r c) := by
    rw [hdelta, hbit]; rfl
  rw [update_position_eq cfg _ delta r c e s hd2, h.ptr, hctr, hbit, h.chg]
  have hrb : (raw.getD r 0).testBit c = raw_bit raw r c := rfl
  rw [hrb]
  constructor
  · rfl
  · exact h.last
  · simp only [List.length_set]; exact h.clen
  · simp only [List.length_set]; exact h.klen
  · intro j hj hlen
    by_cases hjk : j = r * cfg.MATRIX_COLS + c
    · subst hjk
      simp only [Mem.counter]
      rw [getD_set_self _ _ _ _ (by rw [h.clen]; exact hlen), hpr, hpc]
    · have hlt : j < r * cfg.MATRIX_COLS + c := by omega
      have := h.done_counter j hlt hlen
      simp only [Mem.counter] at this ⊢
      rw [getD_set_ne _ _ _ _ _ (fun e => hjk e.symm)]
      exact this
  · intro j hj
    have hne : r * cfg.MATRIX_COLS + c ≠ j := by omega
    have := h.todo_counter j (by omega)
    simp only [Mem.counter] at this ⊢
    rw [getD_set_ne _ _ _ _ _ hne]
    exact this
  · intro r2 c2 hc2 hlt hlen
    simp only [Mem.cooked_bit, Mem.cooked_row]
    rw [cooked_bit_set]
    by_cases hjk : r2 * cfg.MATRIX_COLS + c2 = r * cfg.MATRIX_COLS + c
    · obtain ⟨hr, hcc⟩ := idx_inj _ _ _ _ _ hc2 hc hjk
      subst hr; subst hcc
      have hl : r2 < s.cooked.length := by rw [h.klen]; exact hlen
      simp only [hl, and_self, if_true]
      have := hbit
      simp only [Mem.cooked_bit, Mem.cooked_row] at this
      rw [this]
      rfl
    · have hne : ¬ (r2 = r ∧ c2 = c ∧ r < s.cooked.length) := by
        rintro ⟨h1, h2, -⟩
        exact hjk (by rw [h1, h2])
      rw [if_neg hne]
      exact h.done_bit r2 c2 hc2 (by omega) hlen
  · intro r2 c2 hor
    simp only [Mem.cooked_bit, Mem.cooked_row]
    rw [cooked_bit_set]
    have hne : ¬ (r2 = r ∧ c2 = c ∧ r < s.cooked.length) := by
      rintro ⟨h1, h2, -⟩
      subst h1; subst h2
      rcases hor with h3 | h3 <;> omega
    rw [if_neg hne]
    exact h.todo_bit r2 c2 (by rcases hor with h3 | h3; exact Or.inl h3; exact Or.inr (by omega))
  · show (acc_upto cfg raw s0 (r * cfg.MATRIX_COLS + c) || _) = _
    rw [acc_upto_succ, pos_flips, hpr, hpc]
  · show (s.counters_need_update || _) = _
    rw [h.need, need_upto_succ, pos_pending, hpr, hpc, Bool.or_assoc]

theorem PassInv.cols (cfg : Config) (raw : List Nat) (e : Nat) (s0 s : Mem) (r delta : Nat)
    (hdelta : ∀ c, delta.testBit c = (raw_bit raw r c != s0.cooked_bit r c))
    (h : PassInv cfg raw e s0 (r * cfg.MATRIX_COLS) s) (n : Nat) (hn : n ≤ cfg.MATRIX_COLS) :
    PassInv cfg raw e s0 (r * cfg.MATRIX_COLS + n)
      ((List.range n).foldl
        (fun s col => update_position cfg (raw.getD r 0) delta r col e s) s) := by
  induction n with
  | zero => simpa using h
  | succ n ih =>
    rw [List.range_succ, List.foldl_append]
    exact PassInv.step cfg raw e s0 _ r n delta (by omega) (hdelta n) (ih (by omega))

theorem PassInv.row (cfg : Config) (raw : List Nat) (e : Nat) (s0 s : Mem) (r : Nat)
    (h : PassInv cfg raw e s0 (r * cfg.MATRIX_COLS) s) :
    PassInv cfg raw e s0 ((r + 1) * cfg.MATRIX_COLS) (update_row cfg raw e s r) := by
  have hd : ∀ c, (raw.getD r 0 ^^^ s.cooked_row r).testBit c
      = (raw_bit raw r c != s0.cooked_bit r c) := by
    intro c
    have hb : s.cooked_bit r c = s0.cooked_bit r c := h.todo_bit r c (Or.inr (by omega))
    rw [Nat.testBit_xor, ← hb]
    simp only [raw_bit, Mem.cooked_bit]
  have := PassInv.cols cfg raw e s0 s r _ hd h cfg.MATRIX_COLS (Nat.le_refl _)
  rw [Nat.add_mul, Nat.one_mul]
  exact this

theorem PassInv.rows (cfg : Config) (raw : List Nat) (e : Nat) (s0 : Mem) (m : Nat)
    (h : PassInv cfg raw e s0 0 s0) :
    PassInv cfg raw e s0 (m * cfg.MATRIX_COLS)
      ((List.range m).foldl (update_row cfg raw e) s0) := by
  induction m with
  | zero => simpa using h
  | succ m ih =>
    rw [List.range_succ, List.foldl_append]
    exact PassInv.row cfg raw e s0 _ m ih

theorem PassInv.init (cfg : Config) (raw : List Nat) (e : Nat) (s0 : Mem)
    (hp : s0.debounce_pointer = 0) : PassInv cfg raw e s0 0 s0 := by
  constructor
  · exact hp
  · rfl
  · rfl
  · rfl
  · intro j hj; omega
  · intro j _; rfl
  · intro r c _ hlt; omega
  · intro r c _; rfl
  · simp [acc_upto]
  · simp [need_upto]

theorem pass_inv (cfg : Config) (raw : List Nat) (num_rows e : Nat) (s : Mem) :
    PassInv cfg raw e (pass_start s) (num_rows * cfg.MATRIX_COLS)
      (update_debounce_counters_and_transfer_if_expired cfg raw num_rows e s) :=
  PassInv.rows cfg raw e (pass_start s) num_rows (PassInv.init cfg raw e _ rfl)

/-! ## The update pass, position by position -/

theorem pass_counter (cfg : Config) (raw : List Nat) (num_rows e : Nat) (s : Mem) (j : Nat)
    (hj : j < num_rows * cfg.MATRIX_COLS) (hlen : j < s.debounce_counters.length) :
    (update_debounce_counters_and_transfer_if_expired cfg raw num_rows e s).counter j
      = cell_counter cfg e (pos_raw cfg raw j) (pos_cooked cfg s j) (acc_upto cfg raw s j)
          (s.counter j) :=
  (pass_inv cfg raw num_rows e s).done_counter j hj hlen

theorem pass_counter_rest (cfg : Config) (raw : List Nat) (num_rows e : Nat) (s : Mem) (j : Nat)
    (hj : num_rows * cfg.MATRIX_COLS ≤ j) :
    (update_debounce_counters_and_transfer_if_expired cfg raw num_rows e s).counter j
      = s.counter j :=
  (pass_inv cfg raw num_rows e s).todo_counter j hj

theorem idx_lt (C n r c : Nat) (hr : r < n) (hc : c < C) : r * C + c < n * C := by
  have h1 : (r + 1) * C ≤ n * C := Nat.mul_le_mul_right C hr
  rw [Nat.add_mul, Nat.one_mul] at h1
  omega

theorem pass_counter_at (cfg : Config) (raw : List Nat) (num_rows e : Nat) (s : Mem) (r c : Nat)
    (hr : r < num_rows) (hc : c < cfg.MATRIX_COLS)
    (hlen : r * cfg.MATRIX_COLS + c < s.debounce_counters.length) :
    (update_debounce_counters_and_transfer_if_expired cfg raw num_rows e s).counter
        (r * cfg.MATRIX_COLS + c)
      = cell_counter cfg e (raw_bit raw r c) (s.cooked_bit r c)
          (acc_upto cfg raw s (r * cfg.MATRIX_COLS + c)) (s.counter (r * cfg.MATRIX_COLS + c)) := by
  have h := pass_counter cfg raw num_rows e s _ (idx_lt _ _ _ _ hr hc) hlen
  simp only [pos_raw, pos_cooked, idx_div _ _ _ hc, idx_mod _ _ _ hc] at h
  exact h

theorem pass_bit (cfg : Config) (raw : List Nat) (num_rows e : Nat) (s : Mem) (r c : Nat)
    (hr : r < num_rows) (hc : c < cfg.MATRIX_COLS) (hlen : r < s.cooked.length) :
    (update_debounce_counters_and_transfer_if_expired cfg raw num_rows e s).cooked_bit r c
      = cell_bit cfg (raw_bit raw r c) (s.cooked_bit r c) (s.counter (r * cfg.MATRIX_COLS + c)) :=
  (pass_inv cfg raw num_rows e s).done_bit r c hc (idx_lt _ _ _ _ hr hc) hlen

theorem pass_bit_rest (cfg : Config) (raw : List Nat) (num_rows e : Nat) (s : Mem) (r c : Nat)
    (h : cfg.MATRIX_COLS ≤ c ∨ num_rows ≤ r) :
    (update_debounce_counters_and_transfer_if_expired cfg raw num_rows e s).cooked_bit r c
      = s.cooked_bit r c := by
  apply (pass_inv cfg raw num_rows e s).todo_bit r c
  rcases h with h | h
  · exact Or.inl h
  · right
    have := Nat.mul_le_mul_right cfg.MATRIX_COLS h
    omega

theorem pass_changed (cfg : Config) (raw : List Nat) (num_rows e : Nat) (s : Mem) :
    (update_debounce_counters_and_transfer_if_expired cfg raw num_rows e s).cooked_changed
      = acc_upto cfg raw s (num_rows * cfg.MATRIX_COLS) :=
  (pass_inv cfg raw num_rows e s).chg

theorem pass_need (cfg : Config) (raw : List Nat) (num_rows e : Nat) (s : Mem) :
    (update_debounce_counters_and_transfer_if_expired cfg raw num_rows e s).counters_need_update
      = need_upto cfg raw e s (num_rows * cfg.MATRIX_COLS) := by
  have h := (pass_inv cfg raw num_rows e s).need
  simpa [pass_start, need_upto, pos_pending, pos_cooked] using h

theorem pass_last_time (cfg : Config) (raw : List Nat) (num_rows e : Nat) (s : Mem) :
    (update_debounce_counters_and_transfer_if_expired cfg raw num_rows e s).last_time
      = s.last_time :=
  (pass_inv cfg raw num_rows e s).last

theorem pass_counters_length (cfg : Config) (raw : List Nat) (num_rows e : Nat) (s : Mem) :
    (update_debounce_counters_and_transfer_if_expired cfg raw num_rows e s).debounce_counters.length
      = s.debounce_counters.length :=
  (pass_inv cfg raw num_rows e s).clen

theorem pass_cooked_length (cfg : Config) (raw : List Nat) (num_rows e : Nat) (s : Mem) :
    (update_debounce_counters_and_transfer_if_expired cfg raw num_rows e s).cooked.length
      = s.cooked.length :=
  (pass_inv cfg raw num_rows e s).klen

/-! ## The three paths through `debounce` -/

theorem debounce_noop (cfg : Config) (raw : List Nat) (num_rows : Nat) (changed : Bool)
    (now : Nat) (s : Mem) (h : (s.counters_need_update || changed) = false) :
    debounce cfg raw num_rows changed now s = (false, { s with cooked_changed := false }) := by
  simp only [debounce, h]
  rfl

theorem debounce_same_tick (cfg : Config) (raw : List Nat) (num_rows : Nat) (changed : Bool)
    (now : Nat) (s : Mem) (h : (s.counters_need_update || changed) = true)
    (he : elapsed_ticks cfg now s.last_time = 0) :
    debounce cfg raw num_rows changed now s = (false, pass_entry s now) := by
  simp only [debounce, h, he]
  rfl

theorem elapsed_ticks_eq_min (cfg : Config) (now last_time : Nat) :
    elapsed_ticks cfg now last_time = min (TIMER_DIFF_FAST cfg now last_time) 255 := by
  unfold elapsed_ticks UINT8_MAX
  by_cases h : TIMER_DIFF_FAST cfg now last_time > 255
  · rw [if_pos h]; omega
  · rw [if_neg h]; omega

/-- The clamp makes the conversion to `uint8_t` lossless. -/
theorem to_uint8_t_elapsed_ticks (cfg : Config) (now last_time : Nat) :
    to_uint8_t (elapsed_ticks cfg now last_time) = elapsed_ticks cfg now last_time := by
  have h := elapsed_ticks_eq_min cfg now last_time
  unfold to_uint8_t UINT8_MAX
  omega

/-- A call that runs the update pass, with the argument of the call as `debounce`
computes it. -/
theorem debounce_pass_argument (cfg : Config) (raw : List Nat) (num_rows : Nat)
    (changed : Bool) (now : Nat) (s : Mem) (h : (s.counters_need_update || changed) = true)
    (he : 0 < elapsed_ticks cfg now s.last_time) :
    debounce cfg raw num_rows changed now s
      = ((update_debounce_counters_and_transfer_if_expired cfg raw num_rows
            (to_uint8_t (elapsed_ticks cfg now s.last_time)) (pass_entry s now)).cooked_changed,
          update_debounce_counters_and_transfer_if_expired cfg raw num_rows
            (to_uint8_t (elapsed_ticks cfg now s.last_time)) (pass_entry s now)) := by
  simp only [debounce, h, gt_iff_lt, he]
  rfl

theorem debounce_pass (cfg : Config) (raw : List Nat) (num_rows : Nat) (changed : Bool)
    (now : Nat) (s : Mem) (h : (s.counters_need_update || changed) = true)
    (he : 0 < elapsed_ticks cfg now s.last_time) :
    debounce cfg raw num_rows changed now s
      = ((update_debounce_counters_and_transfer_if_expired cfg raw num_rows
            (elapsed_ticks cfg now s.last_time) (pass_entry s now)).cooked_changed,
          update_debounce_counters_and_transfer_if_expired cfg raw num_rows
            (elapsed_ticks cfg now s.last_time) (pass_entry s now)) := by
  rw [debounce_pass_argument cfg raw num_rows changed now s h he, to_uint8_t_elapsed_ticks]

/-- The three paths through `debounce`. -/
theorem debounce_cases (cfg : Config) (raw : List Nat) (num_rows : Nat) (changed : Bool)
    (now : Nat) (s : Mem) :
    debounce cfg raw num_rows changed now s = (false, { s with cooked_changed := false })
    ∨ debounce cfg raw num_rows changed now s = (false, pass_entry s now)
    ∨ ((s.counters_need_update || changed) = true ∧ 0 < elapsed_ticks cfg now s.last_time ∧
        debounce cfg raw num_rows changed now s
        = ((update_debounce_counters_and_transfer_if_expired cfg raw num_rows
              (elapsed_ticks cfg now s.last_time) (pass_entry s now)).cooked_changed,
            update_debounce_counters_and_transfer_if_expired cfg raw num_rows
              (elapsed_ticks cfg now s.last_time) (pass_entry s now))) := by
  by_cases h : (s.counters_need_update || changed) = true
  · by_cases he : elapsed_ticks cfg now s.last_time = 0
    · exact Or.inr (Or.inl (debounce_same_tick cfg raw num_rows changed now s h he))
    · have he2 : 0 < elapsed_ticks cfg now s.last_time := Nat.pos_of_ne_zero he
      exact Or.inr (Or.inr ⟨h, he2, debounce_pass cfg raw num_rows changed now s h he2⟩)
  · exact Or.inl (debounce_noop cfg raw num_rows changed now s (by simpa using h))

/-! ## The returned flag (claim C1) -/

theorem cell_bit_ne_iff (cfg : Config) (rb kb : Bool) (c : debounce_counter_t) :
    cell_bit cfg rb kb c ≠ kb ↔ cell_flips cfg rb kb c = true := by
  unfold cell_bit cell_flips
  cases in_lockout cfg c <;> cases rb <;> cases kb <;> simp

theorem acc_upto_eq_true (cfg : Config) (raw : List Nat) (s : Mem) (k : Nat) :
    acc_upto cfg raw s k = true ↔
      s.cooked_changed = true ∨ ∃ j, j < k ∧ pos_flips cfg raw s j = true := by
  simp [acc_upto, List.any_eq_true]

theorem pos_flips_at (cfg : Config) (raw : List Nat) (s : Mem) (r c : Nat)
    (hc : c < cfg.MATRIX_COLS) :
    pos_flips cfg raw s (r * cfg.MATRIX_COLS + c)
      = cell_flips cfg (raw_bit raw r c) (s.cooked_bit r c) (s.counter (r * cfg.MATRIX_COLS + c)) := by
  simp only [pos_flips, pos_raw, pos_cooked, idx_div _ _ _ hc, idx_mod _ _ _ hc]

theorem idx_decompose (C n j : Nat) (hj : j < n * C) :
    j / C < n ∧ j % C < C ∧ j / C * C + j % C = j := by
  have hC : 0 < C := by
    rcases Nat.eq_zero_or_pos C with h | h
    · subst h; simp at hj
    · exact h
  refine ⟨?_, Nat.mod_lt _ hC, ?_⟩
  · exact Nat.div_lt_of_lt_mul (by rw [Nat.mul_comm]; exact hj)
  · rw [Nat.mul_comm]; exact Nat.div_add_mod j C

/-- The pass changes a cooked bit of the matrix exactly when it leaves `cooked_changed` set
(started with the flag cleared). -/
theorem pass_changed_iff (cfg : Config) (raw : List Nat) (num_rows e : Nat) (s : Mem)
    (hrows : num_rows ≤ s.cooked.length) (hclear : s.cooked_changed = false) :
    (update_debounce_counters_and_transfer_if_expired cfg raw num_rows e s).cooked_changed = true
      ↔ ∃ r c, r < num_rows ∧ c < cfg.MATRIX_COLS ∧
          (update_debounce_counters_and_transfer_if_expired cfg raw num_rows e s).cooked_bit r c
            ≠ s.cooked_bit r c := by
  rw [pass_changed, acc_upto_eq_true]
  constructor
  · rintro (h | ⟨j, hj, hf⟩)
    · rw [hclear] at h; cases h
    · obtain ⟨hr, hc, hjj⟩ := idx_decompose _ _ _ hj
      refine ⟨j / cfg.MATRIX_COLS, j % cfg.MATRIX_COLS, hr, hc, ?_⟩
      rw [pass_bit cfg raw num_rows e s _ _ hr hc (by omega), cell_bit_ne_iff,
        ← pos_flips_at cfg raw s _ _ hc, hjj]
      exact hf
  · rintro ⟨r, c, hr, hc, hne⟩
    right
    refine ⟨r * cfg.MATRIX_COLS + c, idx_lt _ _ _ _ hr hc, ?_⟩
    rw [pass_bit cfg raw num_rows e s _ _ hr hc (by omega), cell_bit_ne_iff] at hne
    rw [pos_flips_at cfg raw s _ _ hc]
    exact hne

/-- Claim C1: `debounce` returns `true` exactly when the cooked matrix after the call
differs from the cooked matrix before the call in at least one bit of the rows
`0 .. num_rows-1` and the columns `0 .. MATRIX_COLS-1`; `cooked[]` has at least
`num_rows` rows. -/
theorem debounce_returns_cooked_changed (cfg : Config) (raw : List Nat) (num_rows : Nat)
    (changed : Bool) (now : Nat) (s : Mem) (hrows : num_rows ≤ s.cooked.length) :
    (debounce cfg raw num_rows changed now s).1 = true
      ↔ ∃ r c, r < num_rows ∧ c < cfg.MATRIX_COLS ∧
          (debounce cfg raw num_rows changed now s).2.cooked_bit r c ≠ s.cooked_bit r c := by
  rcases debounce_cases cfg raw num_rows changed now s with h | h | ⟨-, -, h⟩
  · rw [h]
    constructor
    · intro hf; cases hf
    · rintro ⟨r, c, -, -, hne⟩; exact absurd rfl hne
  · rw [h]
    constructor
    · intro hf; cases hf
    · rintro ⟨r, c, -, -, hne⟩; exact absurd rfl hne
  · rw [h]
    exact pass_changed_iff cfg raw num_rows _ (pass_entry s now) hrows rfl

theorem debounce_returns_cooked_changed_witness :
    1 ≤ sample_lockout.cooked.length ∧
    ((debounce (Config.defaults 2 16) [2] 1 false 30 sample_lockout).1 = true
      ↔ ∃ r c, r < 1 ∧ c < (Config.defaults 2 16).MATRIX_COLS ∧
          (debounce (Config.defaults 2 16) [2] 1 false 30 sample_lockout).2.cooked_bit r c
            ≠ sample_lockout.cooked_bit r c) :=
  ⟨by decide,
    debounce_returns_cooked_changed (Config.defaults 2 16) [2] 1 false 30 sample_lockout
      (by decide)⟩

/-! ## Calls that change nothing (claims C2 and C3) -/

theorem list_ext_getD {α : Type} (d : α) (l1 l2 : List α) (hlen : l1.length = l2.length)
    (h : ∀ i, i < l1.length → l1.getD i d = l2.getD i d) : l1 = l2 := by
  apply List.ext_getElem hlen
  intro n h1 h2
  have := h n h1
  rw [List.getD_eq_getElem _ _ h1, List.getD_eq_getElem _ _ h2] at this
  exact this

theorem getD_of_length_le {α : Type} (d : α) (l : List α) (i : Nat) (h : l.length ≤ i) :
    l.getD i d = d := by
  simp [List.getD_eq_getElem?_getD, List.getElem?_eq_none h]

/-- Two memories hold the same cooked matrix when they agree on every cooked bit. -/
theorem cooked_ext (s t : Mem) (hlen : s.cooked.length = t.cooked.length)
    (h : ∀ r c, r < t.cooked.length → s.cooked_bit r c = t.cooked_bit r c) :
    s.cooked = t.cooked := by
  apply list_ext_getD 0 _ _ hlen
  intro r hr
  apply Nat.eq_of_testBit_eq
  intro c
  exact h r c (by omega)

/-- Two memories hold the same arena when they agree on every counter. -/
theorem counters_ext (s t : Mem) (hlen : s.debounce_counters.length = t.debounce_counters.length)
    (h : ∀ j, j < t.debounce_counters.length → s.counter j = t.counter j) :
    s.debounce_counters = t.debounce_counters := by
  apply list_ext_getD counter_init _ _ hlen
  intro j hj
  exact h j (by omega)

theorem in_lockout_of_idle (cfg : Config) (c : debounce_counter_t)
    (h : c.time.val = 0) : in_lockout cfg c = false := by
  simp [in_lockout, h, DEBOUNCE_ELAPSED]

theorem cell_counter_idle_same (cfg : Config) (e : Nat) (b acc : Bool) (c : debounce_counter_t)
    (h : c.time.val = 0) : cell_counter cfg e b b acc c = c := by
  simp [cell_counter, h, DEBOUNCE_ELAPSED]

/-- A pass over idle counters whose raw rows equal the cooked rows changes nothing but
the loop variables. -/
theorem pass_idle (cfg : Config) (raw : List Nat) (num_rows e : Nat) (s : Mem)
    (hraw : ∀ r, r < num_rows → raw.getD r 0 = s.cooked_row r)
    (hidle : ∀ i, i < num_rows * cfg.MATRIX_COLS → (s.counter i).time.val = 0) :
    (update_debounce_counters_and_transfer_if_expired cfg raw num_rows e s).cooked_changed
        = s.cooked_changed
      ∧ (update_debounce_counters_and_transfer_if_expired cfg raw num_rows e s).cooked = s.cooked
      ∧ (update_debounce_counters_and_transfer_if_expired cfg raw num_rows e s).debounce_counters
          = s.debounce_counters := by
  refine ⟨?_, ?_, ?_⟩
  · rw [pass_changed]
    cases hcc : s.cooked_changed
    · rw [Bool.eq_false_iff]
      intro hacc
      rw [acc_upto_eq_true] at hacc
      rcases hacc with h | ⟨j, hj, hf⟩
      · rw [hcc] at h; cases h
      · simp [pos_flips, cell_flips, in_lockout_of_idle cfg _ (hidle j hj)] at hf
    · rw [acc_upto_eq_true]; exact Or.inl hcc
  · apply cooked_ext _ _ (pass_cooked_length cfg raw num_rows e s)
    intro r c hr
    by_cases hin : r < num_rows ∧ c < cfg.MATRIX_COLS
    · rw [pass_bit cfg raw num_rows e s r c hin.1 hin.2 hr]
      simp [cell_bit, in_lockout_of_idle cfg _ (hidle _ (idx_lt _ _ _ _ hin.1 hin.2))]
    · apply pass_bit_rest
      by_cases hc : c < cfg.MATRIX_COLS
      · right
        by_contra hlt
        exact hin ⟨by omega, hc⟩
      · left; omega
  · apply counters_ext _ _ (pass_counters_length cfg raw num_rows e s)
    intro j hj
    by_cases hin : j < num_rows * cfg.MATRIX_COLS
    · rw [pass_counter cfg raw num_rows e s j hin hj]
      obtain ⟨hr, hc, hjj⟩ := idx_decompose _ _ _ hin
      have hb : pos_raw cfg raw j = pos_cooked cfg s j := by
        simp only [pos_raw, pos_cooked, raw_bit, Mem.cooked_bit, hraw _ hr]
      rw [hb]
      exact cell_counter_idle_same cfg e _ _ _ (hidle j hin)
    · exact pass_counter_rest cfg raw num_rows e s j (by omega)

/-- Claim C2 (idleness stability): when `raw` equals `cooked` on every row and every counter
has `time == 0`, then whatever the hint, the pending flag and the timer reading are,
`debounce` returns `false`, leaves the cooked matrix unchanged and leaves the arena
unchanged, so that every counter is still idle. -/
theorem debounce_idle_stable (cfg : Config) (raw : List Nat) (num_rows : Nat) (changed : Bool)
    (now : Nat) (s : Mem)
    (hraw : ∀ r, r < num_rows → raw.getD r 0 = s.cooked_row r)
    (hidle : ∀ i, i < num_rows * cfg.MATRIX_COLS → (s.counter i).time.val = 0) :
    (debounce cfg raw num_rows changed now s).1 = false
      ∧ (debounce cfg raw num_rows changed now s).2.cooked = s.cooked
      ∧ (debounce cfg raw num_rows changed now s).2.debounce_counters = s.debounce_counters
      ∧ ∀ i, i < num_rows * cfg.MATRIX_COLS →
          ((debounce cfg raw num_rows changed now s).2.counter i).time.val = 0 := by
  have key : (debounce cfg raw num_rows changed now s).1 = false
      ∧ (debounce cfg raw num_rows changed now s).2.cooked = s.cooked
      ∧ (debounce cfg raw num_rows changed now s).2.debounce_counters = s.debounce_counters := by
    rcases debounce_cases cfg raw num_rows changed now s with h | h | ⟨-, -, h⟩
    · rw [h]; exact ⟨rfl, rfl, rfl⟩
    · rw [h]; exact ⟨rfl, rfl, rfl⟩
    · rw [h]
      exact pass_idle cfg raw num_rows _ (pass_entry s now) hraw hidle
  refine ⟨key.1, key.2.1, key.2.2, ?_⟩
  intro i hi
  simp only [Mem.counter, key.2.2]
  exact hidle i hi

theorem debounce_idle_stable_witness :
    (∀ r, r < 1 → [2].getD r 0 = sample_idle.cooked_row r)
      ∧ (∀ i, i < 1 * (Config.defaults 2 16).MATRIX_COLS → (sample_idle.counter i).time.val = 0)
      ∧ (debounce (Config.defaults 2 16) [2] 1 true 30 sample_idle).1 = false
      ∧ (debounce (Config.defaults 2 16) [2] 1 true 30 sample_idle).2.cooked = sample_idle.cooked :=
  have h1 : ∀ r, r < 1 → [2].getD r 0 = sample_idle.cooked_row r := by decide
  have h2 : ∀ i, i < 1 * (Config.defaults 2 16).MATRIX_COLS →
      (sample_idle.counter i).time.val = 0 := by decide
  have h := debounce_idle_stable (Config.defaults 2 16) [2] 1 true 30 sample_idle h1 h2
  ⟨h1, h2, h.1, h.2.1⟩

/-- Claim C3: when `counters_need_update` is false and the hint is false, `debounce` is a
no-op: it returns `false` and leaves the cooked matrix, the arena, the pending flag and
`last_time` unchanged, for every raw matrix and every timer reading. -/
theorem debounce_noop_when_nothing_pending (cfg : Config) (raw : List Nat) (num_rows now : Nat)
    (s : Mem) (hneed : s.counters_need_update = false) :
    (debounce cfg raw num_rows false now s).1 = false
      ∧ (debounce cfg raw num_rows false now s).2.cooked = s.cooked
      ∧ (debounce cfg raw num_rows false now s).2.debounce_counters = s.debounce_counters
      ∧ (debounce cfg raw num_rows false now s).2.counters_need_update = s.counters_need_update
      ∧ (debounce cfg raw num_rows false now s).2.last_time = s.last_time := by
  rw [debounce_noop cfg raw num_rows false now s (by simp [hneed])]
  exact ⟨rfl, rfl, rfl, rfl, rfl⟩

theorem debounce_noop_when_nothing_pending_witness :
    sample_idle.counters_need_update = false
      ∧ (debounce (Config.defaults 2 16) [1] 1 false 30 sample_idle).1 = false
      ∧ (debounce (Config.defaults 2 16) [1] 1 false 30 sample_idle).2.cooked = sample_idle.cooked
      ∧ (debounce (Config.defaults 2 16) [1] 1 false 30 sample_idle).2.last_time
          = sample_idle.last_time :=
  have h := debounce_noop_when_nothing_pending (Config.defaults 2 16) [1] 1 30 sample_idle rfl
  ⟨rfl, h.1, h.2.1, h.2.2.2.2⟩

/-! ## The cooked bits that a call may change (claims C5 and C6) -/

theorem cooked_bit_of_length_le (s : Mem) (r c : Nat) (h : s.cooked.length ≤ r) :
    s.cooked_bit r c = false := by
  simp only [Mem.cooked_bit, Mem.cooked_row, getD_of_length_le 0 _ _ h, Nat.zero_testBit]

theorem in_lockout_iff (cfg : Config) (c : debounce_counter_t) :
    in_lockout cfg c = true ↔
      0 < c.time.val ∧ c.time.val ≤ cfg.DEBOUNCE_LOCKOUT_PERIOD ∧ c.pressed = false := by
  simp [in_lockout, DEBOUNCE_ELAPSED, Nat.pos_iff_ne_zero, and_assoc]

/-- The cooked bit of a position after the pass: the raw bit when the counter of the
position takes the transfer branch, the old cooked bit otherwise. -/
theorem pass_bit_cases (cfg : Config) (raw : List Nat) (num_rows e : Nat) (s : Mem) (r c : Nat) :
    (update_debounce_counters_and_transfer_if_expired cfg raw num_rows e s).cooked_bit r c
        = s.cooked_bit r c
      ∨ (r < num_rows ∧ c < cfg.MATRIX_COLS ∧ r < s.cooked.length
          ∧ in_lockout cfg (s.counter (r * cfg.MATRIX_COLS + c)) = true
          ∧ (update_debounce_counters_and_transfer_if_expired cfg raw num_rows e s).cooked_bit r c
              = raw_bit raw r c) := by
  by_cases hlen : r < s.cooked.length
  · by_cases hr : r < num_rows
    · by_cases hc : c < cfg.MATRIX_COLS
      · rw [pass_bit cfg raw num_rows e s r c hr hc hlen]
        unfold cell_bit
        by_cases hl : in_lockout cfg (s.counter (r * cfg.MATRIX_COLS + c)) = true
        · right; exact ⟨hr, hc, hlen, hl, by simp [hl]⟩
        · left; simp [hl]
      · left; exact pass_bit_rest cfg raw num_rows e s r c (Or.inl (by omega))
    · left; exact pass_bit_rest cfg raw num_rows e s r c (Or.inr (by omega))
  · left
    rw [cooked_bit_of_length_le s r c (by omega)]
    apply cooked_bit_of_length_le
    rw [pass_cooked_length]
    omega

/-- The cooked bit of a position after a call of `debounce`. -/
theorem debounce_bit_cases (cfg : Config) (raw : List Nat) (num_rows : Nat) (changed : Bool)
    (now : Nat) (s : Mem) (r c : Nat) :
    (debounce cfg raw num_rows changed now s).2.cooked_bit r c = s.cooked_bit r c
      ∨ (r < num_rows ∧ c < cfg.MATRIX_COLS ∧ r < s.cooked.length
          ∧ in_lockout cfg (s.counter (r * cfg.MATRIX_COLS + c)) = true
          ∧ (debounce cfg raw num_rows changed now s).2.cooked_bit r c = raw_bit raw r c) := by
  rcases debounce_cases cfg raw num_rows changed now s with h | h | ⟨-, -, h⟩
  · rw [h]; exact Or.inl rfl
  · rw [h]; exact Or.inl rfl
  · rw [h]
    exact pass_bit_cases cfg raw num_rows _ (pass_entry s now) r c

/-- Claim C5 (no false early settle): a call of `debounce` changes the cooked bit of a
position only if the counter of the position starts the call with
`0 < time <= DEBOUNCE_LOCKOUT_PERIOD` and `pressed == false`; a position whose counter
starts the call with `time == 0` or `time > DEBOUNCE_LOCKOUT_PERIOD` keeps its cooked
bit, for every raw matrix, hint and timer reading. -/
theorem no_false_early_settle (cfg : Config) (raw : List Nat) (num_rows : Nat) (changed : Bool)
    (now : Nat) (s : Mem) (r c : Nat) :
    ((debounce cfg raw num_rows changed now s).2.cooked_bit r c ≠ s.cooked_bit r c →
        r < num_rows ∧ c < cfg.MATRIX_COLS
          ∧ 0 < (s.counter (r * cfg.MATRIX_COLS + c)).time.val
          ∧ (s.counter (r * cfg.MATRIX_COLS + c)).time.val ≤ cfg.DEBOUNCE_LOCKOUT_PERIOD
          ∧ (s.counter (r * cfg.MATRIX_COLS + c)).pressed = false)
      ∧ ((s.counter (r * cfg.MATRIX_COLS + c)).time.val = 0
            ∨ cfg.DEBOUNCE_LOCKOUT_PERIOD < (s.counter (r * cfg.MATRIX_COLS + c)).time.val →
          (debounce cfg raw num_rows changed now s).2.cooked_bit r c = s.cooked_bit r c) := by
  constructor
  · intro hne
    rcases debounce_bit_cases cfg raw num_rows changed now s r c with h | ⟨hr, hc, -, hl, -⟩
    · exact absurd h hne
    · exact ⟨hr, hc, (in_lockout_iff cfg _).mp hl⟩
  · intro hout
    rcases debounce_bit_cases cfg raw num_rows changed now s r c with h | ⟨-, -, -, hl, -⟩
    · exact h
    · have := (in_lockout_iff cfg _).mp hl
      omega

theorem no_false_early_settle_witness :
    (debounce (Config.defaults 2 16) [2] 1 false 30 sample_lockout).2.cooked_bit 0 1
        ≠ sample_lockout.cooked_bit 0 1
      ∧ 0 < (sample_lockout.counter (0 * (Config.defaults 2 16).MATRIX_COLS + 1)).time.val
      ∧ (sample_lockout.counter (0 * (Config.defaults 2 16).MATRIX_COLS + 1)).pressed = false
      ∧ (debounce (Config.defaults 2 16) [3] 1 false 30 sample_lockout).2.cooked_bit 0 0
          = sample_lockout.cooked_bit 0 0 :=
  have h := (no_false_early_settle (Config.defaults 2 16) [2] 1 false 30 sample_lockout 0 1).1
    (by decide)
  ⟨by decide, h.2.2.1, h.2.2.2.2,
    (no_false_early_settle (Config.defaults 2 16) [3] 1 false 30 sample_lockout 0 0).2
      (Or.inl (by decide))⟩

theorem update_position_cooked (cfg : Config) (raw_row delta row col e : Nat) (s : Mem) :
    (update_position cfg raw_row delta row col e s).cooked
      = s.cooked.set row
          (cell_row cfg raw_row (s.cooked_row row) col (s.counter s.debounce_pointer)) := by
  obtain ⟨cs, lt, need, chg, ck, p⟩ := s
  simp only [update_position, Mem.counter, Mem.cooked_row, cell_row, in_lockout,
    cooked_next_changed]
  by_cases ht : (cs.getD p counter_init).time.val = DEBOUNCE_ELAPSED
  · by_cases hm : delta &&& ROW_SHIFTER <<< col ≠ 0
    · simp [-List.getD_eq_getElem?_getD, ht, hm, set_getD_self]
    · simp [-List.getD_eq_getElem?_getD, ht, hm, set_getD_self]
  · have hp : p < cs.length := counter_oob_time cs p ht
    by_cases hl : (cs.getD p counter_init).time.val ≤ cfg.DEBOUNCE_LOCKOUT_PERIOD
        ∧ (cs.getD p counter_init).pressed = false
    · by_cases hc : (chg || (raw_row.testBit col != (ck.getD row 0).testBit col)) = true
      · by_cases hle : (cs.getD p counter_init).time.val ≤ e
        · simp [-List.getD_eq_getElem?_getD, ht, hl, hc, hle, getD_set_self, hp]
        · simp [-List.getD_eq_getElem?_getD, ht, hl, hc, hle, getD_set_self, hp]
      · by_cases hle : (cs.getD p counter_init).time.val ≤ e
        · simp [-List.getD_eq_getElem?_getD, ht, hl, hc, hle, getD_set_self, hp]
        · simp [-List.getD_eq_getElem?_getD, ht, hl, hc, hle, getD_set_self, hp]
    · by_cases hle : (cs.getD p counter_init).time.val ≤ e
      · simp [-List.getD_eq_getElem?_getD, ht, hl, hle, getD_set_self, hp, set_getD_self]
      · simp [-List.getD_eq_getElem?_getD, ht, hl, hle, getD_set_self, hp, set_getD_self]

/-- The iteration of the position `(row, col)` leaves every other cooked bit alone. -/
theorem update_position_other_bits (cfg : Config) (raw_row delta row col e : Nat) (s : Mem)
    (r c : Nat) (h : r ≠ row ∨ c ≠ col) :
    (update_position cfg raw_row delta row col e s).cooked_bit r c = s.cooked_bit r c := by
  simp only [Mem.cooked_bit, Mem.cooked_row, update_position_cooked]
  have := cooked_bit_set cfg raw_row col row (s.counter s.debounce_pointer) s.cooked r c
  simp only [Mem.cooked_row] at this ⊢
  rw [this]
  have hne : ¬ (r = row ∧ c = col ∧ row < s.cooked.length) := by
    rintro ⟨h1, h2, -⟩
    rcases h with h | h
    · exact h h1
    · exact h h2
  rw [if_neg hne]

/-- Claim C6 (early transfer): when the counter of a position starts a call of `debounce`
with `0 < time <= DEBOUNCE_LOCKOUT_PERIOD` and `pressed == false`, and the call runs the
update pass (pending flag or hint set, elapsed ticks nonzero), then after the call the
cooked bit of the position equals its raw bit; and the iteration of the position,
in whatever memory it runs, alters no other bit of the cooked matrix. -/
theorem early_transfer (cfg : Config) (raw : List Nat) (num_rows : Nat) (changed : Bool)
    (now : Nat) (s : Mem) (r c : Nat)
    (hr : r < num_rows) (hc : c < cfg.MATRIX_COLS) (hrow : r < s.cooked.length)
    (hact : 0 < (s.counter (r * cfg.MATRIX_COLS + c)).time.val)
    (hwin : (s.counter (r * cfg.MATRIX_COLS + c)).time.val ≤ cfg.DEBOUNCE_LOCKOUT_PERIOD)
    (hpressed : (s.counter (r * cfg.MATRIX_COLS + c)).pressed = false)
    (hrun : (s.counters_need_update || changed) = true)
    (helapsed : 0 < elapsed_ticks cfg now s.last_time) :
    (debounce cfg raw num_rows changed now s).2.cooked_bit r c = raw_bit raw r c
      ∧ ∀ (m : Mem) (delta e r2 c2 : Nat), r2 ≠ r ∨ c2 ≠ c →
          (update_position cfg (raw.getD r 0) delta r c e m).cooked_bit r2 c2
            = m.cooked_bit r2 c2 := by
  constructor
  · rw [debounce_pass cfg raw num_rows changed now s hrun helapsed]
    show (update_debounce_counters_and_transfer_if_expired cfg raw num_rows _
      (pass_entry s now)).cooked_bit r c = _
    rw [pass_bit cfg raw num_rows _ (pass_entry s now) r c hr hc hrow]
    have hl : in_lockout cfg ((pass_entry s now).counter (r * cfg.MATRIX_COLS + c)) = true :=
      (in_lockout_iff cfg _).mpr ⟨hact, hwin, hpressed⟩
    simp [cell_bit, hl]
  · intro m delta e r2 c2 h
    exact update_position_other_bits cfg _ delta r c e m r2 c2 h

theorem early_transfer_witness :
    (debounce (Config.defaults 2 16) [2] 1 false 30 sample_lockout).2.cooked_bit 0 1
        = raw_bit [2] 0 1
      ∧ (debounce (Config.defaults 2 16) [2] 1 false 30 sample_lockout).2.cooked_bit 0 1 = true :=
  have h := (early_transfer (Config.defaults 2 16) [2] 1 false 30 sample_lockout 0 1
    (by decide) (by decide) (by decide) (by decide) (by decide) (by decide) (by decide)
    (by decide)).1
  ⟨h, by decide⟩

/-! ## Running timers and arming (claims C7 and C8) -/

theorem time_field_val (v : Nat) (h : v < 128) : (time_field v).val = v := by
  simp [time_field, Nat.mod_eq_of_lt h]

/-- The timer of an active counter after its iteration. -/
theorem cell_counter_time_active (cfg : Config) (e : Nat) (rb kb acc : Bool)
    (c : debounce_counter_t) (h : 0 < c.time.val) :
    (cell_counter cfg e rb kb acc c).time.val = c.time.val - e := by
  have hlt : c.time.val < 128 := c.time.isLt
  have hne : c.time.val ≠ DEBOUNCE_ELAPSED := by simp [DEBOUNCE_ELAPSED]; omega
  have h0 : (time_field DEBOUNCE_ELAPSED).val = 0 := rfl
  unfold cell_counter
  rw [if_pos hne]
  show (if c.time.val ≤ e then time_field DEBOUNCE_ELAPSED
    else time_field (c.time.val - e)).val = c.time.val - e
  by_cases hle : c.time.val ≤ e
  · rw [if_pos hle, h0]
    omega
  · rw [if_neg hle, time_field_val _ (by omega)]

/-- Claim C7 (re-arming gate): for every active counter (`time > 0`) and every update pass
with elapsed ticks `e >= 1`, the new `time` is `0` when `e >= time` and `time - e`
otherwise, whatever the raw matrix and the cooked matrix hold; so `time` strictly
decreases and is neither reset to `TOTAL_DELAY` nor increased while the counter is active. -/
theorem rearming_gate (cfg : Config) (raw : List Nat) (num_rows e : Nat) (s : Mem) (r c : Nat)
    (hr : r < num_rows) (hc : c < cfg.MATRIX_COLS)
    (hact : 0 < (s.counter (r * cfg.MATRIX_COLS + c)).time.val) (he : 1 ≤ e) :
    ((update_debounce_counters_and_transfer_if_expired cfg raw num_rows e s).counter
          (r * cfg.MATRIX_COLS + c)).time.val
        = (if e ≥ (s.counter (r * cfg.MATRIX_COLS + c)).time.val then 0
            else (s.counter (r * cfg.MATRIX_COLS + c)).time.val - e)
      ∧ ((update_debounce_counters_and_transfer_if_expired cfg raw num_rows e s).counter
            (r * cfg.MATRIX_COLS + c)).time.val
          < (s.counter (r * cfg.MATRIX_COLS + c)).time.val := by
  have hlen : r * cfg.MATRIX_COLS + c < s.debounce_counters.length :=
    counter_oob_time _ _ (by simp only [DEBOUNCE_ELAPSED]; exact Nat.ne_of_gt hact)
  rw [pass_counter_at cfg raw num_rows e s r c hr hc hlen,
    cell_counter_time_active cfg e _ _ _ _ hact]
  constructor
  · split_ifs with h
    · omega
    · rfl
  · omega

theorem rearming_gate_witness :
    0 < (sample_delay.counter (0 * (Config.defaults 2 16).MATRIX_COLS + 1)).time.val
      ∧ ((update_debounce_counters_and_transfer_if_expired (Config.defaults 2 16) [0] 1 4
            sample_delay).counter (0 * (Config.defaults 2 16).MATRIX_COLS + 1)).time.val
          < (sample_delay.counter (0 * (Config.defaults 2 16).MATRIX_COLS + 1)).time.val
      ∧ ((update_debounce_counters_and_transfer_if_expired (Config.defaults 2 16) [0] 1 4
            sample_delay).counter (0 * (Config.defaults 2 16).MATRIX_COLS + 1)).time.val = 11 :=
  have h := rearming_gate (Config.defaults 2 16) [0] 1 4 sample_delay 0 1 (by decide) (by decide)
    (by decide) (by decide)
  ⟨by decide, h.2, by decide⟩

theorem need_upto_of_pending (cfg : Config) (raw : List Nat) (e : Nat) (s : Mem) (k j : Nat)
    (hj : j < k) (h : pos_pending cfg raw e s j = true) : need_upto cfg raw e s k = true := by
  simp only [need_upto, List.any_eq_true, List.mem_range]
  exact ⟨j, hj, h⟩

theorem pos_pending_at (cfg : Config) (raw : List Nat) (e : Nat) (s : Mem) (r c : Nat)
    (hc : c < cfg.MATRIX_COLS) :
    pos_pending cfg raw e s (r * cfg.MATRIX_COLS + c)
      = cell_pending e (raw_bit raw r c) (s.cooked_bit r c) (s.counter (r * cfg.MATRIX_COLS + c)) := by
  simp only [pos_pending, pos_raw, pos_cooked, idx_div _ _ _ hc, idx_mod _ _ _ hc]

/-- A position whose iteration sets `counters_need_update` leaves the flag set at the end
of the pass. -/
theorem pass_need_of_pending (cfg : Config) (raw : List Nat) (num_rows e : Nat) (s : Mem)
    (r c : Nat) (hr : r < num_rows) (hc : c < cfg.MATRIX_COLS)
    (h : cell_pending e (raw_bit raw r c) (s.cooked_bit r c)
      (s.counter (r * cfg.MATRIX_COLS + c)) = true) :
    (update_debounce_counters_and_transfer_if_expired cfg raw num_rows e s).counters_need_update
      = true := by
  rw [pass_need]
  apply need_upto_of_pending cfg raw e s _ _ (idx_lt _ _ _ _ hr hc)
  rw [pos_pending_at cfg raw e s r c hc]
  exact h

/-- The cooked bit of a position whose counter is idle survives the pass. -/
theorem pass_bit_idle (cfg : Config) (raw : List Nat) (num_rows e : Nat) (s : Mem) (r c : Nat)
    (hidle : (s.counter (r * cfg.MATRIX_COLS + c)).time.val = 0) :
    (update_debounce_counters_and_transfer_if_expired cfg raw num_rows e s).cooked_bit r c
      = s.cooked_bit r c := by
  rcases pass_bit_cases cfg raw num_rows e s r c with h | ⟨-, -, -, hl, -⟩
  · exact h
  · rw [in_lockout_of_idle cfg _ hidle] at hl
    cases hl

/-- An idle position whose raw bit differs from its cooked bit is armed by the pass. -/
theorem pass_arms (cfg : Config) (raw : List Nat) (num_rows e : Nat) (s : Mem) (r c : Nat)
    (hr : r < num_rows) (hc : c < cfg.MATRIX_COLS)
    (harena : r * cfg.MATRIX_COLS + c < s.debounce_counters.length)
    (hidle : (s.counter (r * cfg.MATRIX_COLS + c)).time.val = 0)
    (hne : raw_bit raw r c ≠ s.cooked_bit r c) :
    (update_debounce_counters_and_transfer_if_expired cfg raw num_rows e s).counter
        (r * cfg.MATRIX_COLS + c) = { pressed := false, time := time_field (TOTAL_DELAY cfg) }
      ∧ (update_debounce_counters_and_transfer_if_expired cfg raw num_rows e s).cooked_bit r c
          = s.cooked_bit r c
      ∧ (update_debounce_counters_and_transfer_if_expired cfg raw num_rows e
          s).counters_need_update = true := by
  have hx : (raw_bit raw r c != s.cooked_bit r c) = true := by simpa using hne
  refine ⟨?_, pass_bit_idle cfg raw num_rows e s r c hidle, ?_⟩
  · rw [pass_counter_at cfg raw num_rows e s r c hr hc harena]
    simp [cell_counter, hidle, DEBOUNCE_ELAPSED, hx]
  · apply pass_need_of_pending cfg raw num_rows e s r c hr hc
    simp [cell_pending, hidle, DEBOUNCE_ELAPSED, hx]

/-- An idle position whose raw bit equals its cooked bit is left alone by the pass. -/
theorem pass_stays_idle (cfg : Config) (raw : List Nat) (num_rows e : Nat) (s : Mem) (r c : Nat)
    (hr : r < num_rows) (hc : c < cfg.MATRIX_COLS)
    (harena : r * cfg.MATRIX_COLS + c < s.debounce_counters.length)
    (hidle : (s.counter (r * cfg.MATRIX_COLS + c)).time.val = 0)
    (heq : raw_bit raw r c = s.cooked_bit r c) :
    (update_debounce_counters_and_transfer_if_expired cfg raw num_rows e s).counter
        (r * cfg.MATRIX_COLS + c) = s.counter (r * cfg.MATRIX_COLS + c)
      ∧ (update_debounce_counters_and_transfer_if_expired cfg raw num_rows e s).cooked_bit r c
          = s.cooked_bit r c := by
  refine ⟨?_, pass_bit_idle cfg raw num_rows e s r c hidle⟩
  rw [pass_counter_at cfg raw num_rows e s r c hr hc harena, heq]
  exact cell_counter_idle_same cfg e _ _ _ hidle

/-- Claim C8 (arming rule): for an idle position (`time == 0`) in an update pass, if its
raw bit differs from its cooked bit then after the pass its counter has
`time == TOTAL_DELAY` and `pressed == false`, its cooked bit is unchanged and
`counters_need_update` is true; if its raw bit equals its cooked bit then its counter and
its cooked bit are unchanged. `TOTAL_DELAY` fits the 7-bit field `time`. -/
theorem arming_rule (cfg : Config) (raw : List Nat) (num_rows e : Nat) (s : Mem) (r c : Nat)
    (hfit : TOTAL_DELAY cfg ≤ 127)
    (hr : r < num_rows) (hc : c < cfg.MATRIX_COLS)
    (harena : r * cfg.MATRIX_COLS + c < s.debounce_counters.length)
    (hidle : (s.counter (r * cfg.MATRIX_COLS + c)).time.val = 0) :
    (raw_bit raw r c ≠ s.cooked_bit r c →
        ((update_debounce_counters_and_transfer_if_expired cfg raw num_rows e s).counter
            (r * cfg.MATRIX_COLS + c)).time.val = TOTAL_DELAY cfg
          ∧ ((update_debounce_counters_and_transfer_if_expired cfg raw num_rows e s).counter
              (r * cfg.MATRIX_COLS + c)).pressed = false
          ∧ (update_debounce_counters_and_transfer_if_expired cfg raw num_rows e s).cooked_bit r c
              = s.cooked_bit r c
          ∧ (update_debounce_counters_and_transfer_if_expired cfg raw num_rows e
              s).counters_need_update = true)
      ∧ (raw_bit raw r c = s.cooked_bit r c →
          (update_debounce_counters_and_transfer_if_expired cfg raw num_rows e s).counter
              (r * cfg.MATRIX_COLS + c) = s.counter (r * cfg.MATRIX_COLS + c)
            ∧ (update_debounce_counters_and_transfer_if_expired cfg raw num_rows e s).cooked_bit
                r c = s.cooked_bit r c) := by
  constructor
  · intro hne
    obtain ⟨h1, h2, h3⟩ := pass_arms cfg raw num_rows e s r c hr hc harena hidle hne
    rw [h1]
    exact ⟨time_field_val _ (by omega), rfl, h2, h3⟩
  · intro heq
    exact pass_stays_idle cfg raw num_rows e s r c hr hc harena hidle heq

theorem arming_rule_witness :
    raw_bit [1] 0 0 ≠ sample_delay.cooked_bit 0 0
      ∧ ((update_debounce_counters_and_transfer_if_expired (Config.defaults 2 16) [1] 1 4
            sample_delay).counter (0 * (Config.defaults 2 16).MATRIX_COLS + 0)).time.val
          = TOTAL_DELAY (Config.defaults 2 16)
      ∧ ((update_debounce_counters_and_transfer_if_expired (Config.defaults 2 16) [1] 1 4
            sample_delay).counter (0 * (Config.defaults 2 16).MATRIX_COLS + 0)).pressed = false
      ∧ TOTAL_DELAY (Config.defaults 2 16) = 17 :=
  have h := (arming_rule (Config.defaults 2 16) [1] 1 4 sample_delay 0 0 (by decide) (by decide)
    (by decide) (by decide) (by decide)).1 (by decide)
  ⟨by decide, h.1, h.2.1, by decide⟩

/-! ## One call of `debounce` seen from one position -/

theorem step_cooked_length (cfg : Config) (num_rows : Nat) (s : Mem) (call : Call) :
    (step cfg num_rows s call).cooked.length = s.cooked.length := by
  unfold step
  rcases debounce_cases cfg call.raw num_rows call.changed call.now s with h | h | ⟨-, -, h⟩
  · rw [h]
  · rw [h]; rfl
  · rw [h]; exact pass_cooked_length cfg _ num_rows _ (pass_entry s call.now)

theorem step_counters_length (cfg : Config) (num_rows : Nat) (s : Mem) (call : Call) :
    (step cfg num_rows s call).debounce_counters.length = s.debounce_counters.length := by
  unfold step
  rcases debounce_cases cfg call.raw num_rows call.changed call.now s with h | h | ⟨-, -, h⟩
  · rw [h]
  · rw [h]; rfl
  · rw [h]; exact pass_counters_length cfg _ num_rows _ (pass_entry s call.now)

/-- A call that runs the update pass. -/
theorem step_pass (cfg : Config) (num_rows : Nat) (s : Mem) (call : Call)
    (hrun : (s.counters_need_update || call.changed) = true)
    (helapsed : 0 < call_elapsed cfg s call) :
    step cfg num_rows s call
      = update_debounce_counters_and_transfer_if_expired cfg call.raw num_rows
          (call_elapsed cfg s call) (pass_entry s call.now) := by
  unfold step
  rw [debounce_pass cfg call.raw num_rows call.changed call.now s hrun helapsed]
  rfl

/-- A call leaves an idle position whose raw bit equals its cooked bit as it is. -/
theorem step_rest (cfg : Config) (num_rows : Nat) (s : Mem) (call : Call) (r c : Nat)
    (hr : r < num_rows) (hc : c < cfg.MATRIX_COLS)
    (harena : r * cfg.MATRIX_COLS + c < s.debounce_counters.length)
    (hidle : (s.counter (r * cfg.MATRIX_COLS + c)).time.val = 0)
    (heq : raw_bit call.raw r c = s.cooked_bit r c) :
    (step cfg num_rows s call).counter (r * cfg.MATRIX_COLS + c)
        = s.counter (r * cfg.MATRIX_COLS + c)
      ∧ (step cfg num_rows s call).cooked_bit r c = s.cooked_bit r c := by
  unfold step
  rcases debounce_cases cfg call.raw num_rows call.changed call.now s with h | h | ⟨-, -, h⟩
  · rw [h]; exact ⟨rfl, rfl⟩
  · rw [h]; exact ⟨rfl, rfl⟩
  · rw [h]
    exact pass_stays_idle cfg call.raw num_rows _ (pass_entry s call.now) r c hr hc harena
      hidle heq

theorem cell_counter_pressed_active (cfg : Config) (e : Nat) (rb kb acc : Bool)
    (c : debounce_counter_t) (h : 0 < c.time.val) :
    (cell_counter cfg e rb kb acc c).pressed
      = (c.pressed || (in_lockout cfg c && (acc || (rb != kb)))) := by
  have hne : c.time.val ≠ DEBOUNCE_ELAPSED := by simp only [DEBOUNCE_ELAPSED]; omega
  unfold cell_counter
  rw [if_pos hne]

/-- A pass seen from a position whose timer runs: the timer drops by the elapsed ticks,
the cooked bit takes the raw bit in the transfer branch, `pressed` is kept outside the
transfer branch, and the pending flag is set while the timer has not expired. -/
theorem pass_active (cfg : Config) (raw : List Nat) (num_rows e : Nat) (s : Mem) (r c : Nat)
    (hr : r < num_rows) (hc : c < cfg.MATRIX_COLS) (hrow : r < s.cooked.length)
    (hact : 0 < (s.counter (r * cfg.MATRIX_COLS + c)).time.val) :
    ((update_debounce_counters_and_transfer_if_expired cfg raw num_rows e s).counter
          (r * cfg.MATRIX_COLS + c)).time.val
        = (s.counter (r * cfg.MATRIX_COLS + c)).time.val - e
      ∧ (update_debounce_counters_and_transfer_if_expired cfg raw num_rows e s).cooked_bit r c
          = cell_bit cfg (raw_bit raw r c) (s.cooked_bit r c)
              (s.counter (r * cfg.MATRIX_COLS + c))
      ∧ (in_lockout cfg (s.counter (r * cfg.MATRIX_COLS + c)) = false →
          ((update_debounce_counters_and_transfer_if_expired cfg raw num_rows e s).counter
            (r * cfg.MATRIX_COLS + c)).pressed = (s.counter (r * cfg.MATRIX_COLS + c)).pressed)
      ∧ (e < (s.counter (r * cfg.MATRIX_COLS + c)).time.val →
          (update_debounce_counters_and_transfer_if_expired cfg raw num_rows e
            s).counters_need_update = true) := by
  have hlen : r * cfg.MATRIX_COLS + c < s.debounce_counters.length :=
    counter_oob_time _ _ (by simp only [DEBOUNCE_ELAPSED]; exact Nat.ne_of_gt hact)
  have hctr := pass_counter_at cfg raw num_rows e s r c hr hc hlen
  refine ⟨?_, pass_bit cfg raw num_rows e s r c hr hc hrow, ?_, ?_⟩
  · rw [hctr, cell_counter_time_active cfg e _ _ _ _ hact]
  · intro hl
    rw [hctr, cell_counter_pressed_active cfg e _ _ _ _ hact, hl]
    simp
  · intro hlt
    apply pass_need_of_pending cfg raw num_rows e s r c hr hc
    have hne : (s.counter (r * cfg.MATRIX_COLS + c)).time.val ≠ DEBOUNCE_ELAPSED := by
      simp only [DEBOUNCE_ELAPSED]; omega
    have hnle : ¬ (s.counter (r * cfg.MATRIX_COLS + c)).time.val ≤ e := by omega
    simp [cell_pending, hne, hnle]

/-! ## Eventual consistency (claim C4) -/

/-- Once a position is armed and its raw bit is held at `b`, calls whose elapsed ticks
lie in `[1, DEBOUNCE_LOCKOUT_PERIOD]` and sum to at least the remaining `time` bring the
cooked bit to `b` and the counter back to idle. -/
theorem settle (cfg : Config) (num_rows r c : Nat) (b : Bool)
    (hr : r < num_rows) (hc : c < cfg.MATRIX_COLS) :
    ∀ (calls : List Call) (s : Mem),
      r < s.cooked.length →
      r * cfg.MATRIX_COLS + c < s.debounce_counters.length →
      (∀ call ∈ calls, raw_bit call.raw r c = b) →
      (∀ e ∈ call_trace cfg num_rows s calls, 1 ≤ e ∧ e ≤ cfg.DEBOUNCE_LOCKOUT_PERIOD) →
      (s.cooked_bit r c = b ∨
        ((s.counter (r * cfg.MATRIX_COLS + c)).pressed = false
          ∧ 0 < (s.counter (r * cfg.MATRIX_COLS + c)).time.val)) →
      (0 < (s.counter (r * cfg.MATRIX_COLS + c)).time.val → s.counters_need_update = true) →
      (s.counter (r * cfg.MATRIX_COLS + c)).time.val ≤ (call_trace cfg num_rows s calls).sum →
      (run cfg num_rows s calls).cooked_bit r c = b
        ∧ ((run cfg num_rows s calls).counter (r * cfg.MATRIX_COLS + c)).time.val = 0 := by
  intro calls
  induction calls with
  | nil =>
    intro s _ _ _ _ hgood _ hsum
    simp only [call_trace, List.sum_nil, Nat.le_zero] at hsum
    refine ⟨?_, hsum⟩
    rcases hgood with h | ⟨-, h⟩
    · exact h
    · omega
  | cons call rest ih =>
    intro s hrow harena hheld hsteps hgood hneed hsum
    have hraw : raw_bit call.raw r c = b := hheld call (List.mem_cons_self _ _)
    have hheld2 : ∀ x ∈ rest, raw_bit x.raw r c = b :=
      fun x hx => hheld x (List.mem_cons_of_mem _ hx)
    have he := hsteps (call_elapsed cfg s call) (by simp [call_trace])
    have hsteps2 : ∀ e ∈ call_trace cfg num_rows (step cfg num_rows s call) rest,
        1 ≤ e ∧ e ≤ cfg.DEBOUNCE_LOCKOUT_PERIOD :=
      fun e hx => hsteps e (by simp only [call_trace, List.mem_cons]; exact Or.inr hx)
    simp only [call_trace, List.sum_cons] at hsum
    have hrow2 : r < (step cfg num_rows s call).cooked.length := by
      rw [step_cooked_length]; exact hrow
    have harena2 : r * cfg.MATRIX_COLS + c
        < (step cfg num_rows s call).debounce_counters.length := by
      rw [step_counters_length]; exact harena
    show (run cfg num_rows (step cfg num_rows s call) rest).cooked_bit r c = b ∧ _
    by_cases hact : 0 < (s.counter (r * cfg.MATRIX_COLS + c)).time.val
    · -- the timer runs: the call runs the pass
      have hrun : (s.counters_need_update || call.changed) = true := by
        rw [hneed hact]; rfl
      have hstep := step_pass cfg num_rows s call hrun (by omega)
      obtain ⟨ht, hb, hp, hn⟩ := pass_active cfg call.raw num_rows (call_elapsed cfg s call)
        (pass_entry s call.now) r c hr hc hrow hact
      rw [← hstep] at ht hb hp hn
      have hctr : (pass_entry s call.now).counter (r * cfg.MATRIX_COLS + c)
          = s.counter (r * cfg.MATRIX_COLS + c) := rfl
      have hbit : (pass_entry s call.now).cooked_bit r c = s.cooked_bit r c := rfl
      rw [hctr] at ht hp hn
      rw [hctr, hbit, hraw] at hb
      apply ih _ hrow2 harena2 hheld2 hsteps2
      · -- the position stays on course
        rw [hb]
        unfold cell_bit
        by_cases hl : in_lockout cfg (s.counter (r * cfg.MATRIX_COLS + c)) = true
        · left; simp [hl]
        · have hl2 : in_lockout cfg (s.counter (r * cfg.MATRIX_COLS + c)) = false := by
            simpa using hl
          rcases hgood with hg | ⟨hg1, hg2⟩
          · left; simp [hl2, hg]
          · right
            rw [hp hl2, ht]
            refine ⟨hg1, ?_⟩
            have hnl : ¬ (0 < (s.counter (r * cfg.MATRIX_COLS + c)).time.val
                ∧ (s.counter (r * cfg.MATRIX_COLS + c)).time.val ≤ cfg.DEBOUNCE_LOCKOUT_PERIOD
                ∧ (s.counter (r * cfg.MATRIX_COLS + c)).pressed = false) :=
              fun h => hl ((in_lockout_iff cfg _).mpr h)
            have : cfg.DEBOUNCE_LOCKOUT_PERIOD
                < (s.counter (r * cfg.MATRIX_COLS + c)).time.val := by
              by_contra hcon
              exact hnl ⟨hact, by omega, hg1⟩
            omega
      · intro hpos
        rw [ht] at hpos
        exact hn (by omega)
      · rw [ht]; omega
    · -- the counter is idle and the cooked bit has settled
      have hidle : (s.counter (r * cfg.MATRIX_COLS + c)).time.val = 0 := by omega
      have hcooked : s.cooked_bit r c = b := by
        rcases hgood with h | ⟨-, h⟩
        · exact h
        · omega
      obtain ⟨h1, h2⟩ := step_rest cfg num_rows s call r c hr hc harena hidle
        (by rw [hraw, hcooked])
      apply ih _ hrow2 harena2 hheld2 hsteps2
      · left; rw [h2]; exact hcooked
      · intro hpos; rw [h1] at hpos; omega
      · rw [h1, hidle]; exact Nat.zero_le _

/-- Claim C4 as stated fails: with the default delays, an idle position whose raw bit
flips to `1` and is held is armed by a call with `1` elapsed tick; a second call with `17`
elapsed ticks brings the cumulative elapsed ticks to `18 >= TOTAL_DELAY` (`17` after the
arming call alone), yet the cooked bit is still `0` and differs from the raw bit. -/
theorem eventual_consistency_counterexample :
    (sample_rest.counter 0).time.val = 0
      ∧ sample_rest.cooked_bit 0 0 = false
      ∧ raw_bit [1] 0 0 = true
      ∧ call_trace (Config.defaults 1 16) 1 sample_rest
          [{ raw := [1], changed := true, now := 21 }, { raw := [1], changed := true, now := 38 }]
          = [1, 17]
      ∧ TOTAL_DELAY (Config.defaults 1 16) = 17
      ∧ (run (Config.defaults 1 16) 1 sample_rest
          [{ raw := [1], changed := true, now := 21 },
            { raw := [1], changed := true, now := 38 }]).cooked_bit 0 0 = false := by
  decide

/-- Claim C4 (eventual consistency), amended: an idle position whose raw bit differs from
its cooked bit is armed by a call that runs the update pass; if the raw bit is then held
and the following calls each have elapsed ticks in `[1, DEBOUNCE_LOCKOUT_PERIOD]` and
together at least `TOTAL_DELAY` elapsed ticks, the cooked bit of the position ends equal to
its raw bit and its counter is back at `time == 0`. The delays are those for which the
algorithm is compiled (`TOTAL_DELAY > 0`) and fit the 7-bit field (`TOTAL_DELAY <= 127`). -/
theorem eventual_consistency (cfg : Config) (num_rows r c : Nat) (b : Bool) (s : Mem)
    (first : Call) (rest : List Call)
    (hguard : 0 < TOTAL_DELAY cfg) (hfit : TOTAL_DELAY cfg ≤ 127)
    (hr : r < num_rows) (hc : c < cfg.MATRIX_COLS) (hrow : r < s.cooked.length)
    (harena : r * cfg.MATRIX_COLS + c < s.debounce_counters.length)
    (hidle : (s.counter (r * cfg.MATRIX_COLS + c)).time.val = 0)
    (hflip : s.cooked_bit r c ≠ b)
    (hheld : ∀ call ∈ first :: rest, raw_bit call.raw r c = b)
    (hrun : (s.counters_need_update || first.changed) = true)
    (hfirst : 0 < call_elapsed cfg s first)
    (hsteps : ∀ e ∈ call_trace cfg num_rows (step cfg num_rows s first) rest,
      1 ≤ e ∧ e ≤ cfg.DEBOUNCE_LOCKOUT_PERIOD)
    (hsum : TOTAL_DELAY cfg ≤ (call_trace cfg num_rows (step cfg num_rows s first) rest).sum) :
    (run cfg num_rows s (first :: rest)).cooked_bit r c = b
      ∧ ((run cfg num_rows s (first :: rest)).counter (r * cfg.MATRIX_COLS + c)).time.val = 0 := by
  have hraw : raw_bit first.raw r c = b := hheld first (List.mem_cons_self _ _)
  have hstep := step_pass cfg num_rows s first hrun hfirst
  obtain ⟨h1, h2, h3⟩ := pass_arms cfg first.raw num_rows (call_elapsed cfg s first)
    (pass_entry s first.now) r c hr hc harena hidle (by rw [hraw]; exact fun h => hflip h.symm)
  rw [← hstep] at h1 h2 h3
  have htime : ((step cfg num_rows s first).counter (r * cfg.MATRIX_COLS + c)).time.val
      = TOTAL_DELAY cfg := by
    rw [h1]; exact time_field_val _ (by omega)
  show (run cfg num_rows (step cfg num_rows s first) rest).cooked_bit r c = b ∧ _
  apply settle cfg num_rows r c b hr hc rest (step cfg num_rows s first)
  · rw [step_cooked_length]; exact hrow
  · rw [step_counters_length]; exact harena
  · exact fun x hx => hheld x (List.mem_cons_of_mem _ hx)
  · exact hsteps
  · right
    rw [htime, h1]
    exact ⟨rfl, hguard⟩
  · exact fun _ => h3
  · rw [htime]; exact hsum

theorem eventual_consistency_witness :
    (sample_rest.counter (0 * (Config.defaults 1 16).MATRIX_COLS + 0)).time.val = 0
      ∧ sample_rest.cooked_bit 0 0 ≠ true
      ∧ call_trace (Config.defaults 1 16) 1
          (step (Config.defaults 1 16) 1 sample_rest { raw := [1], changed := true, now := 21 })
          [{ raw := [1], changed := false, now := 26 }, { raw := [1], changed := false, now := 38 }]
          = [5, 12]
      ∧ (run (Config.defaults 1 16) 1 sample_rest
          [{ raw := [1], changed := true, now := 21 }, { raw := [1], changed := false, now := 26 },
            { raw := [1], changed := false, now := 38 }]).cooked_bit 0 0 = true
      ∧ ((run (Config.defaults 1 16) 1 sample_rest
          [{ raw := [1], changed := true, now := 21 }, { raw := [1], changed := false, now := 26 },
            { raw := [1], changed := false, now := 38 }]).counter
            (0 * (Config.defaults 1 16).MATRIX_COLS + 0)).time.val = 0 :=
  have h := eventual_consistency (Config.defaults 1 16) 1 0 0 true sample_rest
    { raw := [1], changed := true, now := 21 }
    [{ raw := [1], changed := false, now := 26 }, { raw := [1], changed := false, now := 38 }]
    (by decide) (by decide) (by decide) (by decide) (by decide) (by decide) (by decide)
    (by decide) (by decide) (by decide) (by decide) (by decide) (by decide)
  ⟨by decide, by decide, by decide, h.1, h.2⟩

/-! ## The timer of a counter along a sequence of calls (claim C9) -/

theorem cell_counter_time_le (cfg : Config) (e : Nat) (rb kb acc : Bool)
    (c : debounce_counter_t) :
    c.time.val ≤ (cell_counter cfg e rb kb acc c).time.val + e := by
  by_cases h : 0 < c.time.val
  · rw [cell_counter_time_active cfg e rb kb acc c h]; omega
  · omega

/-- The pass takes at most `e` ticks off the timer of any counter. -/
theorem pass_time_le (cfg : Config) (raw : List Nat) (num_rows e : Nat) (s : Mem) (i : Nat) :
    (s.counter i).time.val
      ≤ ((update_debounce_counters_and_transfer_if_expired cfg raw num_rows e s).counter
          i).time.val + e := by
  by_cases hin : i < num_rows * cfg.MATRIX_COLS
  · by_cases hlen : i < s.debounce_counters.length
    · rw [pass_counter cfg raw num_rows e s i hin hlen]
      exact cell_counter_time_le cfg e _ _ _ _
    · have h0 : s.counter i = counter_init :=
        getD_of_length_le counter_init _ _ (by omega)
      rw [h0]
      exact Nat.zero_le _
  · rw [pass_counter_rest cfg raw num_rows e s i (by omega)]
    exact Nat.le_add_right _ _

/-- A call takes at most the elapsed ticks it hands to the pass off the timer of any
counter. -/
theorem step_time_le (cfg : Config) (num_rows : Nat) (s : Mem) (call : Call) (i : Nat) :
    (s.counter i).time.val
      ≤ ((step cfg num_rows s call).counter i).time.val + pass_elapsed cfg s call := by
  unfold step
  rcases debounce_cases cfg call.raw num_rows call.changed call.now s with h | h | ⟨hrun, -, h⟩
  · rw [h]; exact Nat.le_add_right _ _
  · rw [h]; exact Nat.le_add_right _ _
  · rw [h]
    have hp : pass_elapsed cfg s call = elapsed_ticks cfg call.now s.last_time := by
      simp only [pass_elapsed, hrun, if_true]
    rw [hp]
    exact pass_time_le cfg call.raw num_rows _ (pass_entry s call.now) i

theorem run_time_le (cfg : Config) (num_rows i : Nat) :
    ∀ (calls : List Call) (s : Mem),
      (s.counter i).time.val
        ≤ ((run cfg num_rows s calls).counter i).time.val
          + (pass_trace cfg num_rows s calls).sum := by
  intro calls
  induction calls with
  | nil => intro s; exact Nat.le_add_right _ _
  | cons call rest ih =>
    intro s
    have h1 := step_time_le cfg num_rows s call i
    have h2 := ih (step cfg num_rows s call)
    simp only [pass_trace, List.sum_cons]
    show _ ≤ ((run cfg num_rows (step cfg num_rows s call) rest).counter i).time.val + _
    omega

theorem pass_trace_append (cfg : Config) (num_rows : Nat) :
    ∀ (a b : List Call) (s : Mem),
      pass_trace cfg num_rows s (a ++ b)
        = pass_trace cfg num_rows s a ++ pass_trace cfg num_rows (run cfg num_rows s a) b := by
  intro a
  induction a with
  | nil => intro b s; rfl
  | cons call rest ih =>
    intro b s
    show pass_elapsed cfg s call :: pass_trace cfg num_rows (step cfg num_rows s call) (rest ++ b)
      = _
    rw [ih]
    rfl

/-- A call that finds a counter idle and leaves it active has stored `TOTAL_DELAY` in it. -/
theorem step_armed_time (cfg : Config) (num_rows : Nat) (s : Mem) (call : Call) (i : Nat)
    (hidle : (s.counter i).time.val = 0)
    (hact : 0 < ((step cfg num_rows s call).counter i).time.val) :
    (step cfg num_rows s call).counter i
      = { pressed := false, time := time_field (TOTAL_DELAY cfg) } := by
  unfold step at hact ⊢
  rcases debounce_cases cfg call.raw num_rows call.changed call.now s with h | h | ⟨-, -, h⟩
  · rw [h] at hact
    have : (s.counter i).time.val ≠ 0 := Nat.ne_of_gt hact
    exact absurd hidle this
  · rw [h] at hact
    have : (s.counter i).time.val ≠ 0 := Nat.ne_of_gt hact
    exact absurd hidle this
  · rw [h] at hact ⊢
    have hidle2 : ((pass_entry s call.now).counter i).time.val = 0 := hidle
    by_cases hin : i < num_rows * cfg.MATRIX_COLS
    · by_cases hlen : i < (pass_entry s call.now).debounce_counters.length
      · rw [pass_counter cfg call.raw num_rows _ (pass_entry s call.now) i hin hlen] at hact ⊢
        unfold cell_counter at hact ⊢
        have hne : ¬ ((pass_entry s call.now).counter i).time.val ≠ DEBOUNCE_ELAPSED := by
          simp only [DEBOUNCE_ELAPSED]; omega
        rw [if_neg hne] at hact ⊢
        by_cases hx : (pos_raw cfg call.raw i != pos_cooked cfg (pass_entry s call.now) i) = true
        · rw [if_pos hx]
        · rw [if_neg hx] at hact
          omega
      · have hlen2 : ¬ i < (update_debounce_counters_and_transfer_if_expired cfg call.raw
            num_rows (elapsed_ticks cfg call.now s.last_time)
            (pass_entry s call.now)).debounce_counters.length := by
          rw [pass_counters_length]; exact hlen
        have h0 : (update_debounce_counters_and_transfer_if_expired cfg call.raw
            num_rows (elapsed_ticks cfg call.now s.last_time)
            (pass_entry s call.now)).counter i = counter_init :=
          getD_of_length_le counter_init _ _ (by omega)
        rw [h0] at hact
        exact absurd hact (by decide)
    · rw [pass_counter_rest cfg call.raw num_rows _ (pass_entry s call.now) i (by omega)] at hact
      omega

/-- Claim C9 (minimum settle time): when a call arms a counter (finds it idle and leaves it
active) and a later call finds the same counter idle again, as every call that arms it
again does, the elapsed ticks handed to the update pass by the calls after the first arming,
up to and including that later call, sum to at least `TOTAL_DELAY` (which fits the 7-bit
field `time`). -/
theorem minimum_settle_time (cfg : Config) (num_rows i : Nat) (s : Mem) (first : Call)
    (between : List Call) (second : Call)
    (hfit : TOTAL_DELAY cfg ≤ 127)
    (hidle1 : (s.counter i).time.val = 0)
    (harmed1 : 0 < ((step cfg num_rows s first).counter i).time.val)
    (hidle2 : ((run cfg num_rows (step cfg num_rows s first) between).counter i).time.val
      = 0) :
    TOTAL_DELAY cfg
      ≤ (pass_trace cfg num_rows (step cfg num_rows s first) (between ++ [second])).sum := by
  have h1 := step_armed_time cfg num_rows s first i hidle1 harmed1
  have h2 := run_time_le cfg num_rows i between (step cfg num_rows s first)
  rw [h1, hidle2] at h2
  have h3 : (time_field (TOTAL_DELAY cfg)).val = TOTAL_DELAY cfg := time_field_val _ (by omega)
  simp only [h3] at h2
  rw [pass_trace_append, List.sum_append]
  omega

theorem minimum_settle_time_witness :
    (sample_rest.counter 0).time.val = 0
      ∧ 0 < ((step (Config.defaults 1 16) 1 sample_rest
          { raw := [1], changed := true, now := 21 }).counter 0).time.val
      ∧ pass_trace (Config.defaults 1 16) 1
          (step (Config.defaults 1 16) 1 sample_rest { raw := [1], changed := true, now := 21 })
          ([{ raw := [1], changed := false, now := 26 },
            { raw := [1], changed := false, now := 38 }]
            ++ [{ raw := [0], changed := true, now := 40 }]) = [5, 12, 2]
      ∧ TOTAL_DELAY (Config.defaults 1 16)
          ≤ (pass_trace (Config.defaults 1 16) 1
              (step (Config.defaults 1 16) 1 sample_rest
                { raw := [1], changed := true, now := 21 })
              ([{ raw := [1], changed := false, now := 26 },
                { raw := [1], changed := false, now := 38 }]
                ++ [{ raw := [0], changed := true, now := 40 }])).sum
      ∧ 0 < ((run (Config.defaults 1 16) 1 sample_rest
          [{ raw := [1], changed := true, now := 21 }, { raw := [1], changed := false, now := 26 },
            { raw := [1], changed := false, now := 38 },
            { raw := [0], changed := true, now := 40 }]).counter 0).time.val :=
  ⟨by decide, by decide, by decide,
    minimum_settle_time (Config.defaults 1 16) 1 0 sample_rest
      { raw := [1], changed := true, now := 21 }
      [{ raw := [1], changed := false, now := 26 }, { raw := [1], changed := false, now := 38 }]
      { raw := [0], changed := true, now := 40 }
      (by decide) (by decide) (by decide) (by decide),
    by decide⟩

/-! ## The scenario with the default delays (claim C10) -/

/-- Claim C10 as stated fails: with the default delays, from an idle position with cooked
bit `0` and raw bit held at `1`, the first call (elapsed `1`) leaves `time = 17`, not `16`;
the second call (elapsed `5`) leaves `time = 12`, `pressed = false` and the cooked bit `0`,
returning `false`; the third call (elapsed `11`) makes the copy and leaves `time = 1`,
not `0`. -/
theorem default_scenario_counterexample :
    call_trace (Config.defaults 1 16) 1 sample_rest
        [{ raw := [1], changed := true, now := 21 }, { raw := [1], changed := true, now := 26 },
          { raw := [1], changed := true, now := 37 }] = [1, 5, 11]
      ∧ ((run (Config.defaults 1 16) 1 sample_rest
          [{ raw := [1], changed := true, now := 21 }]).counter 0).time.val = 17
      ∧ (run (Config.defaults 1 16) 1 sample_rest
          [{ raw := [1], changed := true, now := 21 },
            { raw := [1], changed := true, now := 26 }]).counter 0
          = { pressed := false, time := 12 }
      ∧ (run (Config.defaults 1 16) 1 sample_rest
          [{ raw := [1], changed := true, now := 21 },
            { raw := [1], changed := true, now := 26 }]).cooked_bit 0 0 = false
      ∧ (debounce (Config.defaults 1 16) [1] 1 true 26
          (run (Config.defaults 1 16) 1 sample_rest
            [{ raw := [1], changed := true, now := 21 }])).1 = false
      ∧ ((run (Config.defaults 1 16) 1 sample_rest
          [{ raw := [1], changed := true, now := 21 }, { raw := [1], changed := true, now := 26 },
            { raw := [1], changed := true, now := 37 }]).counter 0).time.val = 1 := by
  decide

theorem pass_flag_of_flip (cfg : Config) (raw : List Nat) (num_rows e : Nat) (s : Mem)
    (r c : Nat) (hr : r < num_rows) (hc : c < cfg.MATRIX_COLS)
    (h : cell_flips cfg (raw_bit raw r c) (s.cooked_bit r c)
      (s.counter (r * cfg.MATRIX_COLS + c)) = true) :
    (update_debounce_counters_and_transfer_if_expired cfg raw num_rows e s).cooked_changed
      = true := by
  rw [pass_changed, acc_upto_eq_true]
  right
  exact ⟨_, idx_lt _ _ _ _ hr hc, by rw [pos_flips_at cfg raw s r c hc]; exact h⟩

/-- A pass seen from a position in the transfer branch whose raw bit differs from its
cooked bit: the cooked bit takes the raw bit, `pressed` is set and the pass reports the
change. -/
theorem pass_transfer (cfg : Config) (raw : List Nat) (num_rows e : Nat) (s : Mem) (r c : Nat)
    (hr : r < num_rows) (hc : c < cfg.MATRIX_COLS) (hrow : r < s.cooked.length)
    (hl : in_lockout cfg (s.counter (r * cfg.MATRIX_COLS + c)) = true)
    (hne : raw_bit raw r c ≠ s.cooked_bit r c) :
    (update_debounce_counters_and_transfer_if_expired cfg raw num_rows e s).cooked_bit r c
        = raw_bit raw r c
      ∧ ((update_debounce_counters_and_transfer_if_expired cfg raw num_rows e s).counter
          (r * cfg.MATRIX_COLS + c)).pressed = true
      ∧ (update_debounce_counters_and_transfer_if_expired cfg raw num_rows e s).cooked_changed
          = true := by
  have hact : 0 < (s.counter (r * cfg.MATRIX_COLS + c)).time.val :=
    ((in_lockout_iff cfg _).mp hl).1
  have hlen : r * cfg.MATRIX_COLS + c < s.debounce_counters.length :=
    counter_oob_time _ _ (by simp only [DEBOUNCE_ELAPSED]; exact Nat.ne_of_gt hact)
  have hx : (raw_bit raw r c != s.cooked_bit r c) = true := by simpa using hne
  refine ⟨?_, ?_, ?_⟩
  · rw [pass_bit cfg raw num_rows e s r c hr hc hrow]
    simp [cell_bit, hl]
  · rw [pass_counter_at cfg raw num_rows e s r c hr hc hlen,
      cell_counter_pressed_active cfg e _ _ _ _ hact, hl, hx]
    simp
  · apply pass_flag_of_flip cfg raw num_rows e s r c hr hc
    simp [cell_flips, hl, hx]

/-- A call seen from a position whose timer runs and whose pending flag is set. -/
theorem step_active (cfg : Config) (num_rows : Nat) (s : Mem) (call : Call) (r c : Nat)
    (hr : r < num_rows) (hc : c < cfg.MATRIX_COLS) (hrow : r < s.cooked.length)
    (hact : 0 < (s.counter (r * cfg.MATRIX_COLS + c)).time.val)
    (hneed : s.counters_need_update = true) (he : 0 < call_elapsed cfg s call) :
    ((step cfg num_rows s call).counter (r * cfg.MATRIX_COLS + c)).time.val
        = (s.counter (r * cfg.MATRIX_COLS + c)).time.val - call_elapsed cfg s call
      ∧ (step cfg num_rows s call).cooked_bit r c
          = cell_bit cfg (raw_bit call.raw r c) (s.cooked_bit r c)
              (s.counter (r * cfg.MATRIX_COLS + c))
      ∧ (in_lockout cfg (s.counter (r * cfg.MATRIX_COLS + c)) = false →
          ((step cfg num_rows s call).counter (r * cfg.MATRIX_COLS + c)).pressed
            = (s.counter (r * cfg.MATRIX_COLS + c)).pressed)
      ∧ (call_elapsed cfg s call < (s.counter (r * cfg.MATRIX_COLS + c)).time.val →
          (step cfg num_rows s call).counters_need_update = true) := by
  have hrun : (s.counters_need_update || call.changed) = true := by rw [hneed]; rfl
  rw [step_pass cfg num_rows s call hrun he]
  exact pass_active cfg call.raw num_rows (call_elapsed cfg s call) (pass_entry s call.now)
    r c hr hc hrow hact

/-- A call seen from a position in the transfer branch whose raw bit differs from its
cooked bit. -/
theorem step_transfer (cfg : Config) (num_rows : Nat) (s : Mem) (call : Call) (r c : Nat)
    (hr : r < num_rows) (hc : c < cfg.MATRIX_COLS) (hrow : r < s.cooked.length)
    (hl : in_lockout cfg (s.counter (r * cfg.MATRIX_COLS + c)) = true)
    (hne : raw_bit call.raw r c ≠ s.cooked_bit r c)
    (hneed : s.counters_need_update = true) (he : 0 < call_elapsed cfg s call) :
    (step cfg num_rows s call).cooked_bit r c = raw_bit call.raw r c
      ∧ ((step cfg num_rows s call).counter (r * cfg.MATRIX_COLS + c)).pressed = true
      ∧ (debounce cfg call.raw num_rows call.changed call.now s).1 = true := by
  have hrun : (s.counters_need_update || call.changed) = true := by rw [hneed]; rfl
  have h := pass_transfer cfg call.raw num_rows (call_elapsed cfg s call)
    (pass_entry s call.now) r c hr hc hrow hl hne
  rw [step_pass cfg num_rows s call hrun he]
  refine ⟨h.1, h.2.1, ?_⟩
  rw [debounce_pass cfg call.raw num_rows call.changed call.now s hrun he]
  exact h.2.2

/-- Claim C10 (default-constant scenario), amended: with `DEBOUNCE_INITIAL_DELAY = 5` and
`DEBOUNCE_LOCKOUT_PERIOD = 12`, from an idle position with cooked bit `0` whose raw bit is
held at `1`, a first call with elapsed `1` arms the counter and leaves `time = 17`,
`pressed = false` and the cooked bit `0`; a second call with elapsed `5` leaves `time = 12`,
`pressed = false` and the cooked bit `0`; a third call with elapsed `11` sets the cooked
bit to `1`, returns `true`, sets `pressed = true` and leaves `time = 1`; a fourth call with
elapsed at least `1` leaves `time = 0` and the cooked bit `1`. -/
theorem default_scenario (cfg : Config) (num_rows r c : Nat) (s : Mem) (c1 c2 c3 c4 : Call)
    (hI : cfg.DEBOUNCE_INITIAL_DELAY = 5) (hL : cfg.DEBOUNCE_LOCKOUT_PERIOD = 12)
    (hr : r < num_rows) (hc : c < cfg.MATRIX_COLS) (hrow : r < s.cooked.length)
    (harena : r * cfg.MATRIX_COLS + c < s.debounce_counters.length)
    (hidle : (s.counter (r * cfg.MATRIX_COLS + c)).time.val = 0)
    (hcooked : s.cooked_bit r c = false)
    (hraw : ∀ call ∈ [c1, c2, c3, c4], raw_bit call.raw r c = true)
    (hrun : (s.counters_need_update || c1.changed) = true)
    (htrace : call_trace cfg num_rows s [c1, c2, c3] = [1, 5, 11])
    (h4 : 1 ≤ call_elapsed cfg (run cfg num_rows s [c1, c2, c3]) c4) :
    (((run cfg num_rows s [c1]).counter (r * cfg.MATRIX_COLS + c)).time.val = 17
        ∧ ((run cfg num_rows s [c1]).counter (r * cfg.MATRIX_COLS + c)).pressed = false
        ∧ (run cfg num_rows s [c1]).cooked_bit r c = false)
      ∧ (((run cfg num_rows s [c1, c2]).counter (r * cfg.MATRIX_COLS + c)).time.val = 12
        ∧ ((run cfg num_rows s [c1, c2]).counter (r * cfg.MATRIX_COLS + c)).pressed = false
        ∧ (run cfg num_rows s [c1, c2]).cooked_bit r c = false)
      ∧ (((run cfg num_rows s [c1, c2, c3]).counter (r * cfg.MATRIX_COLS + c)).time.val = 1
        ∧ ((run cfg num_rows s [c1, c2, c3]).counter (r * cfg.MATRIX_COLS + c)).pressed = true
        ∧ (run cfg num_rows s [c1, c2, c3]).cooked_bit r c = true
        ∧ (debounce cfg c3.raw num_rows c3.changed c3.now (run cfg num_rows s [c1, c2])).1
            = true)
      ∧ (((run cfg num_rows s [c1, c2, c3, c4]).counter (r * cfg.MATRIX_COLS + c)).time.val = 0
        ∧ (run cfg num_rows s [c1, c2, c3, c4]).cooked_bit r c = true) := by
  have hr1 : raw_bit c1.raw r c = true := hraw c1 (by simp)
  have hr2 : raw_bit c2.raw r c = true := hraw c2 (by simp)
  have hr3 : raw_bit c3.raw r c = true := hraw c3 (by simp)
  have hr4 : raw_bit c4.raw r c = true := hraw c4 (by simp)
  have hT : TOTAL_DELAY cfg = 17 := by simp [TOTAL_DELAY, hI, hL]
  simp only [call_trace, List.cons.injEq, and_true] at htrace
  obtain ⟨he1, he2, he3⟩ := htrace
  -- the first call arms the counter
  have hs1 : run cfg num_rows s [c1] = step cfg num_rows s c1 := rfl
  obtain ⟨a1, a2, a3⟩ := pass_arms cfg c1.raw num_rows (call_elapsed cfg s c1)
    (pass_entry s c1.now) r c hr hc harena hidle
    (by rw [hr1]; show true ≠ s.cooked_bit r c; rw [hcooked]; decide)
  rw [← step_pass cfg num_rows s c1 hrun (by omega)] at a1 a2 a3
  have a2b : (step cfg num_rows s c1).cooked_bit r c = false := by rw [a2]; exact hcooked
  have t1 : ((step cfg num_rows s c1).counter (r * cfg.MATRIX_COLS + c)).time.val = 17 := by
    rw [a1, hT]; rfl
  have p1 : ((step cfg num_rows s c1).counter (r * cfg.MATRIX_COLS + c)).pressed = false := by
    rw [a1]
  -- the second call runs inside the initial delay
  have hs2 : run cfg num_rows s [c1, c2] = step cfg num_rows (step cfg num_rows s c1) c2 := rfl
  have hrow1 : r < (step cfg num_rows s c1).cooked.length := by
    rw [step_cooked_length]; exact hrow
  have nl1 : in_lockout cfg ((step cfg num_rows s c1).counter (r * cfg.MATRIX_COLS + c))
      = false := by
    rw [Bool.eq_false_iff]
    intro h
    have := (in_lockout_iff cfg _).mp h
    omega
  obtain ⟨b1, b2, b3, b4⟩ := step_active cfg num_rows (step cfg num_rows s c1) c2 r c hr hc
    hrow1 (by omega) a3 (by omega)
  have t2 : ((step cfg num_rows (step cfg num_rows s c1) c2).counter
      (r * cfg.MATRIX_COLS + c)).time.val = 12 := by rw [b1, t1, he2]
  have p2 : ((step cfg num_rows (step cfg num_rows s c1) c2).counter
      (r * cfg.MATRIX_COLS + c)).pressed = false := by rw [b3 nl1, p1]
  have k2 : (step cfg num_rows (step cfg num_rows s c1) c2).cooked_bit r c = false := by
    rw [b2]; simp [cell_bit, nl1, a2b]
  have n2 : (step cfg num_rows (step cfg num_rows s c1) c2).counters_need_update = true :=
    b4 (by omega)
  -- the third call makes the copy
  have hs3 : run cfg num_rows s [c1, c2, c3]
      = step cfg num_rows (step cfg num_rows (step cfg num_rows s c1) c2) c3 := rfl
  have hrow2 : r < (step cfg num_rows (step cfg num_rows s c1) c2).cooked.length := by
    rw [step_cooked_length]; exact hrow1
  have l2 : in_lockout cfg ((step cfg num_rows (step cfg num_rows s c1) c2).counter
      (r * cfg.MATRIX_COLS + c)) = true :=
    (in_lockout_iff cfg _).mpr ⟨by omega, by omega, p2⟩
  obtain ⟨d1, -, -, d4⟩ := step_active cfg num_rows (step cfg num_rows (step cfg num_rows s c1) c2)
    c3 r c hr hc hrow2 (by omega) n2 (by omega)
  obtain ⟨f1, f2, f3⟩ := step_transfer cfg num_rows
    (step cfg num_rows (step cfg num_rows s c1) c2) c3 r c hr hc hrow2 l2
    (by rw [hr3, k2]; decide) n2 (by omega)
  have t3 : ((step cfg num_rows (step cfg num_rows (step cfg num_rows s c1) c2) c3).counter
      (r * cfg.MATRIX_COLS + c)).time.val = 1 := by rw [d1, t2, he3]
  have k3 : (step cfg num_rows (step cfg num_rows (step cfg num_rows s c1) c2) c3).cooked_bit r c
      = true := by rw [f1, hr3]
  -- the fourth call runs the timer out
  have hs4 : run cfg num_rows s [c1, c2, c3, c4]
      = step cfg num_rows
          (step cfg num_rows (step cfg num_rows (step cfg num_rows s c1) c2) c3) c4 := rfl
  have hrow3 : r < (step cfg num_rows (step cfg num_rows (step cfg num_rows s c1) c2)
      c3).cooked.length := by
    rw [step_cooked_length]; exact hrow2
  have nl3 : in_lockout cfg
      ((step cfg num_rows (step cfg num_rows (step cfg num_rows s c1) c2) c3).counter
        (r * cfg.MATRIX_COLS + c)) = false := by
    rw [Bool.eq_false_iff]
    intro h
    have := ((in_lockout_iff cfg _).mp h).2.2
    rw [f2] at this
    cases this
  rw [hs3] at h4
  obtain ⟨g1, g2, -, -⟩ := step_active cfg num_rows
    (step cfg num_rows (step cfg num_rows (step cfg num_rows s c1) c2) c3) c4 r c hr hc hrow3
    (by omega) (d4 (by omega)) (by omega)
  rw [hs1, hs2, hs3, hs4]
  refine ⟨⟨t1, p1, a2b⟩, ⟨t2, p2, k2⟩, ⟨t3, f2, k3, f3⟩, ⟨?_, ?_⟩⟩
  · rw [g1, t3]; omega
  · rw [g2]; simp [cell_bit, nl3, k3]

theorem default_scenario_witness :
    call_trace (Config.defaults 1 16) 1 sample_rest
        [{ raw := [1], changed := true, now := 21 }, { raw := [1], changed := false, now := 26 },
          { raw := [1], changed := false, now := 37 }] = [1, 5, 11]
      ∧ ((run (Config.defaults 1 16) 1 sample_rest
          [{ raw := [1], changed := true, now := 21 }, { raw := [1], changed := false, now := 26 },
            { raw := [1], changed := false, now := 37 }]).counter
            (0 * (Config.defaults 1 16).MATRIX_COLS + 0)).time.val = 1
      ∧ (run (Config.defaults 1 16) 1 sample_rest
          [{ raw := [1], changed := true, now := 21 }, { raw := [1], changed := false, now := 26 },
            { raw := [1], changed := false, now := 37 }]).cooked_bit 0 0 = true
      ∧ ((run (Config.defaults 1 16) 1 sample_rest
          [{ raw := [1], changed := true, now := 21 }, { raw := [1], changed := false, now := 26 },
            { raw := [1], changed := false, now := 37 },
            { raw := [1], changed := false, now := 38 }]).counter
            (0 * (Config.defaults 1 16).MATRIX_COLS + 0)).time.val = 0 :=
  have h := default_scenario (Config.defaults 1 16) 1 0 0 sample_rest
    { raw := [1], changed := true, now := 21 } { raw := [1], changed := false, now := 26 }
    { raw := [1], changed := false, now := 37 } { raw := [1], changed := false, now := 38 }
    rfl rfl (by decide) (by decide) (by decide) (by decide) (by decide) (by decide) (by decide)
    (by decide) (by decide) (by decide)
  ⟨by decide, h.2.2.1.1, h.2.2.1.2.2.1, h.2.2.2.1⟩

/-! ## The elapsed ticks handed to the pass (claims C11 and C12) -/

theorem TIMER_DIFF_FAST_self (cfg : Config) (t : Nat) : TIMER_DIFF_FAST cfg t t = 0 := by
  unfold TIMER_DIFF_FAST
  have hpos : 0 < 2 ^ cfg.timer_bits := Nat.pow_pos (by decide)
  have hlt : t % 2 ^ cfg.timer_bits < 2 ^ cfg.timer_bits := Nat.mod_lt _ hpos
  have : t % 2 ^ cfg.timer_bits + (2 ^ cfg.timer_bits - t % 2 ^ cfg.timer_bits)
      = 2 ^ cfg.timer_bits := by omega
  rw [this, Nat.mod_self]

theorem elapsed_ticks_self (cfg : Config) (t : Nat) : elapsed_ticks cfg t t = 0 := by
  rw [elapsed_ticks_eq_min, TIMER_DIFF_FAST_self]
  rfl

/-- The argument that the update pass receives from `debounce`: the clamped difference
converted to `uint8_t`, which is `min d 255`. -/
theorem pass_argument_eq_min (cfg : Config) (now last_time : Nat) :
    to_uint8_t (elapsed_ticks cfg now last_time)
      = min (TIMER_DIFF_FAST cfg now last_time) 255 := by
  rw [to_uint8_t_elapsed_ticks, elapsed_ticks_eq_min]

/-- A pass that receives `255` elapsed ticks expires every active counter of the matrix. -/
theorem pass_saturated_expires (cfg : Config) (raw : List Nat) (num_rows : Nat) (s : Mem)
    (i : Nat) (hi : i < num_rows * cfg.MATRIX_COLS) (hact : 0 < (s.counter i).time.val) :
    ((update_debounce_counters_and_transfer_if_expired cfg raw num_rows 255 s).counter
      i).time.val = 0 := by
  have hin : i < s.debounce_counters.length :=
    counter_oob_time _ _ (by simp only [DEBOUNCE_ELAPSED]; exact Nat.ne_of_gt hact)
  have hlt : (s.counter i).time.val < 128 := (s.counter i).time.isLt
  rw [pass_counter cfg raw num_rows 255 s i hi hin, cell_counter_time_active cfg 255 _ _ _ _ hact]
  omega

/-- Claim C11 (saturation): for every timer reading `now` and every `last_time`, with `d`
the difference `TIMER_DIFF_FAST(now, last_time)`: when `debounce` runs the update pass, the
argument that the pass receives, the clamped local `elapsed_time` converted to `uint8_t`,
is `min d 255`; for every `d > 255` it is exactly `255`, which differs from the wrapped
value `d mod 256` whenever that is not `255`, and the pass then expires every active counter
of the matrix instead of taking `d mod 256` ticks off it. -/
theorem elapsed_saturates (cfg : Config) (raw : List Nat) (num_rows : Nat) (changed : Bool)
    (now : Nat) (s : Mem)
    (hrun : (s.counters_need_update || changed) = true)
    (hpos : 0 < TIMER_DIFF_FAST cfg now s.last_time) :
    (debounce cfg raw num_rows changed now s).2
        = update_debounce_counters_and_transfer_if_expired cfg raw num_rows
            (to_uint8_t (elapsed_ticks cfg now s.last_time)) (pass_entry s now)
      ∧ to_uint8_t (elapsed_ticks cfg now s.last_time)
          = min (TIMER_DIFF_FAST cfg now s.last_time) 255
      ∧ (255 < TIMER_DIFF_FAST cfg now s.last_time →
          to_uint8_t (elapsed_ticks cfg now s.last_time) = 255
            ∧ (to_uint8_t (TIMER_DIFF_FAST cfg now s.last_time) ≠ 255 →
                to_uint8_t (elapsed_ticks cfg now s.last_time)
                  ≠ to_uint8_t (TIMER_DIFF_FAST cfg now s.last_time))
            ∧ ∀ i, i < num_rows * cfg.MATRIX_COLS → 0 < (s.counter i).time.val →
                ((debounce cfg raw num_rows changed now s).2.counter i).time.val = 0) := by
  have he : 0 < elapsed_ticks cfg now s.last_time := by
    rw [elapsed_ticks_eq_min]; omega
  have h := debounce_pass_argument cfg raw num_rows changed now s hrun he
  have hmin := pass_argument_eq_min cfg now s.last_time
  refine ⟨by rw [h], hmin, ?_⟩
  intro hbig
  have h255 : to_uint8_t (elapsed_ticks cfg now s.last_time) = 255 := by
    rw [hmin]; omega
  refine ⟨h255, ?_, ?_⟩
  · intro hne heq
    rw [← heq, h255] at hne
    exact hne rfl
  · intro i hi hact
    rw [h, h255]
    exact pass_saturated_expires cfg raw num_rows (pass_entry s now) i hi hact

theorem elapsed_saturates_witness :
    (sample_delay.counters_need_update || false) = true
      ∧ TIMER_DIFF_FAST (Config.defaults 2 16) 276 sample_delay.last_time = 256
      ∧ to_uint8_t (TIMER_DIFF_FAST (Config.defaults 2 16) 276 sample_delay.last_time) = 0
      ∧ to_uint8_t (elapsed_ticks (Config.defaults 2 16) 276 sample_delay.last_time) = 255
      ∧ (sample_delay.counter 1).time.val = 15
      ∧ ((debounce (Config.defaults 2 16) [0] 1 false 276 sample_delay).2.counter 1).time.val
          = 0 :=
  have h := (elapsed_saturates (Config.defaults 2 16) [0] 1 false 276 sample_delay (by decide)
    (by decide)).2.2 (by decide)
  ⟨by decide, by decide, by decide, h.1, by decide, h.2.2 1 (by decide) (by decide)⟩

/-- Claim C12 (zero-elapsed skip): when the pending flag or the hint is set but the timer
reading equals `last_time`, or more generally the elapsed ticks are `0`, `debounce` returns
`false`, leaves the cooked matrix, the arena and the pending flag unchanged, and stores the
timer reading in `last_time`. -/
theorem zero_elapsed_skip (cfg : Config) (raw : List Nat) (num_rows : Nat) (changed : Bool)
    (now : Nat) (s : Mem)
    (hrun : (s.counters_need_update || changed) = true)
    (hzero : now = s.last_time ∨ elapsed_ticks cfg now s.last_time = 0) :
    (debounce cfg raw num_rows changed now s).1 = false
      ∧ (debounce cfg raw num_rows changed now s).2.cooked = s.cooked
      ∧ (debounce cfg raw num_rows changed now s).2.debounce_counters = s.debounce_counters
      ∧ (debounce cfg raw num_rows changed now s).2.counters_need_update
          = s.counters_need_update
      ∧ (debounce cfg raw num_rows changed now s).2.last_time = now := by
  have he : elapsed_ticks cfg now s.last_time = 0 := by
    rcases hzero with h | h
    · rw [h]; exact elapsed_ticks_self cfg _
    · exact h
  rw [debounce_same_tick cfg raw num_rows changed now s hrun he]
  exact ⟨rfl, rfl, rfl, rfl, rfl⟩

theorem zero_elapsed_skip_witness :
    (sample_lockout.counters_need_update || false) = true
      ∧ (debounce (Config.defaults 2 16) [2] 1 false 20 sample_lockout).1 = false
      ∧ (debounce (Config.defaults 2 16) [2] 1 false 20 sample_lockout).2.cooked
          = sample_lockout.cooked
      ∧ (debounce (Config.defaults 2 16) [2] 1 false 20 sample_lockout).2.debounce_counters
          = sample_lockout.debounce_counters
      ∧ (debounce (Config.defaults 2 16) [2] 1 false 20 sample_lockout).2.last_time = 20 :=
  have h := zero_elapsed_skip (Config.defaults 2 16) [2] 1 false 20 sample_lockout (by decide)
    (Or.inl (by decide))
  ⟨by decide, h.1, h.2.1, h.2.2.1, h.2.2.2.2⟩

/-! ## Initialisation (claims C17 and C18) -/

theorem init_position_block (cells : List debounce_counter_t) (i : Nat) (h : i < cells.length) :
    init_position (some (arena_t.block cells, i))
      = some (arena_t.block (cells.set i counter_init), i + 1) := by
  have h2 : i < (cells.set i { cells.getD i counter_init with time := time_field 0 }).length := by
    rw [List.length_set]; exact h
  simp only [init_position, arena_t.store, h, h2, if_true, getD_set_self _ _ _ _ h,
    List.set_set]
  rfl

/-- The state of `debounce_init` on a block once the first `k` counters are written. -/
theorem init_positions (cells0 : List debounce_counter_t) (j0 : Nat) :
    ∀ (m : Nat) (cells : List debounce_counter_t), cells.length = cells0.length →
      j0 + m ≤ cells0.length →
      ∃ cells2, (List.range m).foldl (fun st (_ : Nat) => init_position st)
            (some (arena_t.block cells, j0)) = some (arena_t.block cells2, j0 + m)
        ∧ cells2.length = cells0.length
        ∧ (∀ j, j0 ≤ j → j < j0 + m → cells2.getD j counter_init = counter_init)
        ∧ (∀ j, (j < j0 ∨ j0 + m ≤ j) → cells2.getD j counter_init = cells.getD j counter_init) := by
  intro m
  induction m with
  | zero =>
    intro cells hlen _
    exact ⟨cells, rfl, hlen, fun j h1 h2 => by omega, fun j _ => rfl⟩
  | succ m ih =>
    intro cells hlen hle
    obtain ⟨cells2, h1, h2, h3, h4⟩ := ih cells hlen (by omega)
    rw [List.range_succ, List.foldl_append, h1]
    have hin : j0 + m < cells2.length := by omega
    refine ⟨cells2.set (j0 + m) counter_init, ?_, ?_, ?_, ?_⟩
    · simp only [List.foldl_cons, List.foldl_nil]
      rw [init_position_block cells2 (j0 + m) hin]
      rfl
    · rw [List.length_set]; exact h2
    · intro j hj1 hj2
      by_cases hj : j = j0 + m
      · rw [hj, getD_set_self _ _ _ _ hin]
      · rw [getD_set_ne _ _ _ _ _ (fun e => hj e.symm)]
        exact h3 j hj1 (by omega)
    · intro j hj
      have hne : j0 + m ≠ j := by omega
      rw [getD_set_ne _ _ _ _ _ hne]
      exact h4 j (by omega)

theorem init_rows (cfg : Config) (cells0 : List debounce_counter_t) :
    ∀ (n : Nat), n * cfg.MATRIX_COLS ≤ cells0.length →
      ∃ cells2, (List.range n).foldl (fun st (_ : Nat) => init_row cfg st)
            (some (arena_t.block cells0, 0)) = some (arena_t.block cells2, n * cfg.MATRIX_COLS)
        ∧ cells2.length = cells0.length
        ∧ (∀ j, j < n * cfg.MATRIX_COLS → cells2.getD j counter_init = counter_init)
        ∧ (∀ j, n * cfg.MATRIX_COLS ≤ j →
            cells2.getD j counter_init = cells0.getD j counter_init) := by
  intro n
  induction n with
  | zero =>
    intro _
    exact ⟨cells0, by simp, rfl, fun j h => by omega, fun j _ => rfl⟩
  | succ n ih =>
    intro hle
    have hmul : (n + 1) * cfg.MATRIX_COLS = n * cfg.MATRIX_COLS + cfg.MATRIX_COLS := by
      rw [Nat.add_mul, Nat.one_mul]
    obtain ⟨cells1, h1, h2, h3, h4⟩ := ih (by omega)
    obtain ⟨cells2, g1, g2, g3, g4⟩ := init_positions cells0 (n * cfg.MATRIX_COLS)
      cfg.MATRIX_COLS cells1 h2 (by omega)
    rw [List.range_succ, List.foldl_append, h1]
    refine ⟨cells2, ?_, g2, ?_, ?_⟩
    · simp only [List.foldl_cons, List.foldl_nil, init_row]
      rw [g1, hmul]
    · intro j hj
      by_cases hlt : j < n * cfg.MATRIX_COLS
      · rw [g4 j (Or.inl hlt)]; exact h3 j hlt
      · exact g3 j (by omega) (by omega)
    · intro j hj
      rw [g4 j (Or.inr (by omega))]
      exact h4 j (by omega)

/-- When `malloc` returns a block of at least `num_rows * MATRIX_COLS` counters,
`debounce_init` returns with that block as arena and every counter of the
`num_rows * MATRIX_COLS` positions holds `time = 0`, `pressed = true`. -/
theorem debounce_init_block (cfg : Config) (num_rows : Nat) (cells0 : List debounce_counter_t)
    (h : num_rows * cfg.MATRIX_COLS ≤ cells0.length) :
    ∃ cells, debounce_init cfg num_rows (arena_t.block cells0) = some (arena_t.block cells)
      ∧ cells.length = cells0.length
      ∧ (∀ j, j < num_rows * cfg.MATRIX_COLS → cells.getD j counter_init = counter_init)
      ∧ (∀ j, num_rows * cfg.MATRIX_COLS ≤ j →
          cells.getD j counter_init = cells0.getD j counter_init) := by
  obtain ⟨cells, h1, h2, h3, h4⟩ := init_rows cfg cells0 num_rows h
  refine ⟨cells, ?_, h2, h3, h4⟩
  unfold debounce_init
  rw [h1]

/-- Claim C17 (initialisation): for every `num_rows`, when `malloc` returns a block of at
least `num_rows * MATRIX_COLS` counters, `debounce_init` returns with that block as arena
and each of the `num_rows * MATRIX_COLS` counters has `time == 0` and `pressed == true`,
whatever the block held before. -/
theorem debounce_init_counters (cfg : Config) (num_rows : Nat)
    (cells0 : List debounce_counter_t)
    (hmalloc : num_rows * cfg.MATRIX_COLS ≤ cells0.length) :
    ∃ cells, debounce_init cfg num_rows (arena_t.block cells0) = some (arena_t.block cells)
      ∧ ∀ j, j < num_rows * cfg.MATRIX_COLS →
          cells[j]? = some { pressed := true, time := 0 } := by
  obtain ⟨cells, h1, h2, h3, -⟩ := debounce_init_block cfg num_rows cells0 hmalloc
  refine ⟨cells, h1, ?_⟩
  intro j hj
  have hlt : j < cells.length := by omega
  have := h3 j hj
  rw [List.getD_eq_getElem _ _ hlt] at this
  rw [List.getElem?_eq_getElem hlt, this]
  rfl

theorem debounce_init_counters_witness :
    2 * (Config.defaults 2 16).MATRIX_COLS
        ≤ [(⟨false, 3⟩ : debounce_counter_t), ⟨false, 4⟩, ⟨true, 5⟩, ⟨false, 0⟩].length
      ∧ (∃ cells, debounce_init (Config.defaults 2 16) 2
            (arena_t.block [⟨false, 3⟩, ⟨false, 4⟩, ⟨true, 5⟩, ⟨false, 0⟩])
            = some (arena_t.block cells)
          ∧ ∀ j, j < 2 * (Config.defaults 2 16).MATRIX_COLS →
              cells[j]? = some { pressed := true, time := 0 }) :=
  ⟨by decide,
    debounce_init_counters (Config.defaults 2 16) 2
      [⟨false, 3⟩, ⟨false, 4⟩, ⟨true, 5⟩, ⟨false, 0⟩] (by decide)⟩

theorem init_position_on_block (st : Option (arena_t × Nat)) (h : init_on_block st) :
    init_on_block (init_position st) := by
  rcases h with h | ⟨cells, i, h⟩
  · left; rw [h]; rfl
  · rw [h]
    by_cases hi : i < cells.length
    · right
      exact ⟨_, _, init_position_block cells i hi⟩
    · left
      simp [init_position, arena_t.store, hi]

theorem init_fold_on_block (f : Option (arena_t × Nat) → Option (arena_t × Nat))
    (hf : ∀ st, init_on_block st → init_on_block (f st)) :
    ∀ (l : List Nat) (st : Option (arena_t × Nat)), init_on_block st →
      init_on_block (l.foldl (fun st (_ : Nat) => f st) st) := by
  intro l
  induction l with
  | nil => intro st h; exact h
  | cons a t ih => intro st h; exact ih _ (hf st h)

theorem init_fold_none (f : Option (arena_t × Nat) → Option (arena_t × Nat))
    (hf : f none = none) :
    ∀ (l : List Nat), l.foldl (fun st (_ : Nat) => f st) none = none := by
  intro l
  induction l with
  | nil => rfl
  | cons a t ih => simp only [List.foldl_cons, hf]; exact ih

theorem init_position_null (i : Nat) : init_position (some (arena_t.null, i)) = none := rfl

/-- A loop of `debounce_init` that starts with the null pointer either does not iterate
or has no defined result. -/
theorem init_fold_null (f : Option (arena_t × Nat) → Option (arena_t × Nat))
    (hf : f none = none) (i : Nat) (hnull : f (some (arena_t.null, i)) = none
      ∨ f (some (arena_t.null, i)) = some (arena_t.null, i)) :
    ∀ (l : List Nat), l.foldl (fun st (_ : Nat) => f st) (some (arena_t.null, i)) = none
      ∨ l.foldl (fun st (_ : Nat) => f st) (some (arena_t.null, i)) = some (arena_t.null, i) := by
  intro l
  induction l with
  | nil => right; rfl
  | cons a t ih =>
    simp only [List.foldl_cons]
    rcases hnull with h | h
    · left; rw [h]; exact init_fold_none f hf t
    · rw [h]; exact ih

theorem init_row_none (cfg : Config) : init_row cfg none = none :=
  init_fold_none init_position rfl _

/-- When `debounce_init` returns, the arena is null exactly when `malloc` returned null:
the function neither tests nor replaces the pointer. -/
theorem debounce_init_same_pointer (cfg : Config) (num_rows : Nat) (p q : arena_t)
    (h : debounce_init cfg num_rows p = some q) : q = arena_t.null ↔ p = arena_t.null := by
  unfold debounce_init at h
  cases p with
  | null =>
    have hrow : init_row cfg (some (arena_t.null, 0)) = none
        ∨ init_row cfg (some (arena_t.null, 0)) = some (arena_t.null, 0) :=
      init_fold_null init_position rfl 0 (Or.inl (init_position_null 0)) _
    rcases init_fold_null (init_row cfg) (init_row_none cfg) 0 hrow (List.range num_rows)
      with h1 | h1
    · rw [h1] at h; cases h
    · rw [h1] at h
      simp only [Option.some.injEq] at h
      exact ⟨fun _ => rfl, fun _ => h.symm⟩
  | block cells =>
    have hk : init_on_block ((List.range num_rows).foldl (fun st (_ : Nat) => init_row cfg st)
        (some (arena_t.block cells, 0))) :=
      init_fold_on_block (init_row cfg)
        (fun st hst => init_fold_on_block init_position init_position_on_block _ st hst)
        _ _ (Or.inr ⟨cells, 0, rfl⟩)
    rcases hk with h1 | ⟨cells2, i, h1⟩
    · rw [h1] at h; cases h
    · rw [h1] at h
      simp only [Option.some.injEq] at h
      constructor
      · intro hq; rw [hq] at h; cases h
      · intro hp; cases hp

/-- Claim C18 as stated fails: `debounce_init` has no test of the pointer that `malloc`
returns. With a null pointer and one position to initialise, the first iteration of the
loop is reached with the null pointer and its store `debounce_counters[0].time = 0` goes
through it (no defined result, no failure reported); with no position to initialise the
function returns normally and leaves the null pointer as the arena. -/
theorem allocation_failure_counterexample :
    init_position (some (arena_t.null, 0)) = none
      ∧ debounce_init (Config.defaults 1 16) 1 arena_t.null = none
      ∧ debounce_init (Config.defaults 1 16) 0 arena_t.null = some arena_t.null := by
  decide

/-- Claim C18 (allocation failure), amended: `debounce_init` has no failure result and does
not test the pointer that `malloc` returns; what it guarantees is conditional on the
allocation. When `malloc` returns a block of at least `num_rows * MATRIX_COLS` counters,
`debounce_init` returns normally with a non-null arena, that block; and whenever it
returns, the arena is null exactly when the pointer returned by `malloc` was null. -/
theorem allocation_unchecked (cfg : Config) (num_rows : Nat) :
    (∀ cells0 : List debounce_counter_t, num_rows * cfg.MATRIX_COLS ≤ cells0.length →
        ∃ cells, debounce_init cfg num_rows (arena_t.block cells0) = some (arena_t.block cells)
          ∧ cells.length = cells0.length)
      ∧ (∀ p q : arena_t, debounce_init cfg num_rows p = some q →
          (q = arena_t.null ↔ p = arena_t.null)) := by
  constructor
  · intro cells0 h
    obtain ⟨cells, h1, h2, -, -⟩ := debounce_init_block cfg num_rows cells0 h
    exact ⟨cells, h1, h2⟩
  · intro p q h
    exact debounce_init_same_pointer cfg num_rows p q h

theorem allocation_unchecked_witness :
    1 * (Config.defaults 1 16).MATRIX_COLS ≤ [(⟨false, 3⟩ : debounce_counter_t)].length
      ∧ (∃ cells, debounce_init (Config.defaults 1 16) 1 (arena_t.block [⟨false, 3⟩])
            = some (arena_t.block cells) ∧ cells.length = [(⟨false, 3⟩ : debounce_counter_t)].length)
      ∧ debounce_init (Config.defaults 1 16) 0 arena_t.null = some arena_t.null
      ∧ (arena_t.null = arena_t.null ↔ arena_t.null = arena_t.null) :=
  ⟨by decide,
    (allocation_unchecked (Config.defaults 1 16) 1).1 [⟨false, 3⟩] (by decide),
    by decide,
    (allocation_unchecked (Config.defaults 1 16) 0).2 arena_t.null arena_t.null (by decide)⟩

/-! ## States reachable from `debounce_init` (claims C13 and C14) -/

theorem counter_of_length_le (s : Mem) (i : Nat) (h : s.debounce_counters.length ≤ i) :
    s.counter i = counter_init :=
  getD_of_length_le counter_init _ _ h

/-- The memory after `debounce_init`: the arena has `num_rows * MATRIX_COLS` counters and
all of them are idle. -/
theorem init_arena (cfg : Config) (num_rows : Nat) (cells0 cells : List debounce_counter_t)
    (s0 : Mem)
    (hinit : debounce_init cfg num_rows (arena_t.block cells0) = some (arena_t.block cells))
    (hsize : cells0.length = num_rows * cfg.MATRIX_COLS) :
    (s0.with_arena cells).debounce_counters.length = num_rows * cfg.MATRIX_COLS
      ∧ ∀ i, (s0.with_arena cells).counter i = counter_init := by
  obtain ⟨cells2, h1, h2, h3, -⟩ := debounce_init_block cfg num_rows cells0 (by omega)
  rw [hinit] at h1
  simp only [Option.some.injEq, arena_t.block.injEq] at h1
  subst h1
  refine ⟨by show cells.length = _; omega, ?_⟩
  intro i
  by_cases hi : i < num_rows * cfg.MATRIX_COLS
  · exact h3 i hi
  · have hl : (s0.with_arena cells).debounce_counters.length ≤ i := by
      show cells.length ≤ i
      omega
    exact getD_of_length_le counter_init _ _ hl

theorem cell_time_pos_pending (cfg : Config) (e : Nat) (rb kb acc : Bool)
    (c : debounce_counter_t) (h : 0 < (cell_counter cfg e rb kb acc c).time.val) :
    cell_pending e rb kb c = true := by
  by_cases hact : 0 < c.time.val
  · rw [cell_counter_time_active cfg e rb kb acc c hact] at h
    have hne : c.time.val ≠ DEBOUNCE_ELAPSED := by simp only [DEBOUNCE_ELAPSED]; omega
    have hnle : ¬ c.time.val ≤ e := by omega
    simp [cell_pending, hne, hnle]
  · have hidle : c.time.val = 0 := by omega
    by_cases hx : (rb != kb) = true
    · simp [cell_pending, hidle, DEBOUNCE_ELAPSED, hx]
    · have hsame : rb = kb := by simpa using hx
      rw [hsame, cell_counter_idle_same cfg e kb acc c hidle] at h
      omega

theorem cell_pending_time_pos (cfg : Config) (e : Nat) (rb kb acc : Bool)
    (c : debounce_counter_t) (hguard : 0 < TOTAL_DELAY cfg) (hfit : TOTAL_DELAY cfg ≤ 127)
    (h : cell_pending e rb kb c = true) :
    0 < (cell_counter cfg e rb kb acc c).time.val := by
  by_cases hact : 0 < c.time.val
  · rw [cell_counter_time_active cfg e rb kb acc c hact]
    have hne : c.time.val ≠ DEBOUNCE_ELAPSED := by simp only [DEBOUNCE_ELAPSED]; omega
    simp only [cell_pending, hne, if_true, ne_eq, not_false_eq_true] at h
    have : ¬ c.time.val ≤ e := by simpa using h
    omega
  · have hidle : c.time.val = 0 := by omega
    have hx : (rb != kb) = true := by
      simpa [cell_pending, hidle, DEBOUNCE_ELAPSED] using h
    have hc : cell_counter cfg e rb kb acc c
        = { pressed := false, time := time_field (TOTAL_DELAY cfg) } := by
      simp [cell_counter, hidle, DEBOUNCE_ELAPSED, hx]
    rw [hc]
    show 0 < (time_field (TOTAL_DELAY cfg)).val
    rw [time_field_val _ (by omega)]
    exact hguard

/-- After a pass over an arena of `num_rows * MATRIX_COLS` counters, the pending flag is
set when some counter is active. -/
theorem pass_need_of_active (cfg : Config) (raw : List Nat) (num_rows e : Nat) (s : Mem)
    (hlen : s.debounce_counters.length = num_rows * cfg.MATRIX_COLS) (i : Nat)
    (h : 0 < ((update_debounce_counters_and_transfer_if_expired cfg raw num_rows e s).counter
      i).time.val) :
    (update_debounce_counters_and_transfer_if_expired cfg raw num_rows e s).counters_need_update
      = true := by
  by_cases hi : i < num_rows * cfg.MATRIX_COLS
  · rw [pass_counter cfg raw num_rows e s i hi (by omega)] at h
    rw [pass_need]
    exact need_upto_of_pending cfg raw e s _ i hi (cell_time_pos_pending cfg e _ _ _ _ h)
  · rw [counter_of_length_le _ i (by rw [pass_counters_length]; omega)] at h
    exact absurd h (by decide)

/-- After a pass over an arena of `num_rows * MATRIX_COLS` counters, some counter is active
when the pending flag is set. -/
theorem pass_active_of_need (cfg : Config) (raw : List Nat) (num_rows e : Nat) (s : Mem)
    (hguard : 0 < TOTAL_DELAY cfg) (hfit : TOTAL_DELAY cfg ≤ 127)
    (hlen : s.debounce_counters.length = num_rows * cfg.MATRIX_COLS)
    (h : (update_debounce_counters_and_transfer_if_expired cfg raw num_rows e
      s).counters_need_update = true) :
    ∃ i, 0 < ((update_debounce_counters_and_transfer_if_expired cfg raw num_rows e s).counter
      i).time.val := by
  rw [pass_need] at h
  simp only [need_upto, List.any_eq_true, List.mem_range] at h
  obtain ⟨j, hj, hp⟩ := h
  refine ⟨j, ?_⟩
  rw [pass_counter cfg raw num_rows e s j hj (by omega)]
  exact cell_pending_time_pos cfg e _ _ _ _ hguard hfit hp

/-- The relation between the pending flag and the active counters that every call of
`debounce` keeps. -/
theorem step_pending (cfg : Config) (num_rows : Nat) (s : Mem) (call : Call)
    (hlen : s.debounce_counters.length = num_rows * cfg.MATRIX_COLS)
    (h1 : (∃ i, 0 < (s.counter i).time.val) → s.counters_need_update = true) :
    (∃ i, 0 < ((step cfg num_rows s call).counter i).time.val) →
      (step cfg num_rows s call).counters_need_update = true := by
  unfold step
  rcases debounce_cases cfg call.raw num_rows call.changed call.now s with h | h | ⟨-, -, h⟩
  · rw [h]; exact h1
  · rw [h]; exact h1
  · rw [h]
    rintro ⟨i, hi⟩
    exact pass_need_of_active cfg call.raw num_rows _ (pass_entry s call.now) hlen i hi

theorem step_pending_only (cfg : Config) (num_rows : Nat) (s : Mem) (call : Call)
    (hguard : 0 < TOTAL_DELAY cfg) (hfit : TOTAL_DELAY cfg ≤ 127)
    (hlen : s.debounce_counters.length = num_rows * cfg.MATRIX_COLS)
    (h2 : s.counters_need_update = true → ∃ i, 0 < (s.counter i).time.val) :
    (step cfg num_rows s call).counters_need_update = true →
      ∃ i, 0 < ((step cfg num_rows s call).counter i).time.val := by
  unfold step
  rcases debounce_cases cfg call.raw num_rows call.changed call.now s with h | h | ⟨-, -, h⟩
  · rw [h]; exact h2
  · rw [h]; exact h2
  · rw [h]
    intro hn
    exact pass_active_of_need cfg call.raw num_rows _ (pass_entry s call.now) hguard hfit hlen hn

theorem run_counters_length (cfg : Config) (num_rows : Nat) :
    ∀ (calls : List Call) (s : Mem),
      (run cfg num_rows s calls).debounce_counters.length = s.debounce_counters.length := by
  intro calls
  induction calls with
  | nil => intro s; rfl
  | cons call rest ih =>
    intro s
    show (run cfg num_rows (step cfg num_rows s call) rest).debounce_counters.length = _
    rw [ih, step_counters_length]

theorem run_pending (cfg : Config) (num_rows : Nat) :
    ∀ (calls : List Call) (s : Mem),
      s.debounce_counters.length = num_rows * cfg.MATRIX_COLS →
      ((∃ i, 0 < (s.counter i).time.val) → s.counters_need_update = true) →
      (∃ i, 0 < ((run cfg num_rows s calls).counter i).time.val) →
        (run cfg num_rows s calls).counters_need_update = true := by
  intro calls
  induction calls with
  | nil => intro s _ h; exact h
  | cons call rest ih =>
    intro s hlen h
    exact ih (step cfg num_rows s call) (by rw [step_counters_length]; exact hlen)
      (step_pending cfg num_rows s call hlen h)

theorem run_pending_only (cfg : Config) (num_rows : Nat)
    (hguard : 0 < TOTAL_DELAY cfg) (hfit : TOTAL_DELAY cfg ≤ 127) :
    ∀ (calls : List Call) (s : Mem),
      s.debounce_counters.length = num_rows * cfg.MATRIX_COLS →
      (s.counters_need_update = true → ∃ i, 0 < (s.counter i).time.val) →
      (run cfg num_rows s calls).counters_need_update = true →
        ∃ i, 0 < ((run cfg num_rows s calls).counter i).time.val := by
  intro calls
  induction calls with
  | nil => intro s _ h; exact h
  | cons call rest ih =>
    intro s hlen h
    exact ih (step cfg num_rows s call) (by rw [step_counters_length]; exact hlen)
      (step_pending_only cfg num_rows s call hguard hfit hlen h)

/-- A call without hint in a memory whose pending flag is set takes the elapsed ticks off
every active counter of the matrix. -/
theorem debounce_advances (cfg : Config) (raw : List Nat) (num_rows now : Nat) (s : Mem)
    (hlen : s.debounce_counters.length = num_rows * cfg.MATRIX_COLS)
    (hneed : s.counters_need_update = true)
    (he : 0 < elapsed_ticks cfg now s.last_time) (i : Nat)
    (hact : 0 < (s.counter i).time.val) :
    ((debounce cfg raw num_rows false now s).2.counter i).time.val
      = (s.counter i).time.val - elapsed_ticks cfg now s.last_time := by
  have hrun : (s.counters_need_update || false) = true := by rw [hneed]; rfl
  rw [debounce_pass cfg raw num_rows false now s hrun he]
  have hin : i < s.debounce_counters.length :=
    counter_oob_time _ _ (by simp only [DEBOUNCE_ELAPSED]; exact Nat.ne_of_gt hact)
  show ((update_debounce_counters_and_transfer_if_expired cfg raw num_rows _
    (pass_entry s now)).counter i).time.val = _
  rw [pass_counter cfg raw num_rows _ (pass_entry s now) i (by omega) hin]
  exact cell_counter_time_active cfg _ _ _ _ _ hact

/-- Claim C13 (pending counters are never skipped): in every memory reached from
`debounce_init` (on a block of `num_rows * MATRIX_COLS` counters) by a sequence of calls of
`debounce` with the same `num_rows`, `counters_need_update` is true whenever some counter
has `time > 0`; when `debounce_init` ran with the flag clear, as at program start, and
`0 < TOTAL_DELAY <= 127`, the flag is true only then; and a call with the hint false and
nonzero elapsed ticks takes the elapsed ticks off every active counter. -/
theorem pending_never_skipped (cfg : Config) (num_rows : Nat)
    (cells0 cells : List debounce_counter_t) (s0 : Mem) (calls : List Call)
    (hinit : debounce_init cfg num_rows (arena_t.block cells0) = some (arena_t.block cells))
    (hsize : cells0.length = num_rows * cfg.MATRIX_COLS) :
    ((∃ i, 0 < ((run cfg num_rows (s0.with_arena cells) calls).counter i).time.val) →
        (run cfg num_rows (s0.with_arena cells) calls).counters_need_update = true)
      ∧ (s0.counters_need_update = false → 0 < TOTAL_DELAY cfg → TOTAL_DELAY cfg ≤ 127 →
          (run cfg num_rows (s0.with_arena cells) calls).counters_need_update = true →
          ∃ i, 0 < ((run cfg num_rows (s0.with_arena cells) calls).counter i).time.val)
      ∧ (∀ (raw : List Nat) (now i : Nat),
          0 < elapsed_ticks cfg now (run cfg num_rows (s0.with_arena cells) calls).last_time →
          0 < ((run cfg num_rows (s0.with_arena cells) calls).counter i).time.val →
          ((debounce cfg raw num_rows false now
              (run cfg num_rows (s0.with_arena cells) calls)).2.counter i).time.val
            = ((run cfg num_rows (s0.with_arena cells) calls).counter i).time.val
              - elapsed_ticks cfg now (run cfg num_rows (s0.with_arena cells) calls).last_time) := by
  obtain ⟨hlen, hidle⟩ := init_arena cfg num_rows cells0 cells s0 hinit hsize
  have hnone : ¬ ∃ i, 0 < ((s0.with_arena cells).counter i).time.val := by
    rintro ⟨i, hi⟩
    rw [hidle i] at hi
    exact absurd hi (by decide)
  have h1 := run_pending cfg num_rows calls (s0.with_arena cells) hlen
    (fun h => absurd h hnone)
  have hlen2 : (run cfg num_rows (s0.with_arena cells) calls).debounce_counters.length
      = num_rows * cfg.MATRIX_COLS := by
    rw [run_counters_length]; exact hlen
  refine ⟨h1, ?_, ?_⟩
  · intro hclear hguard hfit
    apply run_pending_only cfg num_rows hguard hfit calls (s0.with_arena cells) hlen
    intro hn
    have : (s0.with_arena cells).counters_need_update = s0.counters_need_update := rfl
    rw [this, hclear] at hn
    cases hn
  · intro raw now i he hact
    exact debounce_advances cfg raw num_rows now _ hlen2 (h1 ⟨i, hact⟩) he i hact

theorem pending_never_skipped_witness :
    debounce_init (Config.defaults 1 16) 1 (arena_t.block [⟨false, 9⟩])
        = some (arena_t.block [⟨true, 0⟩])
      ∧ 0 < ((run (Config.defaults 1 16) 1 (sample_rest.with_arena [⟨true, 0⟩])
          [{ raw := [1], changed := true, now := 21 }]).counter 0).time.val
      ∧ (run (Config.defaults 1 16) 1 (sample_rest.with_arena [⟨true, 0⟩])
          [{ raw := [1], changed := true, now := 21 }]).counters_need_update = true
      ∧ ((debounce (Config.defaults 1 16) [1] 1 false 25
          (run (Config.defaults 1 16) 1 (sample_rest.with_arena [⟨true, 0⟩])
            [{ raw := [1], changed := true, now := 21 }])).2.counter 0).time.val = 13 :=
  have h := pending_never_skipped (Config.defaults 1 16) 1 [⟨false, 9⟩] [⟨true, 0⟩] sample_rest
    [{ raw := [1], changed := true, now := 21 }] (by decide) (by decide)
  ⟨by decide, by decide, h.1 ⟨0, by decide⟩,
    (h.2.2 [1] 25 0 (by decide) (by decide)).trans (by decide)⟩

theorem cell_counter_time_bound (cfg : Config) (e : Nat) (rb kb acc : Bool)
    (c : debounce_counter_t) (h : c.time.val ≤ TOTAL_DELAY cfg) :
    (cell_counter cfg e rb kb acc c).time.val ≤ TOTAL_DELAY cfg := by
  by_cases hact : 0 < c.time.val
  · rw [cell_counter_time_active cfg e rb kb acc c hact]; omega
  · have hidle : c.time.val = 0 := by omega
    by_cases hx : (rb != kb) = true
    · have hc : cell_counter cfg e rb kb acc c
          = { pressed := false, time := time_field (TOTAL_DELAY cfg) } := by
        simp [cell_counter, hidle, DEBOUNCE_ELAPSED, hx]
      rw [hc]
      show TOTAL_DELAY cfg % 128 ≤ TOTAL_DELAY cfg
      exact Nat.mod_le _ _
    · have hsame : rb = kb := by simpa using hx
      rw [hsame, cell_counter_idle_same cfg e kb acc c hidle]
      exact h

theorem step_time_bound (cfg : Config) (num_rows : Nat) (s : Mem) (call : Call)
    (h : ∀ i, (s.counter i).time.val ≤ TOTAL_DELAY cfg) :
    ∀ i, ((step cfg num_rows s call).counter i).time.val ≤ TOTAL_DELAY cfg := by
  unfold step
  rcases debounce_cases cfg call.raw num_rows call.changed call.now s with h1 | h1 | ⟨-, -, h1⟩
  · rw [h1]; exact h
  · rw [h1]; exact h
  · rw [h1]
    intro i
    show ((update_debounce_counters_and_transfer_if_expired cfg call.raw num_rows _
      (pass_entry s call.now)).counter i).time.val ≤ _
    by_cases hin : i < num_rows * cfg.MATRIX_COLS
    · by_cases hlen : i < (pass_entry s call.now).debounce_counters.length
      · rw [pass_counter cfg call.raw num_rows _ (pass_entry s call.now) i hin hlen]
        exact cell_counter_time_bound cfg _ _ _ _ _ (h i)
      · rw [counter_of_length_le _ i (by rw [pass_counters_length]; omega)]
        exact Nat.zero_le _
    · rw [pass_counter_rest cfg call.raw num_rows _ (pass_entry s call.now) i (by omega)]
      exact h i

theorem run_time_bound (cfg : Config) (num_rows : Nat) :
    ∀ (calls : List Call) (s : Mem),
      (∀ i, (s.counter i).time.val ≤ TOTAL_DELAY cfg) →
      ∀ i, ((run cfg num_rows s calls).counter i).time.val ≤ TOTAL_DELAY cfg := by
  intro calls
  induction calls with
  | nil => intro s h; exact h
  | cons call rest ih =>
    intro s h
    exact ih (step cfg num_rows s call) (step_time_bound cfg num_rows s call h)

/-- The timer of a position after a pass, as an integer: no store into the 7-bit field
is truncated when `TOTAL_DELAY <= 127`. -/
theorem pass_time_exact (cfg : Config) (raw : List Nat) (num_rows e : Nat) (s : Mem) (r c : Nat)
    (hfit : TOTAL_DELAY cfg ≤ 127) (hr : r < num_rows) (hc : c < cfg.MATRIX_COLS)
    (harena : r * cfg.MATRIX_COLS + c < s.debounce_counters.length) :
    ((update_debounce_counters_and_transfer_if_expired cfg raw num_rows e s).counter
        (r * cfg.MATRIX_COLS + c)).time.val
      = if 0 < (s.counter (r * cfg.MATRIX_COLS + c)).time.val then
          (if (s.counter (r * cfg.MATRIX_COLS + c)).time.val ≤ e then 0
            else (s.counter (r * cfg.MATRIX_COLS + c)).time.val - e)
        else if raw_bit raw r c ≠ s.cooked_bit r c then TOTAL_DELAY cfg
        else 0 := by
  by_cases hact : 0 < (s.counter (r * cfg.MATRIX_COLS + c)).time.val
  · rw [if_pos hact, pass_counter_at cfg raw num_rows e s r c hr hc harena,
      cell_counter_time_active cfg e _ _ _ _ hact]
    split_ifs with h
    · omega
    · rfl
  · rw [if_neg hact]
    have hidle : (s.counter (r * cfg.MATRIX_COLS + c)).time.val = 0 := by omega
    by_cases hne : raw_bit raw r c ≠ s.cooked_bit r c
    · rw [if_pos hne, (pass_arms cfg raw num_rows e s r c hr hc harena hidle hne).1]
      exact time_field_val _ (by omega)
    · rw [if_neg hne]
      have heq : raw_bit raw r c = s.cooked_bit r c := by
        by_contra h; exact hne h
      rw [(pass_stays_idle cfg raw num_rows e s r c hr hc harena hidle heq).1]
      exact hidle

/-- Claim C14 (counter range invariant): when `TOTAL_DELAY <= 127`, as with the default
delays (`17`), in every memory reached from `debounce_init` (on a block of
`num_rows * MATRIX_COLS` counters) by a sequence of calls of `debounce`, every counter has
`time <= TOTAL_DELAY`; and the `time` that a pass stores for a position is, as an
integer, `0`, `TOTAL_DELAY` or `time - elapsed`, the last only when `elapsed < time`: no
store into the 7-bit field is truncated. -/
theorem counter_range (cfg : Config) (num_rows : Nat)
    (cells0 cells : List debounce_counter_t) (s0 : Mem) (calls : List Call)
    (hfit : TOTAL_DELAY cfg ≤ 127)
    (hinit : debounce_init cfg num_rows (arena_t.block cells0) = some (arena_t.block cells))
    (hsize : cells0.length = num_rows * cfg.MATRIX_COLS) :
    (∀ i, ((run cfg num_rows (s0.with_arena cells) calls).counter i).time.val
        ≤ TOTAL_DELAY cfg)
      ∧ (∀ (raw : List Nat) (e r c : Nat), r < num_rows → c < cfg.MATRIX_COLS →
          ((update_debounce_counters_and_transfer_if_expired cfg raw num_rows e
              (run cfg num_rows (s0.with_arena cells) calls)).counter
                (r * cfg.MATRIX_COLS + c)).time.val
            = if 0 < ((run cfg num_rows (s0.with_arena cells) calls).counter
                  (r * cfg.MATRIX_COLS + c)).time.val then
                (if ((run cfg num_rows (s0.with_arena cells) calls).counter
                    (r * cfg.MATRIX_COLS + c)).time.val ≤ e then 0
                  else ((run cfg num_rows (s0.with_arena cells) calls).counter
                    (r * cfg.MATRIX_COLS + c)).time.val - e)
              else if raw_bit raw r c
                  ≠ (run cfg num_rows (s0.with_arena cells) calls).cooked_bit r c then
                TOTAL_DELAY cfg
              else 0) := by
  obtain ⟨hlen, hidle⟩ := init_arena cfg num_rows cells0 cells s0 hinit hsize
  constructor
  · apply run_time_bound cfg num_rows calls
    intro i
    rw [hidle i]
    exact Nat.zero_le _
  · intro raw e r c hr hc
    apply pass_time_exact cfg raw num_rows e _ r c hfit hr hc
    rw [run_counters_length, hlen]
    exact idx_lt _ _ _ _ hr hc

theorem counter_range_witness :
    TOTAL_DELAY (Config.defaults 1 16) ≤ 127
      ∧ debounce_init (Config.defaults 1 16) 1 (arena_t.block [⟨false, 9⟩])
          = some (arena_t.block [⟨true, 0⟩])
      ∧ ((run (Config.defaults 1 16) 1 (sample_rest.with_arena [⟨true, 0⟩])
          [{ raw := [1], changed := true, now := 21 }]).counter 0).time.val = 17
      ∧ (∀ i, ((run (Config.defaults 1 16) 1 (sample_rest.with_arena [⟨true, 0⟩])
          [{ raw := [1], changed := true, now := 21 }]).counter i).time.val
            ≤ TOTAL_DELAY (Config.defaults 1 16)) :=
  ⟨by decide, by decide, by decide,
    (counter_range (Config.defaults 1 16) 1 [⟨false, 9⟩] [⟨true, 0⟩] sample_rest
      [{ raw := [1], changed := true, now := 21 }] (by decide) (by decide) (by decide)).1⟩

/-! ## The cooked bit of a position during one arming (claims C16, C19 and C20) -/

/-- A call that starts with the counter of a position outside the transfer branch leaves
the cooked bit of the position as it is. -/
theorem step_bit_outside_lockout (cfg : Config) (num_rows : Nat) (s : Mem) (call : Call)
    (r c : Nat) (h : in_lockout cfg (s.counter (r * cfg.MATRIX_COLS + c)) = false) :
    (step cfg num_rows s call).cooked_bit r c = s.cooked_bit r c := by
  unfold step
  rcases debounce_bit_cases cfg call.raw num_rows call.changed call.now s r c
    with h1 | ⟨-, -, -, hl, -⟩
  · exact h1
  · rw [h] at hl; cases hl

/-- A call that starts with the counter of a position active and `pressed` true leaves
`pressed` true and the cooked bit as it is. -/
theorem step_locked (cfg : Config) (num_rows : Nat) (s : Mem) (call : Call) (r c : Nat)
    (hr : r < num_rows) (hc : c < cfg.MATRIX_COLS)
    (hact : 0 < (s.counter (r * cfg.MATRIX_COLS + c)).time.val)
    (hp : (s.counter (r * cfg.MATRIX_COLS + c)).pressed = true) :
    (step cfg num_rows s call).cooked_bit r c = s.cooked_bit r c
      ∧ ((step cfg num_rows s call).counter (r * cfg.MATRIX_COLS + c)).pressed = true := by
  have hnl : in_lockout cfg (s.counter (r * cfg.MATRIX_COLS + c)) = false := by
    rw [Bool.eq_false_iff]
    intro h
    have := ((in_lockout_iff cfg _).mp h).2.2
    rw [hp] at this; cases this
  refine ⟨step_bit_outside_lockout cfg num_rows s call r c hnl, ?_⟩
  unfold step
  rcases debounce_cases cfg call.raw num_rows call.changed call.now s with h | h | ⟨-, -, h⟩
  · rw [h]; exact hp
  · rw [h]; exact hp
  · rw [h]
    have hlen : r * cfg.MATRIX_COLS + c < (pass_entry s call.now).debounce_counters.length :=
      counter_oob_time _ _ (by simp only [DEBOUNCE_ELAPSED]; exact Nat.ne_of_gt hact)
    show ((update_debounce_counters_and_transfer_if_expired cfg call.raw num_rows _
      (pass_entry s call.now)).counter (r * cfg.MATRIX_COLS + c)).pressed = true
    have hact2 : 0 < ((pass_entry s call.now).counter (r * cfg.MATRIX_COLS + c)).time.val :=
      hact
    have hp3 : ((pass_entry s call.now).counter (r * cfg.MATRIX_COLS + c)).pressed = true := hp
    rw [pass_counter_at cfg call.raw num_rows _ (pass_entry s call.now) r c hr hc hlen,
      cell_counter_pressed_active cfg _ _ _ _ _ hact2, hp3]
    rfl

/-- A call that changes the cooked bit of a position started in the transfer branch, copied
the raw bit and leaves `pressed` true. -/
theorem step_change_locks (cfg : Config) (num_rows : Nat) (s : Mem) (call : Call) (r c : Nat)
    (hchange : (step cfg num_rows s call).cooked_bit r c ≠ s.cooked_bit r c) :
    in_lockout cfg (s.counter (r * cfg.MATRIX_COLS + c)) = true
      ∧ (step cfg num_rows s call).cooked_bit r c = raw_bit call.raw r c
      ∧ ((step cfg num_rows s call).counter (r * cfg.MATRIX_COLS + c)).pressed = true := by
  unfold step at hchange ⊢
  rcases debounce_cases cfg call.raw num_rows call.changed call.now s with h | h | ⟨-, -, h⟩
  · rw [h] at hchange; exact absurd rfl hchange
  · rw [h] at hchange; exact absurd rfl hchange
  · rw [h] at hchange ⊢
    rcases pass_bit_cases cfg call.raw num_rows (elapsed_ticks cfg call.now s.last_time)
      (pass_entry s call.now) r c with h1 | ⟨hr, hc, hrow, hl, hb⟩
    · exact absurd h1 hchange
    · have hne : raw_bit call.raw r c ≠ (pass_entry s call.now).cooked_bit r c := by
        intro heq
        apply hchange
        show (update_debounce_counters_and_transfer_if_expired cfg call.raw num_rows _
          (pass_entry s call.now)).cooked_bit r c = s.cooked_bit r c
        rw [hb, heq]
        rfl
      have ht := pass_transfer cfg call.raw num_rows (elapsed_ticks cfg call.now s.last_time)
        (pass_entry s call.now) r c hr hc hrow hl hne
      exact ⟨hl, ht.1, ht.2.1⟩

/-- While the counter of a position is active with `pressed` true, no call changes the
cooked bit of the position. -/
theorem run_locked (cfg : Config) (num_rows r c : Nat)
    (hr : r < num_rows) (hc : c < cfg.MATRIX_COLS) :
    ∀ (calls : List Call) (s : Mem),
      (s.counter (r * cfg.MATRIX_COLS + c)).pressed = true →
      (∀ t ∈ time_trace cfg num_rows (r * cfg.MATRIX_COLS + c) s calls, 0 < t) →
      (change_trace cfg num_rows r c s calls).count true = 0
        ∧ (run cfg num_rows s calls).cooked_bit r c = s.cooked_bit r c := by
  intro calls
  induction calls with
  | nil => intro s _ _; exact ⟨rfl, rfl⟩
  | cons call rest ih =>
    intro s hp hact
    have h0 : 0 < (s.counter (r * cfg.MATRIX_COLS + c)).time.val :=
      hact _ (by simp [time_trace])
    obtain ⟨hb, hp2⟩ := step_locked cfg num_rows s call r c hr hc h0 hp
    obtain ⟨i1, i2⟩ := ih (step cfg num_rows s call) hp2
      (fun t ht => hact t (by simp only [time_trace, List.mem_cons]; exact Or.inr ht))
    constructor
    · simp only [change_trace, hb, bne_self_eq_false]
      rw [List.count_cons_of_ne (by decide)]
      exact i1
    · show (run cfg num_rows (step cfg num_rows s call) rest).cooked_bit r c = _
      rw [i2, hb]

/-- While the counter of a position stays active, at most one call changes the cooked bit
of the position. -/
theorem run_changes_at_most_once (cfg : Config) (num_rows r c : Nat)
    (hr : r < num_rows) (hc : c < cfg.MATRIX_COLS) :
    ∀ (calls : List Call) (s : Mem),
      (∀ t ∈ time_trace cfg num_rows (r * cfg.MATRIX_COLS + c) s calls, 0 < t) →
      (change_trace cfg num_rows r c s calls).count true ≤ 1 := by
  intro calls
  induction calls with
  | nil => intro s _; exact Nat.zero_le _
  | cons call rest ih =>
    intro s hact
    have hact2 : ∀ t ∈ time_trace cfg num_rows (r * cfg.MATRIX_COLS + c)
        (step cfg num_rows s call) rest, 0 < t :=
      fun t ht => hact t (by simp only [time_trace, List.mem_cons]; exact Or.inr ht)
    by_cases hch : (step cfg num_rows s call).cooked_bit r c = s.cooked_bit r c
    · simp only [change_trace, hch, bne_self_eq_false]
      rw [List.count_cons_of_ne (by decide)]
      exact ih _ hact2
    · have hp := (step_change_locks cfg num_rows s call r c hch).2.2
      have h0 := (run_locked cfg num_rows r c hr hc rest _ hp hact2).1
      have hb : ((step cfg num_rows s call).cooked_bit r c != s.cooked_bit r c) = true := by
        simpa using hch
      simp only [change_trace, hb, List.count_cons_self, h0]
      exact Nat.le_refl _

/-- A sequence of calls none of which changes the cooked bit of a position leaves the bit
as it is. -/
theorem run_no_change (cfg : Config) (num_rows r c : Nat) :
    ∀ (calls : List Call) (s : Mem),
      (change_trace cfg num_rows r c s calls).count true = 0 →
      (run cfg num_rows s calls).cooked_bit r c = s.cooked_bit r c := by
  intro calls
  induction calls with
  | nil => intro s _; rfl
  | cons call rest ih =>
    intro s h
    by_cases hch : (step cfg num_rows s call).cooked_bit r c = s.cooked_bit r c
    · simp only [change_trace, hch, bne_self_eq_false] at h
      rw [List.count_cons_of_ne (by decide)] at h
      show (run cfg num_rows (step cfg num_rows s call) rest).cooked_bit r c = _
      rw [ih _ h, hch]
    · have hb : ((step cfg num_rows s call).cooked_bit r c != s.cooked_bit r c) = true := by
        simpa using hch
      simp only [change_trace, hb, List.count_cons_self] at h
      omega

/-- Claim C19 (at most one cooked change per arming): from the call that finds the counter
of a position idle and arms it, through the calls that start with the counter active (the
last of which may return it to `time == 0`), the cooked bit of the position changes on at
most one call, whatever the matrices hold. -/
theorem at_most_one_change_per_arming (cfg : Config) (num_rows r c : Nat) (s : Mem)
    (first : Call) (rest : List Call)
    (hr : r < num_rows) (hc : c < cfg.MATRIX_COLS)
    (hidle : (s.counter (r * cfg.MATRIX_COLS + c)).time.val = 0)
    (hact : ∀ t ∈ time_trace cfg num_rows (r * cfg.MATRIX_COLS + c)
      (step cfg num_rows s first) rest, 0 < t) :
    (change_trace cfg num_rows r c s (first :: rest)).count true ≤ 1 := by
  have hb := step_bit_outside_lockout cfg num_rows s first r c
    (in_lockout_of_idle cfg _ hidle)
  simp only [change_trace, hb, bne_self_eq_false]
  rw [List.count_cons_of_ne (by decide)]
  exact run_changes_at_most_once cfg num_rows r c hr hc rest _ hact

theorem at_most_one_change_per_arming_witness :
    (sample_rest.counter (0 * (Config.defaults 1 16).MATRIX_COLS + 0)).time.val = 0
      ∧ time_trace (Config.defaults 1 16) 1 0 sample_rest
          [{ raw := [1], changed := true, now := 21 }, { raw := [1], changed := false, now := 26 },
            { raw := [0], changed := true, now := 37 }, { raw := [1], changed := true, now := 38 }]
          = [0, 17, 12, 1]
      ∧ change_trace (Config.defaults 1 16) 1 0 0 sample_rest
          [{ raw := [1], changed := true, now := 21 }, { raw := [1], changed := false, now := 26 },
            { raw := [0], changed := true, now := 37 }, { raw := [1], changed := true, now := 38 }]
          = [false, false, false, true]
      ∧ (change_trace (Config.defaults 1 16) 1 0 0 sample_rest
          [{ raw := [1], changed := true, now := 21 }, { raw := [1], changed := false, now := 26 },
            { raw := [0], changed := true, now := 37 },
            { raw := [1], changed := true, now := 38 }]).count true ≤ 1 :=
  ⟨by decide, by decide, by decide,
    at_most_one_change_per_arming (Config.defaults 1 16) 1 0 0 sample_rest
      { raw := [1], changed := true, now := 21 }
      [{ raw := [1], changed := false, now := 26 }, { raw := [0], changed := true, now := 37 },
        { raw := [1], changed := true, now := 38 }]
      (by decide) (by decide) (by decide) (by decide)⟩

/-! ## The transfer of one arming (claim C16) -/

/-- A call that finds the counter of a position active and leaves it active, with the
pending flag set at its start, keeps `pressed` outside the transfer branch and leaves the
pending flag set. -/
theorem step_keeps_course (cfg : Config) (num_rows : Nat) (s : Mem) (call : Call) (r c : Nat)
    (hr : r < num_rows) (hc : c < cfg.MATRIX_COLS) (hrow : r < s.cooked.length)
    (hneed : s.counters_need_update = true)
    (hact : 0 < (s.counter (r * cfg.MATRIX_COLS + c)).time.val)
    (hnext : 0 < ((step cfg num_rows s call).counter (r * cfg.MATRIX_COLS + c)).time.val) :
    (step cfg num_rows s call).counters_need_update = true
      ∧ (in_lockout cfg (s.counter (r * cfg.MATRIX_COLS + c)) = false →
          ((step cfg num_rows s call).counter (r * cfg.MATRIX_COLS + c)).pressed
            = (s.counter (r * cfg.MATRIX_COLS + c)).pressed) := by
  by_cases he : 0 < call_elapsed cfg s call
  · obtain ⟨h1, -, h3, h4⟩ := step_active cfg num_rows s call r c hr hc hrow hact hneed he
    rw [h1] at hnext
    exact ⟨h4 (by omega), h3⟩
  · have hrun : (s.counters_need_update || call.changed) = true := by rw [hneed]; rfl
    have hz : elapsed_ticks cfg call.now s.last_time = 0 := by
      unfold call_elapsed at he; omega
    have hs : step cfg num_rows s call = pass_entry s call.now := by
      unfold step
      rw [debounce_same_tick cfg call.raw num_rows call.changed call.now s hrun hz]
    rw [hs]
    exact ⟨hneed, fun _ => rfl⟩

/-- While the calls start with `time > DEBOUNCE_LOCKOUT_PERIOD` and the counter is still
active afterwards, the cooked bit of the position, `pressed == false` and the pending flag
are kept. -/
theorem run_initial_delay (cfg : Config) (num_rows r c : Nat)
    (hr : r < num_rows) (hc : c < cfg.MATRIX_COLS) :
    ∀ (pre : List Call) (s : Mem),
      r < s.cooked.length →
      (s.counter (r * cfg.MATRIX_COLS + c)).pressed = false →
      s.counters_need_update = true →
      (∀ t ∈ time_trace cfg num_rows (r * cfg.MATRIX_COLS + c) s pre,
        cfg.DEBOUNCE_LOCKOUT_PERIOD < t) →
      0 < ((run cfg num_rows s pre).counter (r * cfg.MATRIX_COLS + c)).time.val →
      (run cfg num_rows s pre).cooked_bit r c = s.cooked_bit r c
        ∧ ((run cfg num_rows s pre).counter (r * cfg.MATRIX_COLS + c)).pressed = false
        ∧ (run cfg num_rows s pre).counters_need_update = true
        ∧ r < (run cfg num_rows s pre).cooked.length := by
  intro pre
  induction pre with
  | nil => intro s hrow hp hn _ _; exact ⟨rfl, hp, hn, hrow⟩
  | cons call rest ih =>
    intro s hrow hp hn htr hfin
    have ht : cfg.DEBOUNCE_LOCKOUT_PERIOD < (s.counter (r * cfg.MATRIX_COLS + c)).time.val :=
      htr _ (by simp [time_trace])
    have htr2 : ∀ t ∈ time_trace cfg num_rows (r * cfg.MATRIX_COLS + c)
        (step cfg num_rows s call) rest, cfg.DEBOUNCE_LOCKOUT_PERIOD < t :=
      fun t h => htr t (by simp only [time_trace, List.mem_cons]; exact Or.inr h)
    have hnl : in_lockout cfg (s.counter (r * cfg.MATRIX_COLS + c)) = false := by
      rw [Bool.eq_false_iff]
      intro h
      have := (in_lockout_iff cfg _).mp h
      omega
    have hnext : 0 < ((step cfg num_rows s call).counter (r * cfg.MATRIX_COLS + c)).time.val := by
      cases rest with
      | nil => exact hfin
      | cons y ys =>
        have := htr2 ((step cfg num_rows s call).counter (r * cfg.MATRIX_COLS + c)).time.val
          (by simp [time_trace])
        omega
    obtain ⟨k1, k2⟩ := step_keeps_course cfg num_rows s call r c hr hc hrow hn (by omega) hnext
    have hb := step_bit_outside_lockout cfg num_rows s call r c hnl
    obtain ⟨i1, i2, i3, i4⟩ := ih (step cfg num_rows s call)
      (by rw [step_cooked_length]; exact hrow) (by rw [k2 hnl]; exact hp) k1 htr2 hfin
    exact ⟨by
      show (run cfg num_rows (step cfg num_rows s call) rest).cooked_bit r c = _
      rw [i1, hb], i2, i3, i4⟩

theorem run_append (cfg : Config) (num_rows : Nat) (s : Mem) (a b : List Call) :
    run cfg num_rows s (a ++ b) = run cfg num_rows (run cfg num_rows s a) b := by
  unfold run
  rw [List.foldl_append]

/-- Claim C16 as stated fails: with the default delays the position is armed (`time = 17`),
a call with elapsed `5` leaves `time = 12`; the first call that starts with
`time <= DEBOUNCE_LOCKOUT_PERIOD` presents the raw bit `0`, equal to the cooked bit, so its
copy changes nothing and `pressed` stays false; the next call presents the raw bit `1`,
which is copied; when the counter is back at `time == 0` the cooked bit is `1`, a raw value
presented later in the arming than the first lockout call. -/
theorem transfer_once_counterexample :
    time_trace (Config.defaults 1 16) 1 0 sample_rest
        [{ raw := [1], changed := true, now := 21 }, { raw := [1], changed := false, now := 26 },
          { raw := [0], changed := true, now := 30 }, { raw := [1], changed := true, now := 33 },
          { raw := [1], changed := false, now := 45 }] = [0, 17, 12, 8, 5]
      ∧ raw_bit [0] 0 0 = false
      ∧ (run (Config.defaults 1 16) 1 sample_rest
          [{ raw := [1], changed := true, now := 21 }, { raw := [1], changed := false, now := 26 },
            { raw := [0], changed := true, now := 30 }]).counter 0
          = { pressed := false, time := 8 }
      ∧ ((run (Config.defaults 1 16) 1 sample_rest
          [{ raw := [1], changed := true, now := 21 }, { raw := [1], changed := false, now := 26 },
            { raw := [0], changed := true, now := 30 }, { raw := [1], changed := true, now := 33 },
            { raw := [1], changed := false, now := 45 }]).counter 0).time.val = 0
      ∧ (run (Config.defaults 1 16) 1 sample_rest
          [{ raw := [1], changed := true, now := 21 }, { raw := [1], changed := false, now := 26 },
            { raw := [0], changed := true, now := 30 }, { raw := [1], changed := true, now := 33 },
            { raw := [1], changed := false, now := 45 }]).cooked_bit 0 0 = true := by
  decide

/-- Claim C16 (transfer once per arming), amended: after the call that arms the counter of
a position, whatever raw does, the cooked bit is unchanged by the calls that start with
`time > DEBOUNCE_LOCKOUT_PERIOD`; if the first call that starts with
`0 < time <= DEBOUNCE_LOCKOUT_PERIOD` has nonzero elapsed ticks and presents a raw bit that
differs from the cooked bit, the cooked bit takes that raw bit on that call and holds it
through all later calls that start with the counter active, up to its return to
`time == 0`: raw values presented earlier or later do not reach cooked. -/
theorem transfer_once (cfg : Config) (num_rows r c : Nat) (s : Mem) (first : Call)
    (pre : List Call) (x : Call) (post : List Call)
    (hr : r < num_rows) (hc : c < cfg.MATRIX_COLS) (hrow : r < s.cooked.length)
    (harena : r * cfg.MATRIX_COLS + c < s.debounce_counters.length)
    (hidle : (s.counter (r * cfg.MATRIX_COLS + c)).time.val = 0)
    (hmismatch : raw_bit first.raw r c ≠ s.cooked_bit r c)
    (hrun : (s.counters_need_update || first.changed) = true)
    (hfirst : 0 < call_elapsed cfg s first)
    (hpre : ∀ t ∈ time_trace cfg num_rows (r * cfg.MATRIX_COLS + c)
      (step cfg num_rows s first) pre, cfg.DEBOUNCE_LOCKOUT_PERIOD < t)
    (hopen : 0 < ((run cfg num_rows s (first :: pre)).counter
      (r * cfg.MATRIX_COLS + c)).time.val)
    (hwindow : ((run cfg num_rows s (first :: pre)).counter
      (r * cfg.MATRIX_COLS + c)).time.val ≤ cfg.DEBOUNCE_LOCKOUT_PERIOD)
    (hx : 0 < call_elapsed cfg (run cfg num_rows s (first :: pre)) x)
    (hdiff : raw_bit x.raw r c ≠ s.cooked_bit r c)
    (hpost : ∀ t ∈ time_trace cfg num_rows (r * cfg.MATRIX_COLS + c)
      (step cfg num_rows (run cfg num_rows s (first :: pre)) x) post, 0 < t) :
    (run cfg num_rows s (first :: pre)).cooked_bit r c = s.cooked_bit r c
      ∧ (run cfg num_rows s (first :: pre ++ x :: post)).cooked_bit r c = raw_bit x.raw r c := by
  have hstep := step_pass cfg num_rows s first hrun hfirst
  obtain ⟨a1, a2, a3⟩ := pass_arms cfg first.raw num_rows (call_elapsed cfg s first)
    (pass_entry s first.now) r c hr hc harena hidle hmismatch
  rw [← hstep] at a1 a2 a3
  have hs1 : run cfg num_rows s (first :: pre)
      = run cfg num_rows (step cfg num_rows s first) pre := rfl
  rw [hs1] at hopen hwindow hx hpost ⊢
  obtain ⟨d1, d2, d3, d4⟩ := run_initial_delay cfg num_rows r c hr hc pre
    (step cfg num_rows s first) (by rw [step_cooked_length]; exact hrow) (by rw [a1]) a3
    hpre hopen
  have hb1 : (run cfg num_rows (step cfg num_rows s first) pre).cooked_bit r c
      = s.cooked_bit r c := by
    rw [d1, a2]; rfl
  refine ⟨hb1, ?_⟩
  have hl : in_lockout cfg ((run cfg num_rows (step cfg num_rows s first) pre).counter
      (r * cfg.MATRIX_COLS + c)) = true :=
    (in_lockout_iff cfg _).mpr ⟨hopen, hwindow, d2⟩
  obtain ⟨f1, f2, -⟩ := step_transfer cfg num_rows
    (run cfg num_rows (step cfg num_rows s first) pre) x r c hr hc d4 hl
    (by rw [hb1]; exact hdiff) d3 hx
  have hfinal : run cfg num_rows s (first :: pre ++ x :: post)
      = run cfg num_rows (step cfg num_rows
          (run cfg num_rows (step cfg num_rows s first) pre) x) post := by
    show run cfg num_rows (step cfg num_rows s first) (pre ++ x :: post) = _
    rw [run_append]
    rfl
  rw [hfinal, (run_locked cfg num_rows r c hr hc post _ f2 hpost).2, f1]

theorem transfer_once_witness :
    time_trace (Config.defaults 1 16) 1 0 sample_rest
        [{ raw := [1], changed := true, now := 21 }, { raw := [0], changed := true, now := 26 },
          { raw := [1], changed := true, now := 30 }, { raw := [0], changed := true, now := 33 },
          { raw := [0], changed := false, now := 45 }] = [0, 17, 12, 8, 5]
      ∧ (run (Config.defaults 1 16) 1 sample_rest
          ({ raw := [1], changed := true, now := 21 }
            :: [{ raw := [0], changed := true, now := 26 }])).cooked_bit 0 0
          = sample_rest.cooked_bit 0 0
      ∧ (run (Config.defaults 1 16) 1 sample_rest
          ({ raw := [1], changed := true, now := 21 }
            :: [{ raw := [0], changed := true, now := 26 }]
            ++ { raw := [1], changed := true, now := 30 }
            :: [{ raw := [0], changed := true, now := 33 },
                { raw := [0], changed := false, now := 45 }])).cooked_bit 0 0
          = raw_bit [1] 0 0 :=
  have h := transfer_once (Config.defaults 1 16) 1 0 0 sample_rest
    { raw := [1], changed := true, now := 21 } [{ raw := [0], changed := true, now := 26 }]
    { raw := [1], changed := true, now := 30 }
    [{ raw := [0], changed := true, now := 33 }, { raw := [0], changed := false, now := 45 }]
    (by decide) (by decide) (by decide) (by decide) (by decide) (by decide) (by decide)
    (by decide) (by decide) (by decide) (by decide) (by decide) (by decide) (by decide)
  ⟨by decide, h.1, h.2⟩

/-! ## Convergence under bounded scan intervals (claim C20) -/

theorem call_trace_append (cfg : Config) (num_rows : Nat) :
    ∀ (a b : List Call) (s : Mem),
      call_trace cfg num_rows s (a ++ b)
        = call_trace cfg num_rows s a ++ call_trace cfg num_rows (run cfg num_rows s a) b := by
  intro a
  induction a with
  | nil => intro b s; rfl
  | cons call rest ih =>
    intro b s
    show call_elapsed cfg s call :: call_trace cfg num_rows (step cfg num_rows s call) (rest ++ b)
      = _
    rw [ih]
    rfl

/-- While the elapsed ticks handed out so far stay below the `time` of an active counter,
every call starts with the counter active. -/
theorem run_starts_active (cfg : Config) (num_rows r c : Nat)
    (hr : r < num_rows) (hc : c < cfg.MATRIX_COLS) (last : Call) :
    ∀ (body : List Call) (s : Mem),
      r < s.cooked.length →
      0 < (s.counter (r * cfg.MATRIX_COLS + c)).time.val →
      s.counters_need_update = true →
      (∀ e ∈ call_trace cfg num_rows s body, 1 ≤ e) →
      (call_trace cfg num_rows s body).sum < (s.counter (r * cfg.MATRIX_COLS + c)).time.val →
      ∀ t ∈ time_trace cfg num_rows (r * cfg.MATRIX_COLS + c) s (body ++ [last]), 0 < t := by
  intro body
  induction body with
  | nil =>
    intro s _ hact _ _ _ t ht
    simp only [List.nil_append, time_trace, List.mem_singleton] at ht
    rw [ht]; exact hact
  | cons call rest ih =>
    intro s hrow hact hneed hsteps hsum t ht
    simp only [List.cons_append, time_trace, List.mem_cons] at ht
    rcases ht with ht | ht
    · rw [ht]; exact hact
    · have he : 1 ≤ call_elapsed cfg s call := hsteps _ (by simp [call_trace])
      simp only [call_trace, List.sum_cons] at hsum
      obtain ⟨h1, -, -, h4⟩ := step_active cfg num_rows s call r c hr hc hrow hact hneed
        (by omega)
      exact ih (step cfg num_rows s call) (by rw [step_cooked_length]; exact hrow)
        (by rw [h1]; omega) (h4 (by omega))
        (fun e h => hsteps e (by simp only [call_trace, List.mem_cons]; exact Or.inr h))
        (by rw [h1]; omega) t ht

/-- Claim C20 (convergence under bounded scan intervals): an idle position whose raw bit
differs from its cooked bit is armed by a call that runs the update pass; when the raw bit
is then held and the following calls have elapsed ticks in `[1, DEBOUNCE_LOCKOUT_PERIOD]`,
then after the call with which the elapsed ticks after arming first reach `TOTAL_DELAY`
the counter is at `time == 0`, the cooked bit equals the raw bit, and the cooked bit has
changed on exactly one call. The delays satisfy `0 < TOTAL_DELAY <= 127`. -/
theorem bounded_scan_convergence (cfg : Config) (num_rows r c : Nat) (b : Bool) (s : Mem)
    (first : Call) (body : List Call) (last : Call)
    (hguard : 0 < TOTAL_DELAY cfg) (hfit : TOTAL_DELAY cfg ≤ 127)
    (hr : r < num_rows) (hc : c < cfg.MATRIX_COLS) (hrow : r < s.cooked.length)
    (harena : r * cfg.MATRIX_COLS + c < s.debounce_counters.length)
    (hidle : (s.counter (r * cfg.MATRIX_COLS + c)).time.val = 0)
    (hflip : s.cooked_bit r c ≠ b)
    (hheld : ∀ call ∈ first :: (body ++ [last]), raw_bit call.raw r c = b)
    (hrun : (s.counters_need_update || first.changed) = true)
    (hfirst : 0 < call_elapsed cfg s first)
    (hsteps : ∀ e ∈ call_trace cfg num_rows (step cfg num_rows s first) (body ++ [last]),
      1 ≤ e ∧ e ≤ cfg.DEBOUNCE_LOCKOUT_PERIOD)
    (hbefore : (call_trace cfg num_rows (step cfg num_rows s first) body).sum
      < TOTAL_DELAY cfg)
    (hreach : TOTAL_DELAY cfg
      ≤ (call_trace cfg num_rows (step cfg num_rows s first) (body ++ [last])).sum) :
    ((run cfg num_rows s (first :: (body ++ [last]))).counter
        (r * cfg.MATRIX_COLS + c)).time.val = 0
      ∧ (run cfg num_rows s (first :: (body ++ [last]))).cooked_bit r c = b
      ∧ (change_trace cfg num_rows r c s (first :: (body ++ [last]))).count true = 1 := by
  have hraw : raw_bit first.raw r c = b := hheld first (List.mem_cons_self _ _)
  have hstep := step_pass cfg num_rows s first hrun hfirst
  obtain ⟨a1, a2, a3⟩ := pass_arms cfg first.raw num_rows (call_elapsed cfg s first)
    (pass_entry s first.now) r c hr hc harena hidle (by rw [hraw]; exact fun h => hflip h.symm)
  rw [← hstep] at a1 a2 a3
  have htime : ((step cfg num_rows s first).counter (r * cfg.MATRIX_COLS + c)).time.val
      = TOTAL_DELAY cfg := by
    rw [a1]; exact time_field_val _ (by omega)
  have hrow1 : r < (step cfg num_rows s first).cooked.length := by
    rw [step_cooked_length]; exact hrow
  have hsettle := settle cfg num_rows r c b hr hc (body ++ [last]) (step cfg num_rows s first)
    hrow1 (by rw [step_counters_length]; exact harena)
    (fun x hx => hheld x (List.mem_cons_of_mem _ hx)) hsteps
    (Or.inr ⟨by rw [a1], by rw [htime]; exact hguard⟩) (fun _ => a3)
    (by rw [htime]; exact hreach)
  have hrunfirst : run cfg num_rows s (first :: (body ++ [last]))
      = run cfg num_rows (step cfg num_rows s first) (body ++ [last]) := rfl
  rw [hrunfirst]
  refine ⟨hsettle.2, hsettle.1, ?_⟩
  -- the arming call changes nothing; the later calls all start with the counter active
  have hb0 := step_bit_outside_lockout cfg num_rows s first r c (in_lockout_of_idle cfg _ hidle)
  have hcount : (change_trace cfg num_rows r c s (first :: (body ++ [last]))).count true
      = (change_trace cfg num_rows r c (step cfg num_rows s first) (body ++ [last])).count
          true := by
    simp only [change_trace, hb0, bne_self_eq_false]
    rw [List.count_cons_of_ne (by decide)]
  rw [hcount]
  have hbody : ∀ e ∈ call_trace cfg num_rows (step cfg num_rows s first) body, 1 ≤ e := by
    intro e he
    refine (hsteps e ?_).1
    rw [call_trace_append]
    exact List.mem_append_left _ he
  have hact := run_starts_active cfg num_rows r c hr hc last body (step cfg num_rows s first)
    hrow1 (by rw [htime]; exact hguard) a3 hbody (by rw [htime]; exact hbefore)
  have hle := run_changes_at_most_once cfg num_rows r c hr hc (body ++ [last])
    (step cfg num_rows s first) hact
  have hne : (change_trace cfg num_rows r c (step cfg num_rows s first)
      (body ++ [last])).count true ≠ 0 := by
    intro h0
    have := run_no_change cfg num_rows r c (body ++ [last]) (step cfg num_rows s first) h0
    rw [hsettle.1, a2] at this
    exact hflip this.symm
  omega

theorem bounded_scan_convergence_witness :
    call_trace (Config.defaults 1 16) 1
        (step (Config.defaults 1 16) 1 sample_rest { raw := [1], changed := true, now := 21 })
        ([{ raw := [1], changed := false, now := 26 }, { raw := [1], changed := false, now := 37 }]
          ++ [{ raw := [1], changed := false, now := 38 }]) = [5, 11, 1]
      ∧ ((run (Config.defaults 1 16) 1 sample_rest
          ({ raw := [1], changed := true, now := 21 }
            :: ([{ raw := [1], changed := false, now := 26 },
                { raw := [1], changed := false, now := 37 }]
              ++ [{ raw := [1], changed := false, now := 38 }]))).counter
            (0 * (Config.defaults 1 16).MATRIX_COLS + 0)).time.val = 0
      ∧ (run (Config.defaults 1 16) 1 sample_rest
          ({ raw := [1], changed := true, now := 21 }
            :: ([{ raw := [1], changed := false, now := 26 },
                { raw := [1], changed := false, now := 37 }]
              ++ [{ raw := [1], changed := false, now := 38 }]))).cooked_bit 0 0 = true
      ∧ (change_trace (Config.defaults 1 16) 1 0 0 sample_rest
          ({ raw := [1], changed := true, now := 21 }
            :: ([{ raw := [1], changed := false, now := 26 },
                { raw := [1], changed := false, now := 37 }]
              ++ [{ raw := [1], changed := false, now := 38 }]))).count true = 1 :=
  have h := bounded_scan_convergence (Config.defaults 1 16) 1 0 0 true sample_rest
    { raw := [1], changed := true, now := 21 }
    [{ raw := [1], changed := false, now := 26 }, { raw := [1], changed := false, now := 37 }]
    { raw := [1], changed := false, now := 38 }
    (by decide) (by decide) (by decide) (by decide) (by decide) (by decide) (by decide)
    (by decide) (by decide) (by decide) (by decide) (by decide) (by decide) (by decide)
  ⟨by decide, h.1, h.2.1, h.2.2⟩

/-! ## The flag `pressed` after a copy (claim C15) -/

/-- For a position that starts the pass in the transfer branch, `pressed` after the pass is
the value of `cooked_changed` right after the copy of the position: set by the copy of
this position or by a copy made earlier in the same pass. -/
theorem pass_pressed_lockout (cfg : Config) (raw : List Nat) (num_rows e : Nat) (s : Mem)
    (r c : Nat) (hr : r < num_rows) (hc : c < cfg.MATRIX_COLS)
    (hl : in_lockout cfg (s.counter (r * cfg.MATRIX_COLS + c)) = true) :
    ((update_debounce_counters_and_transfer_if_expired cfg raw num_rows e s).counter
        (r * cfg.MATRIX_COLS + c)).pressed
      = (acc_upto cfg raw s (r * cfg.MATRIX_COLS + c)
          || (raw_bit raw r c != s.cooked_bit r c)) := by
  obtain ⟨hact, -, hp⟩ := (in_lockout_iff cfg _).mp hl
  have hlen : r * cfg.MATRIX_COLS + c < s.debounce_counters.length :=
    counter_oob_time _ _ (by simp only [DEBOUNCE_ELAPSED]; exact Nat.ne_of_gt hact)
  rw [pass_counter_at cfg raw num_rows e s r c hr hc hlen,
    cell_counter_pressed_active cfg e _ _ _ _ hact, hl, hp]
  simp

/-- Claim C15 fails on the code: in one pass over a row with two positions that both start
in the lockout sub-phase with `pressed == false`, the copy of column `0` changes its cooked
bit; the raw bit of column `1` equals its cooked bit, so its copy leaves its own cooked bit
as it is, yet `pressed` of column `1` is true after the pass. With the same counter, raw bit
and cooked bit for column `1` but no change in column `0`, `pressed` stays false: the flag
follows the call-wide `cooked_changed`, not the change of the position. -/
theorem pressed_follows_call_wide_flag :
    in_lockout (Config.defaults 2 16) (sample_two_lockout.counter 1) = true
      ∧ raw_bit [1] 0 1 = sample_two_lockout.cooked_bit 0 1
      ∧ (update_debounce_counters_and_transfer_if_expired (Config.defaults 2 16) [1] 1 1
          sample_two_lockout).cooked_bit 0 1 = sample_two_lockout.cooked_bit 0 1
      ∧ ((update_debounce_counters_and_transfer_if_expired (Config.defaults 2 16) [1] 1 1
          sample_two_lockout).counter 1).pressed = true
      ∧ raw_bit [0] 0 1 = sample_two_lockout.cooked_bit 0 1
      ∧ ((update_debounce_counters_and_transfer_if_expired (Config.defaults 2 16) [0] 1 1
          sample_two_lockout).counter 1).pressed = false := by
  decide

end AsymDeferLockout
